import Mathlib

/-!
# goro: sequential models over a differentiable graph engine

A shallow embedding of `pkg/v1/model` (`io.go`, `loss.go`, `model.go`) and
`pkg/v1/layer` (`layer.go`, `chain.go`, `fc.go`, `conv2d.go`, `dropout.go`,
`maxpooling2d.go`, `flatten.go`, `reshape.go`, `activation.go`).

Conventions of the embedding:

* Go `int` is `Int`; a `t.Shape` / `[]int` is a `List Int`.
* A pointer that may be `nil` is an `Option`.
* A Go function that returns `error` returns `Option Err` (`none` is `nil`).
* A Go function that may panic (or terminate the process through
  `log.Fatal`) lives in `Go α := Except String α`; the `String` is the panic.
* A method that mutates its receiver returns the new receiver.
* `float64` fields are compared only, never computed with, so they are the
  extended rationals `F64`; `float32` payloads are IEEE bit patterns.
* The graph engine (gorgonia) is an external collaborator; the calls the
  repository makes into it are the fields of `Engine`.
-/

namespace Goro

/-! ## Basic types -/

/-- The outcome of a Go call that may panic. -/
abbrev Go (α : Type) := Except String α

/-- A `float64` as far as comparisons see it. -/
inductive F64 where
  | nan
  | negInf
  | posInf
  | fin (q : ℚ)
deriving DecidableEq

namespace F64

/-- Go `a == b` on `float64`. -/
def eq : F64 → F64 → Bool
  | fin a, fin b => decide (a = b)
  | posInf, posInf => true
  | negInf, negInf => true
  | _, _ => false

/-- Go `a < b` on `float64`. -/
def lt : F64 → F64 → Bool
  | nan, _ => false
  | _, nan => false
  | fin a, fin b => decide (a < b)
  | negInf, negInf => false
  | negInf, _ => true
  | _, negInf => false
  | posInf, _ => false
  | fin _, posInf => true

/-- Go `a > b` on `float64`. -/
def gt (a b : F64) : Bool := lt b a

/-- The constant `0`. -/
def zero : F64 := fin 0

/-- The constant `1.0`. -/
def one : F64 := fin 1

/-- The constant `0.6`: the `float64` nearest to six tenths. -/
def sixTenths : F64 := fin (5404319552844595 / 9007199254740992)

/-- The constant `0.01`: the `float64` nearest to one hundredth. -/
def oneHundredth : F64 := fin (5764607523034235 / 576460752303423488)

end F64

/-- A `tensor.Shape`. -/
abbrev Shape := List Int

/-- A `tensor.Dtype`. -/
inductive Dtype where
  | Float32
  | Float64
  | Int
  | Int32
  | Int64
  | Byte
  | Bool
deriving DecidableEq, Repr

/-- A `gorgonia.Value`: shape, element type and the bit patterns of its
elements. Two values are equal when they are bitwise equal. -/
structure Value where
  shape : Shape
  dtype : Dtype
  data : List Nat
deriving DecidableEq, Repr

/-- A `*gorgonia.Node` that the repository creates or receives: the graph it
belongs to, its identity, name, shape, element type and bound value. -/
structure Node where
  id : Nat
  graph : Option Nat
  name : String
  shape : Shape
  dtype : Dtype
  value : Option Value
deriving DecidableEq, Repr

/-- An `error` value. -/
inductive Err where
  | msg (text : String)
  | shapeMismatch (input : String) (expects got : Shape)
  | dtypeMismatch (input : String) (expects got : Dtype)
  | firstDimension (input : String) (shape : Shape)
  | inputNotFound (name : String)
  | softmaxAxis (axis : Int) (shape : Shape)
  | flattenDims (shape : Shape)
  | engine (code : Nat)
deriving DecidableEq, Repr

/-! ## Activations and initialisers (`activation.go`) -/

/-- The implementations of `ActivationFn`. -/
inductive ActivationFn where
  | Sigmoid
  | Tanh
  | ReLU
  | LeakyReLU (alpha : F64)
  | Softmax (axis : List Int)
  | Linear
deriving DecidableEq

/-- `Clone` of each activation: a new object of the same kind and parameters. -/
def ActivationFn.Clone : ActivationFn → ActivationFn
  | .Sigmoid => .Sigmoid
  | .Tanh => .Tanh
  | .ReLU => .ReLU
  | .LeakyReLU alpha => .LeakyReLU alpha
  | .Softmax axis => .Softmax axis
  | .Linear => .Linear

/-- A `gorgonia.InitWFn`: the two initialisers the repository names, or any
other one supplied by the caller. -/
inductive InitWFn where
  | GlorotN (gain : F64)
  | GlorotU (gain : F64)
  | custom (id : Nat)
deriving DecidableEq

/-! ## The graph engine -/

/-- The graph operations the repository calls. -/
inductive Op where
  | Mul
  | Add
  | Sub
  | Div
  | Square
  | Sqrt
  | Log
  | Neg
  | Exp
  | Mean
  | Sum (axis : Int)
  | HadamardProd
  | HadamardDiv
  | BroadcastAdd (left right : List Nat)
  | BroadcastHadamardDiv (left right : List Nat)
  | Reshape (shape : Shape)
  | Sigmoid
  | Tanh
  | Rectify
  | LeakyRelu (alpha : F64)
  | Conv2d (kernel : Shape) (pad stride dilation : List Int)
  | MaxPool2D (kernel : Shape) (pad stride : List Int)
  | Dropout (prob : F64)
deriving DecidableEq

/-- A `gorgonia.Solver`: the default Adam solver or one of the caller. -/
inductive Solver where
  | Adam
  | custom (id : Nat)
deriving DecidableEq

/-- The external graph engine, as far as the repository depends on it, with
the solver, the file system and the log level of the process.

* `apply op args` builds the node of an operation, or fails;
* `initW f dt shape tick` is the value an initialiser yields when it is
  called at allocation `tick` (initialisers are random);
* `letCheck n v` is the error `gorgonia.Let(n, v)` returns, if any;
* `withValueOk dt dims v` tells whether the node option `WithValue(v)` accepts
  `v` for a node of that type (it panics otherwise);
* `isScalarShape`, `isScalar`, `isVector`, `isColVec`, `isRowVec` are the
  predicates of the tensor library on shapes and nodes;
* `grad cost wrt` is the error `gorgonia.Grad` returns, if any;
* `tempFile` is the error `ioutil.TempFile` returns, if any;
* `runAll graph inputs learnables` is what `RunAll()` of a machine of that
  graph does when the inputs and learnables are these nodes: the value the
  read hook of the prediction stored, if it was reached, and the error
  returned, if any;
* `step solver learnables` is the values the learnables hold after
  `solver.Step`;
* `globalLevel` is the package variable `log.GlobalLevel`. -/
structure Engine where
  apply : Op → List Node → Except Err Node
  initW : InitWFn → Dtype → Shape → Nat → Value
  letCheck : Node → Option Value → Option Err
  withValueOk : Dtype → Nat → Option Value → Bool
  grad : Node → List Node → Option Err
  tempFile : Option Err
  isScalarShape : Shape → Bool
  isScalar : Node → Bool
  isVector : Node → Bool
  isColVec : Node → Bool
  isRowVec : Node → Bool
  runAll : Nat → List (Option Node) → List (Option Node) → Option Value × Option Err
  step : Solver → List Node → List (Option Value)
  globalLevel : Int

/-- `gorgonia.Let`: bind `v` to the node unless the engine refuses. -/
def Let (E : Engine) (n : Node) (v : Option Value) : Node × Option Err :=
  match E.letCheck n v with
  | some e => (n, some e)
  | none => ({ n with value := v }, none)

/-- `(*Node).Value`. -/
def Node.Value (n : Node) : Option Value := n.value

/-- `(*Node).Clone`: a copy outside any graph with a copy of the value. -/
def Node.Clone (n : Node) : Node := { n with graph := none }

/-! ## Inputs (`io.go`) -/

/-- An `Input` of a model. -/
structure Input where
  name : String
  shape : Shape
  dtype : Dtype
  node : Option Node
deriving DecidableEq, Repr

/-- `NewInput` without options: the type defaults to `Float32`. -/
def NewInput (name : String) (shape : Shape) : Input :=
  { name := name, shape := shape, dtype := Dtype.Float32, node := none }

/-- `AsType` applied by `NewInput`. -/
def NewInputAsType (name : String) (shape : Shape) (dtype : Dtype) : Input :=
  { NewInput name shape with dtype := dtype }

/-- `Inputs` is a slice of input. -/
abbrev Inputs := List Input

/-- The first position at which the value's shape differs from the expected
one: the loop of `Check`, entered only when the ranks agree. -/
def Input.dimsDiffer : Shape → Shape → Bool
  | s :: rest, v :: vrest => if v != s then true else Input.dimsDiffer rest vrest
  | _, _ => false

/-- `Input.Check`. -/
def Input.Check (i : Input) (value : Value) : Option Err :=
  let vShape := value.shape
  if vShape.length != i.shape.length then
    some (Err.shapeMismatch i.name i.shape vShape)
  else if Input.dimsDiffer i.shape vShape then
    some (Err.shapeMismatch i.name i.shape vShape)
  else if i.dtype != value.dtype then
    some (Err.dtypeMismatch i.name i.dtype value.dtype)
  else
    none

/-- `Input.Set`. A `nil` node makes `gorgonia.Let` panic. -/
def Input.Set (E : Engine) (i : Input) (value : Value) : Go (Input × Option Err) :=
  match i.Check value with
  | some err => pure (i, some err)
  | none =>
    match i.node with
    | none => throw "invalid memory address or nil pointer dereference"
    | some n =>
      let r := Let E n (some value)
      pure ({ i with node := some r.1 }, r.2)

/-- `Input.Clone` without options: the node is not copied. -/
def Input.Clone (i : Input) : Input :=
  { name := i.name, shape := i.shape, dtype := i.dtype, node := none }

/-- `NameAsBatch`. -/
def NameAsBatch (name : String) : String :=
  if name = "" then "" else name ++ "_batch"

/-- `Input.OneOfMany`: prepend a dimension of one; a compiled input has its
node reshaped as well. -/
def Input.OneOfMany (E : Engine) (i : Input) : Input × Option Err :=
  let shape : Shape := 1 :: i.shape
  match i.node with
  | none => ({ i with shape := shape }, none)
  | some n =>
    match E.apply (Op.Reshape shape) [n] with
    | .ok n1 => ({ i with shape := shape, node := some n1 }, none)
    | .error e => ({ i with shape := shape, node := none }, some e)

/-- `Input.AsBatch`. Writing `ret.shape[0]` panics on an empty shape. -/
def Input.AsBatch (E : Engine) (i : Input) (size : Int) : Go Input := do
  let ret := i.Clone
  let (ret, err) :=
    if ret.shape.length = 1 then ret.OneOfMany E else (ret, none)
  if let some _ := err then
    throw "OneOfMany failed"
  match ret.shape with
  | [] => throw "index out of range [0] with length 0"
  | _ :: rest =>
    pure { ret with shape := size :: rest, name := NameAsBatch ret.name }

/-- A `CloneOpt`; the repository defines `AsBatch` only. -/
inductive CloneOpt where
  | AsBatch (size : Int)

/-- Apply a `CloneOpt` to the input being built. -/
def CloneOpt.run (E : Engine) : CloneOpt → Input → Go Input
  | .AsBatch size, i => i.AsBatch E size

/-- `Input.Clone` with options. -/
def Input.CloneWith (E : Engine) (i : Input) (opts : List CloneOpt) : Go Input :=
  opts.foldlM (fun ret opt => opt.run E ret) i.Clone

/-- `Input.Validate`. -/
def Input.Validate (i : Input) : Option Err :=
  match i.shape with
  | [] => some (Err.msg "no input shape provided")
  | d :: _ =>
    if d != 1 then some (Err.firstDimension i.name i.shape) else none

/-- `Input.Squeeze`. Reading `Shape()[0]` panics on an empty shape. -/
def Input.Squeeze (i : Input) : Go Shape :=
  match i.shape with
  | [] => throw "index out of range [0] with length 0"
  | d :: rest => if d = 1 then pure rest else pure (d :: rest)

/-- `Inputs.Get`. -/
def Inputs.Get : Inputs → String → Except Err Input
  | [], name => .error (Err.inputNotFound name)
  | input :: rest, name =>
    if input.name = name then .ok input else Inputs.Get rest name

/-- `Inputs.Contains`. -/
def Inputs.Contains (i : Inputs) (name : String) : Bool :=
  i.any (fun input => input.name = name)

/-- `Inputs.Clone`. -/
def Inputs.Clone (i : Inputs) : Inputs := i.map Input.Clone

/-! ## Layer configurations (`fc.go`, `conv2d.go`, `dropout.go`,
`maxpooling2d.go`, `flatten.go`, `reshape.go`) -/

/-- The config `FC` of a fully connected layer. -/
structure FC where
  Input : Int
  Output : Int
  Name : String
  Activation : Option ActivationFn
  Init : Option InitWFn
  NoBias : Bool
  BiasInit : Option InitWFn
deriving DecidableEq

/-- The config `Conv2D` of a two dimensional convolution. -/
structure Conv2D where
  Input : Int
  Output : Int
  Height : Int
  Width : Int
  Name : String
  Activation : Option ActivationFn
  Pad : List Int
  Stride : List Int
  Dilation : List Int
  Init : Option InitWFn
deriving DecidableEq

/-- The config `Dropout`. -/
structure Dropout where
  Probability : F64
deriving DecidableEq

/-- The config `MaxPooling2D`. -/
structure MaxPooling2D where
  Kernel : Shape
  Pad : List Int
  Stride : List Int
  Name : String
deriving DecidableEq

/-- The config `Flatten`, a struct without fields. -/
structure Flatten where
deriving DecidableEq

/-- The config `Reshape`. -/
structure Reshape where
  To : Shape
deriving DecidableEq

/-- `FC.Validate`. -/
def FC.Validate (f : FC) : Option Err :=
  if f.Input = 0 then some (Err.msg "input must be set")
  else if f.Output = 0 then some (Err.msg "output must be set")
  else none

/-- `FC.ApplyDefaults`, on the struct. -/
def FC.ApplyDefaults (f : FC) : FC :=
  let f := if f.Activation = none then { f with Activation := some ActivationFn.ReLU } else f
  let f := if f.Init = none then { f with Init := some (InitWFn.GlorotN F64.one) } else f
  let f := if f.BiasInit = none then { f with BiasInit := some (InitWFn.GlorotN F64.one) } else f
  f

/-- `FC.Clone`, on the struct. Calling `Clone` on a `nil` activation panics. -/
def FC.Clone (f : FC) : Go FC :=
  match f.Activation with
  | none => throw "invalid memory address or nil pointer dereference"
  | some a =>
    pure { Input := f.Input, Output := f.Output, Name := f.Name,
           Activation := some a.Clone, Init := f.Init, NoBias := f.NoBias,
           BiasInit := f.BiasInit }

/-- `Conv2D.Validate`. -/
def Conv2D.Validate (c : Conv2D) : Option Err :=
  if c.Input = 0 then some (Err.msg "input must be set")
  else if c.Output = 0 then some (Err.msg "output must be set")
  else if c.Width = 0 then some (Err.msg "width must be set")
  else if c.Height = 0 then some (Err.msg "height must be set")
  else none

/-- `Conv2D.ApplyDefaults`, on the struct. -/
def Conv2D.ApplyDefaults (c : Conv2D) : Conv2D :=
  let c := if c.Activation = none then { c with Activation := some ActivationFn.ReLU } else c
  let c := if c.Pad.length = 0 then { c with Pad := [1, 1] } else c
  let c := if c.Stride.length = 0 then { c with Stride := [1, 1] } else c
  let c := if c.Dilation.length = 0 then { c with Dilation := [1, 1] } else c
  let c := if c.Init = none then { c with Init := some (InitWFn.GlorotU F64.one) } else c
  c

/-- `Conv2D.Clone`, on the struct. -/
def Conv2D.Clone (c : Conv2D) : Go Conv2D :=
  match c.Activation with
  | none => throw "invalid memory address or nil pointer dereference"
  | some a =>
    pure { Input := c.Input, Output := c.Output, Height := c.Height, Width := c.Width,
           Name := c.Name, Activation := some a.Clone, Pad := c.Pad, Stride := c.Stride,
           Dilation := c.Dilation, Init := c.Init }

/-- `Dropout.Validate`. -/
def Dropout.Validate (d : Dropout) : Option Err :=
  if F64.gt d.Probability F64.one || F64.lt d.Probability F64.zero then
    some (Err.msg "dropout probability must be between 0 and 1")
  else none

/-- `Dropout.ApplyDefaults`, on the struct. -/
def Dropout.ApplyDefaults (d : Dropout) : Dropout :=
  if F64.eq d.Probability F64.zero then { d with Probability := F64.sixTenths } else d

/-- `Dropout.Clone`, on the struct. -/
def Dropout.Clone (d : Dropout) : Dropout := { Probability := d.Probability }

/-- `MaxPooling2D.Validate`. -/
def MaxPooling2D.Validate (_m : MaxPooling2D) : Option Err := none

/-- `MaxPooling2D.ApplyDefaults`, on the struct. -/
def MaxPooling2D.ApplyDefaults (m : MaxPooling2D) : MaxPooling2D :=
  let m := if m.Kernel.length = 0 then { m with Kernel := [2, 2] } else m
  let m := if m.Pad.length = 0 then { m with Pad := [0, 0] } else m
  let m := if m.Stride.length = 0 then { m with Stride := [2, 2] } else m
  m

/-- `MaxPooling2D.Clone`, on the struct. -/
def MaxPooling2D.Clone (m : MaxPooling2D) : MaxPooling2D :=
  { Kernel := m.Kernel, Pad := m.Pad, Stride := m.Stride, Name := m.Name }

/-- `Flatten.Validate`. -/
def Flatten.Validate (_f : Flatten) : Option Err := none

/-- `Flatten.ApplyDefaults`, on the struct. -/
def Flatten.ApplyDefaults (f : Flatten) : Flatten := f

/-- `Flatten.Clone`, on the struct. -/
def Flatten.Clone (_f : Flatten) : Flatten := {}

/-- `Reshape.Validate`. -/
def Reshape.Validate (r : Reshape) : Option Err :=
  if r.To.length = 0 then some (Err.msg "Shape must be set on reshape") else none

/-- `Reshape.ApplyDefaults`, on the struct. -/
def Reshape.ApplyDefaults (r : Reshape) : Reshape := r

/-- `Reshape.Clone`, on the struct. -/
def Reshape.Clone (r : Reshape) : Reshape := { To := r.To }

/-- The struct behind a `Config` interface value. -/
inductive ConfigVal where
  | FC (c : FC)
  | Conv2D (c : Conv2D)
  | Dropout (c : Dropout)
  | MaxPooling2D (c : MaxPooling2D)
  | Flatten (c : Flatten)
  | Reshape (c : Reshape)
deriving DecidableEq

/-- A `Config` interface value: the struct and whether the dynamic type is
the pointer type (`*FC`) or the struct type (`FC`). All methods have value
receivers, so both implement `Config`. -/
structure Config where
  isPtr : Bool
  val : ConfigVal
deriving DecidableEq

/-- `Config.Validate`. -/
def Config.Validate (c : Config) : Option Err :=
  match c.val with
  | .FC f => f.Validate
  | .Conv2D f => f.Validate
  | .Dropout f => f.Validate
  | .MaxPooling2D f => f.Validate
  | .Flatten f => f.Validate
  | .Reshape f => f.Validate

/-- `Config.ApplyDefaults`: every implementation returns its receiver, a
struct value. -/
def Config.ApplyDefaults (c : Config) : Config :=
  match c.val with
  | .FC f => { isPtr := false, val := .FC f.ApplyDefaults }
  | .Conv2D f => { isPtr := false, val := .Conv2D f.ApplyDefaults }
  | .Dropout f => { isPtr := false, val := .Dropout f.ApplyDefaults }
  | .MaxPooling2D f => { isPtr := false, val := .MaxPooling2D f.ApplyDefaults }
  | .Flatten f => { isPtr := false, val := .Flatten f.ApplyDefaults }
  | .Reshape f => { isPtr := false, val := .Reshape f.ApplyDefaults }

/-- `Config.Clone`: `FC`, `Dropout` and `MaxPooling2D` return a pointer,
`Conv2D`, `Flatten` and `Reshape` a struct value. -/
def Config.Clone (c : Config) : Go Config :=
  match c.val with
  | .FC f => do pure { isPtr := true, val := .FC (← f.Clone) }
  | .Conv2D f => do pure { isPtr := false, val := .Conv2D (← f.Clone) }
  | .Dropout f => pure { isPtr := true, val := .Dropout f.Clone }
  | .MaxPooling2D f => pure { isPtr := true, val := .MaxPooling2D f.Clone }
  | .Flatten f => pure { isPtr := false, val := .Flatten f.Clone }
  | .Reshape f => pure { isPtr := false, val := .Reshape f.Clone }

/-! ## Nodes created by the repository -/

/-- The node `NewMatrix`, `NewTensor` or `NewScalar` adds to a graph; `tick`
is the allocation it is made at and serves as its identity. -/
def newNode (graph tick : Nat) (name : String) (shape : Shape) (dtype : Dtype)
    (value : Option Value) : Node :=
  { id := tick, graph := some graph, name := name, shape := shape, dtype := dtype,
    value := value }

/-- The node option `WithValue(v)` on a node of `dims` dimensions. -/
def withValue (E : Engine) (dtype : Dtype) (dims : Nat) (v : Option Value) :
    Go (Option Value) :=
  if E.withValueOk dtype dims v then pure v else throw "WithValue: value not accepted"

/-- The node option `WithInit(fn)`; calling a `nil` function panics. -/
def withInit (E : Engine) (fn : Option InitWFn) (dtype : Dtype) (shape : Shape)
    (tick : Nat) : Go (Option Value) :=
  match fn with
  | none => throw "invalid memory address or nil pointer dereference"
  | some f => pure (some (E.initW f dtype shape tick))

/-- Reading `n.Value()` through a pointer that may be `nil`. -/
def ptrValue (n : Option Node) : Go (Option Value) :=
  match n with
  | none => throw "invalid memory address or nil pointer dereference"
  | some n => pure n.Value

/-- `Input.Compile` without options. -/
def Input.Compile (E : Engine) (i : Input) (graph tick : Nat) : Go (Input × Nat) :=
  match i.node with
  | some _ => throw ("trying ot compile input " ++ i.name ++ " that is already compiled")
  | none =>
    let n :=
      if E.isScalarShape i.shape then newNode graph tick i.name [] i.dtype none
      else newNode graph tick i.name i.shape i.dtype none
    pure ({ i with node := some n }, tick + 1)

/-- `Input.CloneTo`. -/
def Input.CloneTo (E : Engine) (i : Input) (graph : Nat) (opts : List CloneOpt)
    (tick : Nat) : Go (Input × Nat) := do
  let ret ← i.CloneWith E opts
  match ret.node with
  | some _ =>
    match i.node with
    | none => throw "invalid memory address or nil pointer dereference"
    | some n => pure ({ ret with node := some { n with id := tick, graph := some graph } }, tick + 1)
  | none => ret.Compile E graph tick

/-- `Inputs.Compile` without options. -/
def Inputs.Compile (E : Engine) : Inputs → Nat → Nat → Go (Inputs × Nat)
  | [], _, tick => pure ([], tick)
  | input :: rest, graph, tick => do
    let (input, tick) ← input.Compile E graph tick
    let (rest, tick) ← Inputs.Compile E rest graph tick
    pure (input :: rest, tick)

/-! ## Compiled layers (`layer.go` and the layer files) -/

/-- The nodes of a fully connected layer that a sharing layer reads. -/
structure fcNodes where
  weights : Option Node
  bias : Option Node
deriving DecidableEq

/-- The compiled layer `fc`. `shared` stands for the pointer to the layer
whose learnables are shared: the nodes of that layer when the option was
applied, the only part of it that is read. -/
structure fc where
  FC : Goro.FC
  weights : Option Node
  dtype : Dtype
  bias : Option Node
  isBatched : Bool
  shared : Option fcNodes
deriving DecidableEq

/-- The compiled layer `conv2D`; `shared` holds the filter of the layer whose
learnables are shared. -/
structure conv2D where
  Conv2D : Goro.Conv2D
  dtype : Dtype
  filterShape : Shape
  kernelShape : Shape
  filter : Option Node
  shared : Option (Option Node)
  isBatched : Bool
deriving DecidableEq

/-- The compiled layer `dropout`. -/
structure dropout where
  Dropout : Goro.Dropout
  graph : Option Nat
deriving DecidableEq

/-- The compiled layer `maxPooling2D`. -/
structure maxPooling2D where
  MaxPooling2D : Goro.MaxPooling2D
  graph : Option Nat
deriving DecidableEq

/-- The compiled layer `flatten`. -/
structure flatten where
  Flatten : Goro.Flatten
  graph : Option Nat
deriving DecidableEq

/-- The compiled layer `reshape`. -/
structure reshape where
  Reshape : Goro.Reshape
  graph : Option Nat
deriving DecidableEq

/-- A `Layer` interface value. -/
inductive Layer where
  | fc (l : fc)
  | conv2D (l : conv2D)
  | dropout (l : dropout)
  | maxPooling2D (l : maxPooling2D)
  | flatten (l : flatten)
  | reshape (l : reshape)
deriving DecidableEq

/-- A `CompileOpt`. The layer handed to `WithSharedLearnables` may be `nil`. -/
inductive CompileOpt where
  | WithSharedLearnables (shared : Option Layer)
  | AsBatch
  | AsType (dtype : Dtype)
deriving DecidableEq

/-- A `CompileOpt` applied to an `fc`: the `*fc` case of each type switch.
The type assertion `shared.(*fc)` panics on any other layer. -/
def CompileOpt.runFC : CompileOpt → fc → Go fc
  | .WithSharedLearnables (some (Layer.fc sh)), lay =>
    pure { lay with shared := some { weights := sh.weights, bias := sh.bias } }
  | .WithSharedLearnables _, _ => throw "interface conversion: layer.Layer is not *layer.fc"
  | .AsBatch, lay => pure { lay with isBatched := true }
  | .AsType dtype, lay => pure { lay with dtype := dtype }

/-- A `CompileOpt` applied to a `conv2D`: the `*conv2D` case of each type
switch. -/
def CompileOpt.runConv2D : CompileOpt → conv2D → Go conv2D
  | .WithSharedLearnables (some (Layer.conv2D sh)), lay =>
    pure { lay with shared := some sh.filter }
  | .WithSharedLearnables _, _ =>
    throw "interface conversion: layer.Layer is not *layer.conv2D"
  | .AsBatch, lay => pure { lay with isBatched := true }
  | .AsType dtype, lay => pure { lay with dtype := dtype }

/-- `newFC`: the result of `ApplyDefaults` is dropped, the config is kept. -/
def newFC (config : FC) : fc :=
  { FC := config, weights := none, dtype := Dtype.Float32, bias := none,
    isBatched := false, shared := none }

/-- `FC.Compile`. -/
def FC.Compile (E : Engine) (f : FC) (graph : Nat) (opts : List CompileOpt)
    (tick : Nat) : Go (Layer × Nat) := do
  let fcn ← opts.foldlM (fun l opt => opt.runFC l) (newFC f)
  match fcn.shared with
  | some sh =>
    let wv ← ptrValue sh.weights
    let wv ← withValue E fcn.dtype 2 wv
    let weights := newNode graph tick f.Name [f.Input, f.Output] fcn.dtype wv
    if !fcn.FC.NoBias then
      let bv ← ptrValue sh.bias
      let bv ← withValue E fcn.dtype 2 bv
      let bias := newNode graph (tick + 1) (f.Name ++ "-bias") [1, f.Output] fcn.dtype bv
      pure (Layer.fc { fcn with weights := some weights, bias := some bias }, tick + 2)
    else
      pure (Layer.fc { fcn with weights := some weights }, tick + 1)
  | none =>
    let wv ← withInit E f.Init fcn.dtype [f.Input, f.Output] tick
    let weights := newNode graph tick f.Name [f.Input, f.Output] fcn.dtype wv
    if !f.NoBias then
      let bv ← withInit E f.BiasInit fcn.dtype [1, f.Output] (tick + 1)
      let bias := newNode graph (tick + 1) (f.Name ++ "-bias") [1, f.Output] fcn.dtype bv
      pure (Layer.fc { fcn with weights := some weights, bias := some bias }, tick + 2)
    else
      pure (Layer.fc { fcn with weights := some weights }, tick + 1)

/-- `newConv2D`. -/
def newConv2D (config : Conv2D) : conv2D :=
  { Conv2D := config, dtype := Dtype.Float32,
    kernelShape := [config.Height, config.Width],
    filterShape := [config.Output, config.Input, config.Height, config.Width],
    filter := none, shared := none, isBatched := false }

/-- `Conv2D.Compile`: with a shared layer the filter is first initialised and
then given the shared value. -/
def Conv2D.Compile (E : Engine) (c : Conv2D) (graph : Nat) (opts : List CompileOpt)
    (tick : Nat) : Go (Layer × Nat) := do
  let cnv ← opts.foldlM (fun l opt => opt.runConv2D l) (newConv2D c)
  match cnv.shared with
  | some sh =>
    let _ ← withInit E c.Init cnv.dtype cnv.filterShape tick
    let fv ← ptrValue sh
    let fv ← withValue E cnv.dtype 4 fv
    let filter := newNode graph tick c.Name cnv.filterShape cnv.dtype fv
    pure (Layer.conv2D { cnv with filter := some filter }, tick + 1)
  | none =>
    let fv ← withInit E c.Init cnv.dtype cnv.filterShape tick
    let filter := newNode graph tick c.Name cnv.filterShape cnv.dtype fv
    pure (Layer.conv2D { cnv with filter := some filter }, tick + 1)

/-- `Dropout.Compile`. -/
def Dropout.Compile (d : Dropout) (graph : Nat) : Layer :=
  Layer.dropout { Dropout := d, graph := some graph }

/-- `MaxPooling2D.Compile`. -/
def MaxPooling2D.Compile (m : MaxPooling2D) (graph : Nat) : Layer :=
  Layer.maxPooling2D { MaxPooling2D := m, graph := some graph }

/-- `Flatten.Compile`. -/
def Flatten.Compile (f : Flatten) (graph : Nat) : Layer :=
  Layer.flatten { Flatten := f, graph := some graph }

/-- `Reshape.Compile`. -/
def Reshape.Compile (r : Reshape) (graph : Nat) : Layer :=
  Layer.reshape { Reshape := r, graph := some graph }

/-- `Config.Compile`. -/
def Config.Compile (E : Engine) (c : Config) (graph : Nat) (opts : List CompileOpt)
    (tick : Nat) : Go (Layer × Nat) :=
  match c.val with
  | .FC f => f.Compile E graph opts tick
  | .Conv2D f => f.Compile E graph opts tick
  | .Dropout f => pure (f.Compile graph, tick)
  | .MaxPooling2D f => pure (f.Compile graph, tick)
  | .Flatten f => pure (f.Compile graph, tick)
  | .Reshape f => pure (f.Compile graph, tick)

/-- `Learnables` of each layer: the node pointers, which may be `nil`. -/
def Layer.Learnables : Layer → List (Option Node)
  | .fc f => if f.bias.isSome then [f.weights, f.bias] else [f.weights]
  | .conv2D c => [c.filter]
  | .dropout _ => []
  | .maxPooling2D _ => []
  | .flatten _ => []
  | .reshape _ => []

/-- `fc.Clone`: the clone of the config is asserted to be an `FC` struct; the
new layer has no nodes. -/
def fc.Clone (f : fc) : Go Layer := do
  let cloned ← Config.Clone { isPtr := true, val := ConfigVal.FC f.FC }
  match cloned.isPtr, cloned.val with
  | false, .FC config =>
    pure (Layer.fc { FC := config, weights := none, dtype := f.dtype, bias := none,
                     isBatched := f.isBatched, shared := f.shared })
  | _, _ => throw "interface conversion: layer.Config is *layer.FC, not layer.FC"

/-- `conv2D.Clone`: the clone of the config is asserted to be a `*Conv2D`; the
new layer keeps the filter. -/
def conv2D.Clone (c : conv2D) : Go Layer := do
  let cloned ← Config.Clone { isPtr := true, val := ConfigVal.Conv2D c.Conv2D }
  match cloned.isPtr, cloned.val with
  | true, .Conv2D config =>
    pure (Layer.conv2D { Conv2D := config, dtype := c.dtype, filterShape := [],
                         kernelShape := [], filter := c.filter, shared := none,
                         isBatched := c.isBatched })
  | _, _ => throw "interface conversion: layer.Config is layer.Conv2D, not *layer.Conv2D"

/-- `dropout.Clone`: the clone of the config is asserted to be a `*Dropout`. -/
def dropout.Clone (d : dropout) : Go Layer := do
  let cloned ← Config.Clone { isPtr := true, val := ConfigVal.Dropout d.Dropout }
  match cloned.isPtr, cloned.val with
  | true, .Dropout config => pure (Layer.dropout { Dropout := config, graph := none })
  | _, _ => throw "interface conversion: layer.Config is layer.Dropout, not *layer.Dropout"

/-- `maxPooling2D.Clone`: the clone of the config is asserted to be a
`*MaxPooling2D`. -/
def maxPooling2D.Clone (m : maxPooling2D) : Go Layer := do
  let cloned ← Config.Clone { isPtr := true, val := ConfigVal.MaxPooling2D m.MaxPooling2D }
  match cloned.isPtr, cloned.val with
  | true, .MaxPooling2D config =>
    pure (Layer.maxPooling2D { MaxPooling2D := config, graph := none })
  | _, _ =>
    throw "interface conversion: layer.Config is layer.MaxPooling2D, not *layer.MaxPooling2D"

/-- `flatten.Clone`: the clone of the config is asserted to be a `*Flatten`. -/
def flatten.Clone (f : flatten) : Go Layer := do
  let cloned ← Config.Clone { isPtr := true, val := ConfigVal.Flatten f.Flatten }
  match cloned.isPtr, cloned.val with
  | true, .Flatten config => pure (Layer.flatten { Flatten := config, graph := none })
  | _, _ => throw "interface conversion: layer.Config is layer.Flatten, not *layer.Flatten"

/-- `reshape.Clone`: the clone of the config is asserted to be a `*Reshape`. -/
def reshape.Clone (r : reshape) : Go Layer := do
  let cloned ← Config.Clone { isPtr := true, val := ConfigVal.Reshape r.Reshape }
  match cloned.isPtr, cloned.val with
  | true, .Reshape config => pure (Layer.reshape { Reshape := config, graph := none })
  | _, _ => throw "interface conversion: layer.Config is layer.Reshape, not *layer.Reshape"

/-- `Clone` of a `Layer` interface value. -/
def Layer.Clone : Layer → Go Layer
  | .fc l => l.Clone
  | .conv2D l => l.Clone
  | .dropout l => l.Clone
  | .maxPooling2D l => l.Clone
  | .flatten l => l.Clone
  | .reshape l => l.Clone

/-! ## Forward passes -/

/-- The result of a Go function returning `(*Node, error)` that may panic. -/
abbrev Fwd := Go (Except Err Node)

/-- Run an engine operation and continue with its node; an error is returned
to the caller. -/
def withOp (E : Engine) (op : Op) (args : List Node) (k : Node → Fwd) : Fwd :=
  match E.apply op args with
  | .error e => pure (.error e)
  | .ok n => k n

/-- The shape the sum is reshaped to in `softMax`: `ss` copied into a fresh
slice of `ss.Dims() + diff` ints, shifted right from `axis`, with a one put at
`axis`. The slice expressions panic when `axis` is out of range. -/
def softMaxNewShape (ss : Shape) (diff : Nat) (axis : Int) : Go Shape :=
  let n := ss.length + diff
  let base : Shape := ss ++ List.replicate diff 0
  if axis < 0 ∨ (n : Int) < axis + 1 then
    throw "slice bounds out of range"
  else if (n : Int) ≤ axis then
    throw "index out of range"
  else
    let a := axis.toNat
    pure (base.take a ++ 1 :: (base.drop a).take (n - a - 1))

/-- The function `softMax` of `activation.go`. The error of the reshape that
squeezes the leading one is dropped, after which the `nil` node is used. -/
def softMax (E : Engine) (a : Node) (axes : List Int) : Fwd :=
  match a.shape with
  | [] => throw "index out of range [0] with length 0"
  | d :: rest => do
    let (aShape, a) ←
      if d = 1 then
        match E.apply (Op.Reshape rest) [a] with
        | .ok a1 => (pure (rest, a1) : Go (Shape × Node))
        | .error _ => throw "invalid memory address or nil pointer dereference"
      else pure (d :: rest, a)
    let axis : Int := (aShape.length : Int) - 1
    let axis := if E.isColVec a || (E.isVector a && !E.isRowVec a) then 0 else axis
    let checked : Except Err Int :=
      match axes with
      | [] => .ok axis
      | ax :: _ =>
        if ax ≥ axis + 1 ∨ ax < 0 then .error (Err.softmaxAxis ax a.shape) else .ok ax
    match checked with
    | .error e => pure (.error e)
    | .ok axis =>
      withOp E Op.Exp [a] fun exp =>
      withOp E (Op.Sum axis) [exp] fun sum =>
      if E.isScalar sum then
        withOp E Op.HadamardDiv [exp, sum] fun r => pure (.ok r)
      else
        let ss := sum.shape
        let diff : Int := (exp.shape.length : Int) - (ss.length : Int)
        let pattern : List Nat := [(axis % 256).toNat]
        if diff > 0 then do
          let newShape ← softMaxNewShape ss diff.toNat axis
          withOp E (Op.Reshape newShape) [sum] fun sum =>
          withOp E (Op.BroadcastHadamardDiv [] pattern) [exp, sum] fun r => pure (.ok r)
        else
          withOp E (Op.BroadcastHadamardDiv [] pattern) [exp, sum] fun r => pure (.ok r)

/-- The default axis of `softMax` for the node `a` it works on after the
squeeze, whose shape is then `aShape`: the last axis, or axis 0 when the node
is a column vector or a vector that is not a row vector. -/
def softMaxDefaultAxis (E : Engine) (a : Node) (aShape : Shape) : Int :=
  if E.isColVec a || (E.isVector a && !E.isRowVec a) then 0 else (aShape.length : Int) - 1

/-- The part of `softMax` that follows the choice of the axis: the exponential
of `a` divided by its sum along `axis`, the sum being reshaped and broadcast
along `axis` unless it is a scalar. -/
def softMaxAlong (E : Engine) (a : Node) (axis : Int) : Fwd :=
  withOp E Op.Exp [a] fun exp =>
  withOp E (Op.Sum axis) [exp] fun sum =>
  if E.isScalar sum then
    withOp E Op.HadamardDiv [exp, sum] fun r => pure (.ok r)
  else
    let ss := sum.shape
    let diff : Int := (exp.shape.length : Int) - (ss.length : Int)
    let pattern : List Nat := [(axis % 256).toNat]
    if diff > 0 then do
      let newShape ← softMaxNewShape ss diff.toNat axis
      withOp E (Op.Reshape newShape) [sum] fun sum =>
      withOp E (Op.BroadcastHadamardDiv [] pattern) [exp, sum] fun r => pure (.ok r)
    else
      withOp E (Op.BroadcastHadamardDiv [] pattern) [exp, sum] fun r => pure (.ok r)

/-- `Fwd` of each activation. -/
def ActivationFn.Fwd (E : Engine) : ActivationFn → Node → Goro.Fwd
  | .Sigmoid, x => pure (E.apply Op.Sigmoid [x])
  | .Tanh, x => pure (E.apply Op.Tanh [x])
  | .ReLU, x => pure (E.apply Op.Rectify [x])
  | .LeakyReLU alpha, x => pure (E.apply (Op.LeakyRelu alpha) [x])
  | .Softmax axis, x => softMax E x axis
  | .Linear, _x => pure (.ok _x)

/-- `fc.Fwd`. -/
def fc.Fwd (E : Engine) (f : fc) (x : Node) : Goro.Fwd := do
  let normalized : Except Err Node :=
    if E.isVector x then E.apply (Op.Reshape (1 :: x.shape)) [x] else .ok x
  match normalized with
  | .error e => pure (.error e)
  | .ok x =>
    match f.weights with
    | none => throw "invalid memory address or nil pointer dereference"
    | some w =>
      withOp E Op.Mul [x, w] fun xw =>
      let act : Node → Goro.Fwd := fun xwb =>
        match f.FC.Activation with
        | none => pure (.ok xwb)
        | some a => a.Fwd E xwb
      match f.bias with
      | none => act xw
      | some b =>
        if f.isBatched then withOp E (Op.BroadcastAdd [] [0]) [xw, b] act
        else withOp E Op.Add [xw, b] act

/-- `conv2D.Fwd`. -/
def conv2D.Fwd (E : Engine) (c : conv2D) (x : Node) : Goro.Fwd :=
  match c.filter with
  | none => throw "invalid memory address or nil pointer dereference"
  | some filter =>
    withOp E (Op.Conv2d c.kernelShape c.Conv2D.Pad c.Conv2D.Stride c.Conv2D.Dilation)
      [x, filter] fun n =>
    match c.Conv2D.Activation with
    | none => throw "invalid memory address or nil pointer dereference"
    | some a => a.Fwd E n

/-- `dropout.Fwd`. -/
def dropout.Fwd (E : Engine) (d : dropout) (x : Node) : Goro.Fwd :=
  pure (E.apply (Op.Dropout d.Dropout.Probability) [x])

/-- `maxPooling2D.Fwd`. -/
def maxPooling2D.Fwd (E : Engine) (m : maxPooling2D) (x : Node) : Goro.Fwd :=
  pure (E.apply (Op.MaxPool2D m.MaxPooling2D.Kernel m.MaxPooling2D.Pad m.MaxPooling2D.Stride) [x])

/-- A Go `int` after an arithmetic operation: the value wrapped to 64 bits. -/
def wrapInt (x : Int) : Int := (x + 2 ^ 63) % 2 ^ 64 - 2 ^ 63

/-- The loop `product *= d` of `flatten.Fwd`. -/
def flattenProduct (s : Shape) : Int :=
  s.foldl (fun product d => wrapInt (product * d)) 1

/-- `flatten.Fwd`. -/
def flatten.Fwd (E : Engine) (_f : flatten) (x : Node) : Goro.Fwd :=
  match x.shape with
  | [] => pure (.error (Err.flattenDims x.shape))
  | [_] => pure (.error (Err.flattenDims x.shape))
  | batch :: s => pure (E.apply (Op.Reshape [batch, flattenProduct s]) [x])

/-- `reshape.Fwd`. Reading `x.Shape()[0]` panics on an empty shape. -/
def reshape.Fwd (E : Engine) (r : reshape) (x : Node) : Goro.Fwd :=
  match x.shape with
  | [] => throw "index out of range [0] with length 0"
  | batch :: _ => pure (E.apply (Op.Reshape (batch :: r.Reshape.To)) [x])

/-- `Layer.Fwd`. -/
def Layer.Fwd (E : Engine) : Layer → Node → Goro.Fwd
  | .fc l, x => l.Fwd E x
  | .conv2D l, x => l.Fwd E x
  | .dropout l, x => l.Fwd E x
  | .maxPooling2D l, x => l.Fwd E x
  | .flatten l, x => l.Fwd E x
  | .reshape l, x => l.Fwd E x

/-! ## Chains (`chain.go`) -/

/-- A `Chain` of layers. `sharedLearnables` stands for the pointer to the
chain whose learnables are shared: the compiled layers of that chain when the
option was applied, the only part of it that is read. -/
structure Chain where
  Layers : List Config
  sharedLearnables : Option (List Layer)
  compileOpts : List CompileOpt
  layers : List Layer
deriving DecidableEq

/-- The empty chain `&Chain{}`. -/
def Chain.empty : Chain :=
  { Layers := [], sharedLearnables := none, compileOpts := [], layers := [] }

/-- `Chain.Fwd`, from a given prediction over the remaining layers. -/
def Chain.fwdLoop (E : Engine) : List Layer → Node → Goro.Fwd
  | [], prediction => pure (.ok prediction)
  | layer :: rest, prediction =>
    match layer.Fwd E prediction with
    | .error p => .error p
    | .ok (.error err) => pure (.error err)
    | .ok (.ok prediction) => Chain.fwdLoop E rest prediction

/-- `Chain.Fwd`. -/
def Chain.Fwd (E : Engine) (c : Chain) (x : Node) : Goro.Fwd :=
  Chain.fwdLoop E c.layers x

/-- `Chain.Learnables`. -/
def Chain.Learnables (c : Chain) : List (Option Node) :=
  c.layers.foldl (fun retVal layer => retVal ++ layer.Learnables) []

/-- The log level `ErrorLevel`. -/
def ErrorLevel : Int := 1

/-- The function `log.Fatalf`: it prints and exits only when the global level
is at least `ErrorLevel`, and returns otherwise. -/
def Fatalf (E : Engine) (message : String) : Go Unit :=
  if E.globalLevel ≥ ErrorLevel then throw message else pure ()

/-- `Chain.Add`: a config that fails validation is reported with `log.Fatalf`
before it is defaulted and appended. -/
def Chain.Add (E : Engine) (c : Chain) : List Config → Go Chain
  | [] => pure c
  | layer :: rest =>
    match layer.Validate with
    | some _ =>
      match Fatalf E "layer failed validation" with
      | .error p => .error p
      | .ok _ => Chain.Add E { c with Layers := c.Layers ++ [layer.ApplyDefaults] } rest
    | none => Chain.Add E { c with Layers := c.Layers ++ [layer.ApplyDefaults] } rest

/-- `NewChain`. -/
def NewChain (E : Engine) (layers : List Config) : Go Chain := Chain.empty.Add E layers

/-- The loop of `Chain.Clone`. -/
def Chain.cloneLoop (E : Engine) (ch : Chain) : List Config → Go Chain
  | [] => pure ch
  | layer :: rest => do
    let cloned ← layer.Clone
    let ch ← ch.Add E [cloned]
    Chain.cloneLoop E ch rest

/-- `Chain.Clone`. -/
def Chain.Clone (E : Engine) (c : Chain) : Go Chain :=
  Chain.cloneLoop E Chain.empty c.Layers

/-- A `ChainOpt`. The chain handed to `WithSharedChainLearnables` may be
`nil`. -/
inductive ChainOpt where
  | WithSharedChainLearnables (shared : Option Chain)
  | WithLayerOpts (opts : List CompileOpt)

/-- Apply a `ChainOpt`. -/
def ChainOpt.run : ChainOpt → Chain → Chain
  | .WithSharedChainLearnables shared, c =>
    { c with sharedLearnables := shared.map (fun sh => sh.layers) }
  | .WithLayerOpts opts, c => { c with compileOpts := opts }

/-- The loop of `Chain.Compile` over the configs still to compile; `i` is the
index of the next one. With a shared chain the layer at the same index is
handed to the layer as `WithSharedLearnables`. -/
def Chain.compileLoop (E : Engine) (graph : Nat) (shared : Option (List Layer))
    (compileOpts : List CompileOpt) : List Config → Nat → List Layer → Nat →
    Go (List Layer × Nat)
  | [], _, layers, tick => pure (layers, tick)
  | layer :: rest, i, layers, tick =>
    match shared with
    | some sh =>
      match sh.get? i with
      | none => throw "index out of range"
      | some shl => do
        let opts := compileOpts ++ [CompileOpt.WithSharedLearnables (some shl)]
        let (l, tick) ← layer.Compile E graph opts tick
        Chain.compileLoop E graph shared compileOpts rest (i + 1) (layers ++ [l]) tick
    | none => do
      let (l, tick) ← layer.Compile E graph compileOpts tick
      Chain.compileLoop E graph shared compileOpts rest (i + 1) (layers ++ [l]) tick

/-- `Chain.Compile`. -/
def Chain.Compile (E : Engine) (c : Chain) (graph : Nat) (opts : List ChainOpt)
    (tick : Nat) : Go (Chain × Nat) := do
  let c := opts.foldl (fun c opt => opt.run c) c
  let (layers, tick) ←
    Chain.compileLoop E graph c.sharedLearnables c.compileOpts c.Layers 0 c.layers tick
  pure ({ c with layers := layers }, tick)

/-! ## Losses (`loss.go`) -/

/-- The implementations of `Loss`; `Delta` is the bit pattern of a
`float32`. -/
inductive Loss where
  | MSE
  | CrossEntropy
  | PseudoHuber (Delta : Nat)
  | PseudoCrossEntropy
deriving DecidableEq

/-- `Inputs` of each loss: none of them uses inputs. -/
def Loss.Inputs : Loss → Inputs
  | .MSE => []
  | .CrossEntropy => []
  | .PseudoHuber _ => []
  | .PseudoCrossEntropy => []

/-- `CloneTo` of each loss: a new loss of the same kind. -/
def Loss.CloneTo (l : Loss) (_graph : Nat) (_opts : List CloneOpt) : Loss :=
  match l with
  | .MSE => .MSE
  | .CrossEntropy => .CrossEntropy
  | .PseudoHuber Delta => .PseudoHuber Delta
  | .PseudoCrossEntropy => .PseudoCrossEntropy

/-- The node `g.NewScalar(yHat.Graph(), g.Float32, g.WithValue(bits))`. -/
def scalarConst (yHat : Node) (tick : Nat) (bits : Nat) : Node :=
  { id := tick, graph := yHat.graph, name := "", shape := [], dtype := Dtype.Float32,
    value := some { shape := [], dtype := Dtype.Float32, data := [bits] } }

/-- The bit pattern of `float32(1.0)`. -/
def oneF32 : Nat := 1065353216

/-- `Compute` of each loss; `tick` identifies the constants it allocates. -/
def Loss.Compute (E : Engine) (l : Loss) (yHat y : Node) (tick : Nat) : Fwd :=
  match l with
  | .MSE =>
    withOp E Op.Sub [yHat, y] fun loss =>
    withOp E Op.Square [loss] fun loss =>
    withOp E Op.Mean [loss] fun loss => pure (.ok loss)
  | .CrossEntropy =>
    withOp E Op.Log [yHat] fun loss =>
    withOp E Op.HadamardProd [y, loss] fun loss =>
    withOp E Op.Neg [loss] fun loss =>
    withOp E Op.Mean [loss] fun loss => pure (.ok loss)
  | .PseudoHuber Delta =>
    withOp E Op.Sub [yHat, y] fun loss =>
    withOp E Op.Div [loss, scalarConst yHat tick Delta] fun loss =>
    withOp E Op.Square [loss] fun loss =>
    withOp E Op.Add [scalarConst yHat (tick + 1) oneF32, loss] fun loss =>
    withOp E Op.Sqrt [loss] fun loss =>
    withOp E Op.Sub [loss, scalarConst yHat (tick + 2) oneF32] fun loss =>
    withOp E Op.Square [scalarConst yHat (tick + 3) Delta] fun deltaSquare =>
    withOp E Op.Mul [deltaSquare, loss] fun loss =>
    withOp E (Op.Sum 1) [loss] fun loss => pure (.ok loss)
  | .PseudoCrossEntropy =>
    match E.apply Op.HadamardProd [yHat, y] with
    | .error _ => throw "log.Fatal"
    | .ok loss =>
      match E.apply Op.Mean [loss] with
      | .error _ => throw "log.Fatal"
      | .ok loss =>
        match E.apply Op.Neg [loss] with
        | .error _ => throw "log.Fatal"
        | .ok loss => pure (.ok loss)

/-- The number of nodes `Compute` allocates itself. -/
def Loss.allocs : Loss → Nat
  | .PseudoHuber _ => 4
  | _ => 0

/-! ## The tracker (`track/tracker.go`, `track/value.go`) -/

/-- A `TrackedNodeValue`: its name and the node it reads. -/
structure TrackedNodeValue where
  name : String
  node : Node
deriving DecidableEq

/-- A `Tracker`: the map `values`, as the list of its entries in the order
the keys were first set. -/
structure Tracker where
  values : List (String × TrackedNodeValue)
deriving DecidableEq

/-- `namespaceValue`. -/
def namespaceValue (ns name : String) : String := ns ++ "_" ++ name

/-- `t.values[key] = tv` on the list of entries. -/
def mapSet (values : List (String × TrackedNodeValue)) (key : String)
    (tv : TrackedNodeValue) : List (String × TrackedNodeValue) :=
  if values.any (fun kv => kv.1 = key) then
    values.map (fun kv => if kv.1 = key then (key, tv) else kv)
  else values ++ [(key, tv)]

/-- `Tracker.TrackValue(name, node, WithNamespace(ns))`. -/
def Tracker.TrackValue (t : Tracker) (name : String) (value : Node) (ns : String) :
    Tracker :=
  let tv : TrackedNodeValue := { name := namespaceValue ns name, node := value }
  { t with values := mapSet t.values tv.name tv }

/-- `track.NewTracker(track.WithLogger(logger))`: fails when the temporary
file cannot be created. -/
def NewTracker (E : Engine) : Except Err Tracker :=
  match E.tempFile with
  | some err => .error err
  | none => .ok { values := [] }

/-! ## The sequential model (`model.go`) -/

/-- A `Metric`. -/
abbrev Metric := String

/-- `TrainLossMetric`. -/
def TrainLossMetric : Metric := "train_loss"

/-- `TrainBatchLossMetric`. -/
def TrainBatchLossMetric : Metric := "train_batch_loss"

/-- `Metrics` is a set of metric. -/
abbrev Metrics := List Metric

/-- `Metrics.Contains`. -/
def Metrics.Contains (m : Metrics) (metric : Metric) : Bool :=
  m.any (fun mt => mt = metric)

/-- `AllMetrics`. -/
def AllMetrics : Metrics := [TrainLossMetric, TrainBatchLossMetric]

/-- A `gorgonia.VMOpt` the repository builds. -/
inductive VMOpt where
  | WithLogger (logger : Nat)
  | BindDualValues (nodes : List Node)
deriving DecidableEq

/-- A `gorgonia.VM` made by `NewTapeMachine`: its graph, its options, and
whether it has run since it was last reset. -/
structure VM where
  graph : Nat
  opts : List VMOpt
  dirty : Bool
deriving DecidableEq

/-- `g.NewTapeMachine(graph, opts...)`. -/
def NewTapeMachine (graph : Nat) (opts : List VMOpt) : VM :=
  { graph := graph, opts := opts, dirty := false }

/-- An `InputOr`: an `*Input` or `Inputs`. -/
inductive InputOr where
  | input (i : Input)
  | inputs (is : Inputs)

/-- `InputOr.Inputs`. -/
def InputOr.Inputs : InputOr → Goro.Inputs
  | .input i => [i]
  | .inputs is => is

/-- The model `Sequential`. Graphs are named by the allocation that made
them; `tick` counts the allocations made so far. The fields `trainPred` to
`onlineBatchPred` are the nodes whose value `g.Read` stores into
`trainPredVal` to `onlineBatchPredVal` when the graph runs. -/
structure Sequential where
  Chain : Goro.Chain
  Tracker : Option Goro.Tracker
  noTracker : Bool
  logger : Option Nat
  name : String
  x : Inputs
  y : Option Input
  fwd : Option Input
  trainChain : Option Goro.Chain
  trainBatchChain : Option Goro.Chain
  onlineChain : Option Goro.Chain
  onlineBatchChain : Option Goro.Chain
  trainGraph : Option Nat
  trainBatchGraph : Option Nat
  onlineGraph : Option Nat
  onlineBatchGraph : Option Nat
  xTrain : Inputs
  xTrainBatch : Inputs
  xTrainFwd : Option Input
  xTrainBatchFwd : Option Input
  xOnline : Inputs
  xOnlineBatch : Inputs
  xOnlineFwd : Option Input
  xOnlineBatchFwd : Option Input
  yTrain : Option Input
  yTrainBatch : Option Input
  trainPred : Option Node
  trainBatchPred : Option Node
  onlinePred : Option Node
  onlineBatchPred : Option Node
  trainPredVal : Option Value
  trainBatchPredVal : Option Value
  onlinePredVal : Option Value
  onlineBatchPredVal : Option Value
  loss : Option Loss
  trainLoss : Option Loss
  trainBatchLoss : Option Loss
  metrics : Metrics
  batchSize : Int
  optimizer : Option Solver
  trainVM : Option VM
  trainBatchVM : Option VM
  onlineVM : Option VM
  onlineBatchVM : Option VM
  vmOpts : List VMOpt
  tick : Nat

/-- `NewSequential`. -/
def NewSequential (name : String) : Sequential :=
  { Chain := Chain.empty, Tracker := none, noTracker := false, logger := none,
    name := name, x := [], y := none, fwd := none,
    trainChain := none, trainBatchChain := none, onlineChain := none,
    onlineBatchChain := none,
    trainGraph := none, trainBatchGraph := none, onlineGraph := none,
    onlineBatchGraph := none,
    xTrain := [], xTrainBatch := [], xTrainFwd := none, xTrainBatchFwd := none,
    xOnline := [], xOnlineBatch := [], xOnlineFwd := none, xOnlineBatchFwd := none,
    yTrain := none, yTrainBatch := none,
    trainPred := none, trainBatchPred := none, onlinePred := none,
    onlineBatchPred := none,
    trainPredVal := none, trainBatchPredVal := none, onlinePredVal := none,
    onlineBatchPredVal := none,
    loss := none, trainLoss := none, trainBatchLoss := none,
    metrics := AllMetrics, batchSize := 32, optimizer := none,
    trainVM := none, trainBatchVM := none, onlineVM := none, onlineBatchVM := none,
    vmOpts := [], tick := 0 }

/-- An `Opt` of the model, as built by the `With...` functions. -/
inductive Opt where
  | WithMetrics (metrics : Metrics)
  | WithLoss (loss : Option Loss)
  | WithOptimizer (optimizer : Option Solver)
  | WithTracker (tracker : Option Tracker)
  | WithoutTracker
  | WithBatchSize (size : Int)
  | WithGraphLogger (log : Nat)
  | WithLogger (logger : Option Nat)

/-- Apply an `Opt` to a `*Sequential`. -/
def Opt.run : Opt → Sequential → Sequential
  | .WithMetrics metrics, t => { t with metrics := metrics }
  | .WithLoss loss, t => { t with loss := loss }
  | .WithOptimizer optimizer, t => { t with optimizer := optimizer }
  | .WithTracker tracker, t => { t with Tracker := tracker }
  | .WithoutTracker, t => { t with noTracker := true }
  | .WithBatchSize size, t => { t with batchSize := size }
  | .WithGraphLogger log, t => { t with vmOpts := t.vmOpts ++ [VMOpt.WithLogger log] }
  | .WithLogger logger, t => { t with logger := logger }

/-- `Sequential.AddLayer`. -/
def Sequential.AddLayer (E : Engine) (s : Sequential) (layer : Config) : Go Sequential := do
  let chain ← s.Chain.Add E [layer]
  pure { s with Chain := chain }

/-- `Sequential.AddLayers`. -/
def Sequential.AddLayers (E : Engine) (s : Sequential) : List Config → Go Sequential
  | [] => pure s
  | layer :: rest => do
    let s ← s.AddLayer E layer
    Sequential.AddLayers E s rest

/-- `Sequential.Fwd`. -/
def Sequential.Fwd (s : Sequential) (x : Input) : Sequential := { s with fwd := some x }

/-! ### Building the four graphs -/

/-- Follow a pointer; a `nil` pointer panics. -/
def deref {α : Type} (p : Option α) : Go α :=
  match p with
  | none => throw "invalid memory address or nil pointer dereference"
  | some a => pure a

/-- Follow every pointer of a slice of nodes. -/
def derefAll : List (Option Node) → Go (List Node)
  | [] => pure []
  | p :: rest => do
    let n ← deref p
    let ns ← derefAll rest
    pure (n :: ns)

/-- Go `copy(dst, src)`: the first `min(len(dst), len(src))` elements of
`dst` are overwritten. -/
def goCopy {α : Type} (dst src : List α) : List α :=
  src.take dst.length ++ dst.drop src.length

/-- The result of a step of `Compile`: the model and the error returned. -/
abbrev Step := Go (Sequential × Option Err)

/-- Continue with `k` when the step returned without an error. -/
def Step.andThen (r : Step) (k : Sequential → Step) : Step :=
  match r with
  | .error p => .error p
  | .ok (s, some err) => .ok (s, some err)
  | .ok (s, none) => k s

/-- The loop over `x` of `buildTrainGraph` and `buildTrainBatchGraph`: an
input the loss already has is taken from the loss, any other is cloned into
the graph. -/
def Sequential.cloneInputs (E : Engine) (lossInputs : Inputs) (graph : Nat)
    (opts : List CloneOpt) : Inputs → Inputs → Nat → Go (Inputs × Nat)
  | [], acc, tick => pure (acc, tick)
  | input :: rest, acc, tick =>
    match lossInputs.Get input.name with
    | .ok i => Sequential.cloneInputs E lossInputs graph opts rest (acc ++ [i]) tick
    | .error _ => do
      let (i, tick) ← input.CloneTo E graph opts tick
      Sequential.cloneInputs E lossInputs graph opts rest (acc ++ [i]) tick

/-- The tracking of a loss node: done when the metric is selected and the
model has a tracker. -/
def Sequential.track (s : Sequential) (metric : Metric) (name : String) (loss : Node) :
    Sequential :=
  if s.metrics.Contains metric then
    match s.Tracker with
    | some t => { s with Tracker := some (t.TrackValue name loss s.name) }
    | none => s
  else s

/-- `Sequential.buildTrainGraph`. -/
def Sequential.buildTrainGraph (E : Engine) (s : Sequential) (x : Inputs)
    (y : Option Input) : Step := do
  let graph := s.tick
  let s := { s with trainGraph := some graph, tick := s.tick + 1 }
  let loss ← deref s.loss
  let s := { s with trainLoss := some (loss.CloneTo graph []) }
  let (xTrain, tick) ←
    Sequential.cloneInputs E (loss.CloneTo graph []).Inputs graph [] x s.xTrain s.tick
  let s := { s with xTrain := xTrain, tick := tick }
  let fwd ← deref s.fwd
  match s.xTrain.Get fwd.name with
  | .error err => pure ({ s with xTrainFwd := none }, some err)
  | .ok xTrainFwd => do
    let trainLoss := loss.CloneTo graph []
    let s := { s with xTrainFwd := some xTrainFwd, trainLoss := some trainLoss }
    let y ← deref y
    let (yTrain, tick) ← y.Clone.Compile E graph s.tick
    let s := { s with yTrain := some yTrain, tick := tick }
    let chain ← s.Chain.Clone E
    let (chain, tick) ← chain.Compile E graph [] s.tick
    let s := { s with trainChain := some chain, tick := tick }
    let xNode ← deref xTrainFwd.node
    let fwdResult ← chain.Fwd E xNode
    match fwdResult with
    | .error err => pure (s, some err)
    | .ok prediction => do
      let s := { s with trainPred := some prediction }
      let yNode ← deref yTrain.node
      let lossResult ← trainLoss.Compute E prediction yNode s.tick
      let s := { s with tick := s.tick + trainLoss.allocs }
      match lossResult with
      | .error err => pure (s, some err)
      | .ok lossNode => do
        let s := s.track TrainLossMetric "train_loss" lossNode
        let learnables ← derefAll chain.Learnables
        match E.grad lossNode learnables with
        | some err => pure (s, some err)
        | none =>
          let vmOpts := goCopy [] s.vmOpts ++ [VMOpt.BindDualValues learnables]
          pure ({ s with trainVM := some (NewTapeMachine graph vmOpts) }, none)

/-- `Sequential.buildTrainBatchGraph`. -/
def Sequential.buildTrainBatchGraph (E : Engine) (s : Sequential) (x : Inputs)
    (_y : Option Input) : Step := do
  let graph := s.tick
  let s := { s with trainBatchGraph := some graph, tick := s.tick + 1 }
  let loss ← deref s.loss
  let trainBatchLoss := loss.CloneTo graph [CloneOpt.AsBatch s.batchSize]
  let s := { s with trainBatchLoss := some trainBatchLoss }
  let (xTrainBatch, tick) ←
    Sequential.cloneInputs E trainBatchLoss.Inputs graph [CloneOpt.AsBatch s.batchSize] x
      s.xTrainBatch s.tick
  let s := { s with xTrainBatch := xTrainBatch, tick := tick }
  let fwd ← deref s.fwd
  match s.xTrainBatch.Get (NameAsBatch fwd.name) with
  | .error err => pure ({ s with xTrainBatchFwd := none }, some err)
  | .ok xTrainBatchFwd => do
    let s := { s with xTrainBatchFwd := some xTrainBatchFwd }
    let sy ← deref s.y
    let yTrainBatch ← sy.AsBatch E s.batchSize
    let (yTrainBatch, tick) ← yTrainBatch.Compile E graph s.tick
    let s := { s with yTrainBatch := some yTrainBatch, tick := tick }
    let chain ← s.Chain.Clone E
    let (chain, tick) ←
      chain.Compile E graph
        [ChainOpt.WithSharedChainLearnables s.trainChain,
         ChainOpt.WithLayerOpts [CompileOpt.AsBatch]] s.tick
    let s := { s with trainBatchChain := some chain, tick := tick }
    let xNode ← deref xTrainBatchFwd.node
    let fwdResult ← chain.Fwd E xNode
    match fwdResult with
    | .error err => pure (s, some err)
    | .ok prediction => do
      let s := { s with trainBatchPred := some prediction }
      let yNode ← deref yTrainBatch.node
      let lossResult ← trainBatchLoss.Compute E prediction yNode s.tick
      let s := { s with tick := s.tick + trainBatchLoss.allocs }
      match lossResult with
      | .error err => pure (s, some err)
      | .ok lossNode => do
        let s := s.track TrainBatchLossMetric "train_batch_loss" lossNode
        let learnables ← derefAll chain.Learnables
        match E.grad lossNode learnables with
        | some err => pure (s, some err)
        | none =>
          let vmOpts := goCopy [] s.vmOpts ++ [VMOpt.BindDualValues learnables]
          pure ({ s with trainBatchVM := some (NewTapeMachine graph vmOpts) }, none)

/-- `Sequential.buildOnlineGraph`. -/
def Sequential.buildOnlineGraph (E : Engine) (s : Sequential) (_x : Inputs) : Step := do
  let graph := s.tick
  let s := { s with onlineGraph := some graph, tick := s.tick + 1 }
  let (xOnline, tick) ← Inputs.Compile E s.x.Clone graph s.tick
  let s := { s with xOnline := xOnline, tick := tick }
  let fwd ← deref s.fwd
  match s.xOnline.Get fwd.name with
  | .error err => pure ({ s with xOnlineFwd := none }, some err)
  | .ok xOnlineFwd => do
    let s := { s with xOnlineFwd := some xOnlineFwd }
    let chain ← s.Chain.Clone E
    let (chain, tick) ←
      chain.Compile E graph [ChainOpt.WithSharedChainLearnables s.trainChain] s.tick
    let s := { s with onlineChain := some chain, tick := tick }
    let xNode ← deref xOnlineFwd.node
    let fwdResult ← chain.Fwd E xNode
    match fwdResult with
    | .error err => pure (s, some err)
    | .ok prediction =>
      let s := { s with onlinePred := some prediction }
      let vmOpts := goCopy [] s.vmOpts
      pure ({ s with onlineVM := some (NewTapeMachine graph vmOpts) }, none)

/-- The loop over `x` of `buildOnlineBatchGraph`: the inputs collected so far,
the last input taken as forward input, and the allocation counter. Only the
input named like the forward input is turned into a batch. -/
def Sequential.onlineBatchInputs (E : Engine) (graph : Nat) (fwdName : String)
    (batchSize : Int) : Inputs → Inputs → Option Input → Nat →
    Go (Inputs × Option Input × Nat)
  | [], acc, fwd, tick => pure (acc, fwd, tick)
  | input :: rest, acc, fwd, tick =>
    if input.name = fwdName then do
      let b ← input.AsBatch E batchSize
      let (b, tick) ← b.Compile E graph tick
      Sequential.onlineBatchInputs E graph fwdName batchSize rest (acc ++ [b]) (some b) tick
    else do
      let (i, tick) ← input.CloneTo E graph [] tick
      Sequential.onlineBatchInputs E graph fwdName batchSize rest (acc ++ [i]) fwd tick

/-- `Sequential.buildOnlineBatchGraph`. -/
def Sequential.buildOnlineBatchGraph (E : Engine) (s : Sequential) (x : Inputs) : Step := do
  let graph := s.tick
  let s := { s with onlineBatchGraph := some graph, tick := s.tick + 1 }
  let fwd ← deref s.fwd
  let (xOnlineBatch, xOnlineBatchFwd, tick) ←
    Sequential.onlineBatchInputs E graph fwd.name s.batchSize x s.xOnlineBatch
      s.xOnlineBatchFwd s.tick
  let s := { s with xOnlineBatch := xOnlineBatch, xOnlineBatchFwd := xOnlineBatchFwd,
                    tick := tick }
  match s.xOnlineBatch.Get (NameAsBatch fwd.name) with
  | .error err => pure ({ s with xOnlineBatchFwd := none }, some err)
  | .ok xOnlineBatchFwd => do
    let s := { s with xOnlineBatchFwd := some xOnlineBatchFwd }
    let chain ← s.Chain.Clone E
    let (chain, tick) ←
      chain.Compile E graph
        [ChainOpt.WithSharedChainLearnables s.trainChain,
         ChainOpt.WithLayerOpts [CompileOpt.AsBatch]] s.tick
    let s := { s with onlineBatchChain := some chain, tick := tick }
    let xNode ← deref xOnlineBatchFwd.node
    let fwdResult ← chain.Fwd E xNode
    match fwdResult with
    | .error err => pure (s, some err)
    | .ok prediction =>
      let s := { s with onlineBatchPred := some prediction }
      let vmOpts := goCopy [] s.vmOpts
      pure ({ s with onlineBatchVM := some (NewTapeMachine graph vmOpts) }, none)

/-- The logger `log.DefaultLogger`. -/
def DefaultLogger : Nat := 0

/-- The part of `Compile` that chooses the forward input when `Fwd` was not
called: the first input, which must be valid. -/
def Sequential.defaultFwd (s : Sequential) (x : InputOr) : Step :=
  match s.fwd with
  | some _ => pure (s, none)
  | none =>
    match x.Inputs with
    | [] => throw "index out of range [0] with length 0"
    | first :: _ =>
      let s := { s with fwd := some first }
      match first.Validate with
      | some err => pure (s, some err)
      | none => pure (s, none)

/-- The part of `Compile` that creates the tracker when none was given and
tracking was not switched off. -/
def Sequential.defaultTracker (E : Engine) (s : Sequential) : Step :=
  if s.Tracker.isNone && !s.noTracker then
    match NewTracker E with
    | .error err => pure (s, some err)
    | .ok tracker => pure ({ s with Tracker := some tracker }, none)
  else pure (s, none)

/-- The defaults of `Compile` for logger, loss and optimizer. -/
def Sequential.defaults (s : Sequential) : Sequential :=
  let s := if s.logger.isNone then { s with logger := some DefaultLogger } else s
  let s := if s.loss.isNone then { s with loss := some Loss.MSE } else s
  let s := if s.optimizer.isNone then { s with optimizer := some Solver.Adam } else s
  s

/-- `Sequential.Compile`. -/
def Sequential.Compile (E : Engine) (s : Sequential) (x : InputOr) (y : Input)
    (opts : List Opt) : Step :=
  let s := { s with x := x.Inputs }
  match y.Validate with
  | some err => pure (s, some err)
  | none =>
    let s := { s with y := some y }
    let s := opts.foldl (fun s opt => opt.run s) s
    let s := s.defaults
    (s.defaultTracker E).andThen fun s =>
    (s.defaultFwd x).andThen fun s =>
    (s.buildTrainGraph E s.x s.y).andThen fun s =>
    (s.buildTrainBatchGraph E s.x s.y).andThen fun s =>
    (s.buildOnlineGraph E s.x).andThen fun s =>
    s.buildOnlineBatchGraph E s.x

/-! ### Copying learnables between models -/

/-- Write nodes back into a layer: `ns` are the nodes its learnables point
to after they were mutated in place. -/
def Layer.setLearnables : Layer → List (Option Node) → Layer
  | .fc f, ns =>
    if f.bias.isSome then
      match ns with
      | [w, b] => .fc { f with weights := w, bias := b }
      | _ => .fc f
    else
      match ns with
      | [w] => .fc { f with weights := w }
      | _ => .fc f
  | .conv2D c, ns =>
    match ns with
    | [flt] => .conv2D { c with filter := flt }
    | _ => .conv2D c
  | l, _ => l

/-- Write nodes back into a list of layers, each layer taking as many as it
has learnables. -/
def setLayerLearnables : List Layer → List (Option Node) → List Layer
  | [], _ => []
  | l :: rest, ns =>
    l.setLearnables (ns.take l.Learnables.length) ::
      setLayerLearnables rest (ns.drop l.Learnables.length)

/-- Write nodes back into a chain: the effect on the chain of mutating the
nodes its `Learnables()` point to. -/
def Chain.setLearnables (c : Chain) (ns : List (Option Node)) : Chain :=
  { c with layers := setLayerLearnables c.layers ns }

/-- A loop `for i, learnable := range learnables` that binds to each learnable
the value read from `source[i]`; it stops at the first error. It returns the
nodes as they are afterwards. -/
def letLoop (E : Engine) (valueOf : Option Node → Go (Option Value))
    (source : List (Option Node)) : List (Option Node) → Nat →
    Go (List (Option Node) × Option Err)
  | [], _ => pure ([], none)
  | learnable :: rest, i =>
    match source.get? i with
    | none => throw "index out of range"
    | some src => do
      let v ← valueOf src
      let n ← deref learnable
      let r := Let E n v
      match r.2 with
      | some err => pure (some r.1 :: rest, some err)
      | none => do
        let (rest, err) ← letLoop E valueOf source rest (i + 1)
        pure (some r.1 :: rest, err)

/-- The value read in the first loop of `CloneLearnablesTo`:
`desired[i].Clone().(*g.Node).Value()`. -/
def clonedValue (p : Option Node) : Go (Option Value) := do
  let n ← deref p
  pure n.Clone.Value

/-- The keys of the map `shared` of `CloneLearnablesTo`. -/
inductive SharedChain where
  | trainBatch
  | online
  | onlineBatch
deriving DecidableEq

/-- The order in which a `range` over the map `shared` visits its three
keys; Go does not fix it. -/
inductive MapOrder where
  | tb_on_ob
  | tb_ob_on
  | on_tb_ob
  | on_ob_tb
  | ob_tb_on
  | ob_on_tb
deriving DecidableEq

/-- The keys in the order of the iteration. -/
def MapOrder.keys : MapOrder → List SharedChain
  | .tb_on_ob => [.trainBatch, .online, .onlineBatch]
  | .tb_ob_on => [.trainBatch, .onlineBatch, .online]
  | .on_tb_ob => [.online, .trainBatch, .onlineBatch]
  | .on_ob_tb => [.online, .onlineBatch, .trainBatch]
  | .ob_tb_on => [.onlineBatch, .trainBatch, .online]
  | .ob_on_tb => [.onlineBatch, .online, .trainBatch]

/-- The chain of the model stored in the map under a key. -/
def Sequential.sharedChain (s : Sequential) : SharedChain → Option Goro.Chain
  | .trainBatch => s.trainBatchChain
  | .online => s.onlineChain
  | .onlineBatch => s.onlineBatchChain

/-- The model after the nodes of the chain under a key were mutated. -/
def Sequential.setSharedChain (s : Sequential) (k : SharedChain) (c : Goro.Chain) :
    Sequential :=
  match k with
  | .trainBatch => { s with trainBatchChain := some c }
  | .online => { s with onlineChain := some c }
  | .onlineBatch => { s with onlineBatchChain := some c }

/-- The loop over the map `shared` of `CloneLearnablesTo`. -/
def Sequential.letShared (E : Engine) (new : List (Option Node)) :
    List SharedChain → Sequential → Step
  | [], dst => pure (dst, none)
  | k :: rest, dst => do
    let chain ← deref (dst.sharedChain k)
    let (nodes, err) ← letLoop E ptrValue new chain.Learnables 0
    let dst := dst.setSharedChain k (chain.setLearnables nodes)
    match err with
    | some e => pure (dst, some e)
    | none => Sequential.letShared E new rest dst

/-- `Sequential.CloneLearnablesTo`; the result is the model `to` afterwards.
`order` is the order in which the map of the shared chains is visited. -/
def Sequential.CloneLearnablesTo (E : Engine) (order : MapOrder) (s dst : Sequential) :
    Step := do
  let sTrain ← deref s.trainChain
  let desired := sTrain.Learnables
  let dstTrain ← deref dst.trainChain
  let destination := dstTrain.Learnables
  if desired.length != destination.length then
    pure (dst, some (Err.msg "models must be identical to clone learnables"))
  else do
    let (nodes, err) ← letLoop E clonedValue desired destination 0
    let dstTrain := dstTrain.setLearnables nodes
    let dst := { dst with trainChain := some dstTrain }
    match err with
    | some e => pure (dst, some e)
    | none =>
      let new := dstTrain.Learnables
      Sequential.letShared E new order.keys dst

/-! ### Resizing, predicting and fitting -/

/-- `Sequential.ResizeBatch`. -/
def Sequential.ResizeBatch (E : Engine) (s : Sequential) (n : Int) : Step :=
  let s := { s with batchSize := n, xTrainBatch := [], xTrainBatchFwd := none }
  (s.buildTrainBatchGraph E s.x s.y).andThen fun s =>
    let s := { s with xOnlineBatch := [], xOnlineBatchFwd := none }
    s.buildOnlineBatchGraph E s.x

/-- `Inputs.Set`: the value at each index is set on the input at that index;
the loop stops at the first error. -/
def Inputs.Set (E : Engine) : Inputs → List Value → Go (Inputs × Option Err)
  | is, [] => pure (is, none)
  | [], _ :: _ => throw "index out of range"
  | i :: rest, value :: values => do
    let (i, err) ← i.Set E value
    match err with
    | some e => pure (i :: rest, some e)
    | none => do
      let (rest, err) ← Inputs.Set E rest values
      pure (i :: rest, err)

/-- A `ValueOr`: a `gorgonia.Value`, a slice of them, or a value of any other
type. -/
inductive ValueOr where
  | value (v : Value)
  | values (vs : List Value)
  | other

/-- `ValuesFrom`: a value of another type is reported with `log.Fatalf`, after
which `nil` is returned. -/
def ValuesFrom (E : Engine) : ValueOr → Go (List Value)
  | .value v => pure [v]
  | .values vs => pure vs
  | .other => do
    Fatalf E "value type is not supported"
    pure []

/-- The inputs of a slice after the input `i`, which the slice holds under
the same name, was mutated: the first input of that name is `i`. -/
def Inputs.rebind : Inputs → Input → Inputs
  | [], _ => []
  | j :: rest, i => if j.name = i.name then i :: rest else j :: Inputs.rebind rest i

/-- An input pointer after the inputs of the slice it points into were
mutated: the first input of the slice with that name. -/
def Inputs.alias (l : Inputs) (p : Option Input) : Option Input :=
  match p with
  | none => none
  | some i =>
    match Inputs.Get l i.name with
    | .ok j => some j
    | .error _ => some i

/-- `RunAll()` of a tape machine: the machine afterwards, the value read for
the prediction, and the error. -/
def VM.RunAll (E : Engine) (vm : VM) (inputs learnables : List (Option Node)) :
    VM × Option Value × Option Err :=
  let r := E.runAll vm.graph inputs learnables
  ({ vm with dirty := true }, r.1, r.2)

/-- `Reset()` of a tape machine. -/
def VM.Reset (vm : VM) : VM := { vm with dirty := false }

/-- The value a read hook leaves in its destination: the value read, or the
one stored before when the hook was not reached. -/
def readInto (read old : Option Value) : Option Value :=
  match read with
  | some v => some v
  | none => old

/-- The learnables of a chain that may be `nil`, as the graph holds them. -/
def learnablesOf (c : Option Chain) : List (Option Node) :=
  match c with
  | some c => c.Learnables
  | none => []

/-- The learnables after `solver.Step`: each holds the value the solver left. -/
def applyStep : List Node → List (Option Value) → List (Option Node)
  | [], _ => []
  | n :: ns, [] => some n :: applyStep ns []
  | n :: ns, v :: vs => some { n with value := v } :: applyStep ns vs

/-- `Sequential.Predict`: the model afterwards, the prediction and the error. -/
def Sequential.Predict (E : Engine) (s : Sequential) (x : Value) :
    Go (Sequential × Option Value × Option Err) := do
  let xOnlineFwd ← deref s.xOnlineFwd
  let (xOnlineFwd, err) ← xOnlineFwd.Set E x
  match err with
  | some e => pure (s, none, some e)
  | none => do
    let s := { s with xOnlineFwd := some xOnlineFwd,
                      xOnline := Inputs.rebind s.xOnline xOnlineFwd }
    let vm ← deref s.onlineVM
    let (vm, read, err) := vm.RunAll E (s.xOnline.map Input.node) (learnablesOf s.onlineChain)
    let s := { s with onlineVM := some vm, onlinePredVal := readInto read s.onlinePredVal }
    match err with
    | some e => pure (s, none, some e)
    | none => pure ({ s with onlineVM := some vm.Reset }, s.onlinePredVal, none)

/-- `Sequential.PredictBatch`: the model afterwards, the prediction and the
error. -/
def Sequential.PredictBatch (E : Engine) (s : Sequential) (x : Value) :
    Go (Sequential × Option Value × Option Err) := do
  let xOnlineBatchFwd ← deref s.xOnlineBatchFwd
  let (xOnlineBatchFwd, err) ← xOnlineBatchFwd.Set E x
  match err with
  | some e => pure (s, none, some e)
  | none => do
    let s := { s with xOnlineBatchFwd := some xOnlineBatchFwd,
                      xOnlineBatch := Inputs.rebind s.xOnlineBatch xOnlineBatchFwd }
    let vm ← deref s.onlineBatchVM
    let (vm, read, err) :=
      vm.RunAll E (s.xOnlineBatch.map Input.node) (learnablesOf s.onlineBatchChain)
    let s := { s with onlineBatchVM := some vm,
                      onlineBatchPredVal := readInto read s.onlineBatchPredVal }
    match err with
    | some e => pure (s, none, some e)
    | none => pure ({ s with onlineBatchVM := some vm.Reset }, s.onlineBatchPredVal, none)

/-- `Sequential.FitBatch`. The solver changes the values of the learnables of
the train-batch chain; its own state is not part of the model. -/
def Sequential.FitBatch (E : Engine) (s : Sequential) (x : ValueOr) (y : Value) : Step := do
  let yTrainBatch ← deref s.yTrainBatch
  let (yTrainBatch, err) ← yTrainBatch.Set E y
  match err with
  | some e => pure (s, some e)
  | none => do
    let s := { s with yTrainBatch := some yTrainBatch }
    let xVals ← ValuesFrom E x
    let (xTrainBatch, err) ← Inputs.Set E s.xTrainBatch xVals
    let s := { s with xTrainBatch := xTrainBatch,
                      xTrainBatchFwd := Inputs.alias xTrainBatch s.xTrainBatchFwd }
    match err with
    | some e => pure (s, some e)
    | none => do
      let vm ← deref s.trainBatchVM
      let (vm, read, err) :=
        vm.RunAll E (s.xTrainBatch.map Input.node ++ [yTrainBatch.node])
          (learnablesOf s.trainBatchChain)
      let s := { s with trainBatchVM := some vm,
                        trainBatchPredVal := readInto read s.trainBatchPredVal }
      match err with
      | some e => pure (s, some e)
      | none => do
        let chain ← deref s.trainBatchChain
        let nodes ← derefAll chain.Learnables
        let solver ← deref s.optimizer
        let chain := chain.setLearnables (applyStep nodes (E.step solver nodes))
        pure ({ s with trainBatchChain := some chain, trainBatchVM := some vm.Reset }, none)

/-- Two states of a model hold the same compiled variants: the same four
chains and the same four execution engines. -/
def Sequential.sameVariants (a b : Sequential) : Prop :=
  a.trainChain = b.trainChain ∧ a.trainBatchChain = b.trainBatchChain ∧
  a.onlineChain = b.onlineChain ∧ a.onlineBatchChain = b.onlineBatchChain ∧
  a.trainVM = b.trainVM ∧ a.trainBatchVM = b.trainBatchVM ∧
  a.onlineVM = b.onlineVM ∧ a.onlineBatchVM = b.onlineBatchVM

/-- Both pointers are set and the nodes hold the same value. -/
def sameValue (p q : Option Node) : Prop :=
  ∃ n m, p = some n ∧ q = some m ∧ n.Value = m.Value

/-- Every node of `a` is set and holds the value of the node of `b` at the
same index. -/
def valuesFrom (a b : List (Option Node)) : Prop :=
  ∀ i, i < a.length →
    ∃ n m, a.get? i = some (some n) ∧ b.get? i = some (some m) ∧ n.Value = m.Value

/-- Every learnable of the chain `c` holds the value of the learnable of the
chain `src` at the same index. -/
def Chain.valuesFrom (c src : Chain) : Prop :=
  Goro.valuesFrom c.Learnables src.Learnables

/-- The forward pass of a chain in the words of the specification: the output
of each layer is fed into the next, and the first failure is the result, the
remaining layers being skipped. -/
def Chain.fwdSpec (E : Engine) (layers : List Layer) (x : Node) : Goro.Fwd :=
  layers.foldl
    (fun acc layer =>
      match acc with
      | .ok (.ok prediction) => layer.Fwd E prediction
      | failed => failed)
    (.ok (.ok x))

/-- Two states of a model hold the same train-single and online-single
variants: graph, chain, inputs, forward input, target, prediction node, loss
and execution engine. -/
def Sequential.sameSingles (a b : Sequential) : Prop :=
  a.trainGraph = b.trainGraph ∧ a.trainChain = b.trainChain ∧ a.xTrain = b.xTrain ∧
  a.xTrainFwd = b.xTrainFwd ∧ a.yTrain = b.yTrain ∧ a.trainPred = b.trainPred ∧
  a.trainLoss = b.trainLoss ∧ a.trainVM = b.trainVM ∧
  a.onlineGraph = b.onlineGraph ∧ a.onlineChain = b.onlineChain ∧ a.xOnline = b.xOnline ∧
  a.xOnlineFwd = b.xOnlineFwd ∧ a.onlinePred = b.onlinePred ∧ a.onlineVM = b.onlineVM

/-- The tracker holds a value under the given name: the key is in the map
`values`. -/
def Tracker.holds (t : Tracker) (name : String) : Bool :=
  t.values.any (fun kv => kv.1 = name)

/-- How an input `out` of the online-batch variant relates to the model input
`inp` it was made from, for the forward input name `fwdName` and the batch
size `b`. When `inp` is named like the forward input, `out` is its batch form:
named `NameAsBatch` of its name, of the shape `AsBatch` gives, which starts
with `b`, and of the same type. Otherwise `out` has the name, shape and type
of `inp`. -/
def onlineBatchOf (E : Engine) (fwdName : String) (b : Int) (inp out : Input) : Prop :=
  (inp.name = fwdName →
    ∃ bi, inp.AsBatch E b = .ok bi ∧ out.name = NameAsBatch inp.name ∧
      out.shape = bi.shape ∧ out.shape.head? = some b ∧ out.dtype = inp.dtype) ∧
  (inp.name ≠ fwdName →
    out.name = inp.name ∧ out.shape = inp.shape ∧ out.dtype = inp.dtype)

/-- The message of the panic of `Input.Compile` for an input that has a
node. -/
def alreadyCompiled (name : String) : String :=
  "trying ot compile input " ++ name ++ " that is already compiled"

/-- A panic message that starts with another letter than t, and so is not the
message of `Input.Compile`. -/
def otherPanic (p : String) : Prop := p.data.head? ≠ some 't'

/-- The model `s'` is reached from `s` by a sequence of `ResizeBatch` calls,
each of which returned, with or without an error. -/
inductive Sequential.resized (E : Engine) : Sequential → Sequential → Prop where
  | refl (s : Sequential) : Sequential.resized E s s
  | step (s s1 s2 : Sequential) (n : Int) (r : Option Err) :
      Sequential.resized E s s1 → s1.ResizeBatch E n = .ok (s2, r) →
      Sequential.resized E s s2

/-- The pointer is set and the node holds a value. -/
def holdsValue (p : Option Node) : Prop :=
  ∃ n v, p = some n ∧ n.Value = some v

/-- Every node of `a` is set and holds a value, and the node of `b` at the
same index is set and holds that same value. -/
def sharesValues (a b : List (Option Node)) : Prop :=
  ∀ i, i < a.length →
    ∃ n m v, a.get? i = some (some n) ∧ b.get? i = some (some m) ∧
      n.Value = some v ∧ m.Value = some v

/-- Every learnable of the chain `c` holds a value, which is the value the
learnable of the chain `src` at the same index holds. -/
def Chain.sharesValues (c src : Chain) : Prop :=
  Goro.sharesValues c.Learnables src.Learnables

/-- The values the learnables of a chain hold, in the order of `Learnables`;
`none` for a pointer that is `nil` or a node without a value. -/
def Chain.learnableValues (c : Chain) : List (Option Value) :=
  c.Learnables.map (fun p => p.bind Node.Value)

/-! ## Sample data -/

/-- A graph engine for concrete evaluations: every operation yields its first
argument, an initialiser yields two elements that record the allocation and
the initialiser, and nothing is refused. A shape is scalar when it is empty or
[1], as in the tensor library. -/
def sampleEngine : Engine :=
  { apply := fun _ args =>
      match args with
      | n :: _ => .ok n
      | [] => .error (Err.engine 0)
    initW := fun f dtype shape tick =>
      { shape := shape, dtype := dtype,
        data := [tick, match f with
                       | .GlorotN _ => 0
                       | .GlorotU _ => 1
                       | .custom id => id + 2] }
    letCheck := fun _ _ => none
    withValueOk := fun _ _ v => v.isSome
    grad := fun _ _ => none
    tempFile := none
    isScalarShape := fun shape => shape.length == 0 || shape == [1]
    isScalar := fun n => n.shape.length == 0
    isVector := fun n => n.shape.length == 1
    isColVec := fun n => n.shape.length == 2 && n.shape.get? 1 == some 1
    isRowVec := fun n => n.shape.length == 2 && n.shape.get? 0 == some 1
    runAll := fun _ inputs _ =>
      match inputs with
      | some n :: _ => (n.value, none)
      | _ => (none, none)
    step := fun _ learnables => learnables.map (fun n => n.value)
    globalLevel := 3 }

/-- The config `Conv2D{Input: 1, Output: 4, Width: 3, Height: 3}`. -/
def sampleConv2D : Conv2D :=
  { Input := 1, Output := 4, Height := 3, Width := 3, Name := "", Activation := none,
    Pad := [], Stride := [], Dilation := [], Init := none }

/-- Two fully connected layers, 5 to 3 with a bias and 3 to 2 without, with
the given initialiser for the weights. -/
def sampleLayers (init : Option InitWFn) : List Config :=
  [ { isPtr := false,
      val := ConfigVal.FC { Input := 5, Output := 3, Name := "w0",
                            Activation := some ActivationFn.Sigmoid, Init := init,
                            NoBias := false, BiasInit := none } },
    { isPtr := false,
      val := ConfigVal.FC { Input := 3, Output := 2, Name := "w1",
                            Activation := some ActivationFn.Linear, Init := init,
                            NoBias := true, BiasInit := none } } ]

/-- A model with the sample layers, not compiled. -/
def sampleModel (name : String) (init : Option InitWFn) : Sequential :=
  match (NewSequential name).AddLayers sampleEngine (sampleLayers init) with
  | .ok s => s
  | .error _ => NewSequential name

/-- The sample model compiled for the input "x" of shape [1, 5], the target
"y" of shape [1, 2] and batch size 10. -/
def sampleCompiled (name : String) (init : Option InitWFn) : Sequential :=
  match (sampleModel name init).Compile sampleEngine (InputOr.input (NewInput "x" [1, 5]))
      (NewInput "y" [1, 2]) [Opt.WithBatchSize 10] with
  | .ok (s, none) => s
  | _ => NewSequential name

/-- An engine like the sample one in a process whose `log.GlobalLevel` is 0,
below `ErrorLevel`. -/
def quietEngine : Engine := { sampleEngine with globalLevel := 0 }

/-- The config `FC{Output: 3}`, which fails validation: `Input` is not set. -/
def invalidFC : Config :=
  { isPtr := false,
    val := ConfigVal.FC { Input := 0, Output := 3, Name := "", Activation := none,
                          Init := none, NoBias := false, BiasInit := none } }

/-- The compiled sample model after `Fwd` was called with an input "z" that is
not among the inputs of the model. -/
def sampleRefwd : Sequential := (sampleCompiled "m" none).Fwd (NewInput "z" [1, 5])

/-- A `Float32` value of the given shape, all zero bits. -/
def zerosF32 (shape : Shape) (size : Nat) : Value :=
  { shape := shape, dtype := Dtype.Float32, data := List.replicate size 0 }

/-- A tracker that already tracks a value named "m_train_loss". -/
def sampleTracker : Tracker :=
  { values := [("m_train_loss",
      { name := "m_train_loss",
        node := { id := 0, graph := none, name := "loss", shape := [], dtype := Dtype.Float32,
                  value := none } })] }

/-- The inputs "x" of shape [1, 5] and "z" of shape [1, 3]. -/
def sampleTwoInputs : InputOr :=
  InputOr.inputs [NewInput "x" [1, 5], NewInput "z" [1, 3]]

/-- A model with one fully connected layer from 1 to 1 without a bias, not
compiled. -/
def sampleVectorModel : Sequential :=
  match (NewSequential "v").AddLayers sampleEngine
      [{ isPtr := false,
         val := ConfigVal.FC { Input := 1, Output := 1, Name := "w0",
                               Activation := some ActivationFn.Linear, Init := none,
                               NoBias := true, BiasInit := none } }] with
  | .ok s => s
  | .error _ => NewSequential "v"

/-- The input "x" of shape [1, 5] compiled into graph 0 and set to a value. -/
def sampleSetInput : Input :=
  { NewInput "x" [1, 5] with
    node := some (newNode 0 1 "x" [1, 5] Dtype.Float32 (some (zerosF32 [1, 5] 5))) }

/-- The config `FC{Input: 5, Output: 3}`: `NoBias` and every optional field
are left unset. -/
def plainFC : Config :=
  { isPtr := false,
    val := ConfigVal.FC { Input := 5, Output := 3, Name := "", Activation := none,
                          Init := none, NoBias := false, BiasInit := none } }

/-- A model with one fully connected layer from 5 to 2 with a bias, compiled
for the input "x" of shape [1, 5], the target "y" of shape [1, 2] and batch
size 10. -/
def sampleSmallCompiled : Sequential :=
  match (NewSequential "small").AddLayers sampleEngine
      [{ isPtr := false,
         val := ConfigVal.FC { Input := 5, Output := 2, Name := "w0",
                               Activation := some ActivationFn.Linear, Init := none,
                               NoBias := false, BiasInit := none } }] with
  | .ok s =>
    match s.Compile sampleEngine (InputOr.input (NewInput "x" [1, 5])) (NewInput "y" [1, 2])
        [Opt.WithBatchSize 10] with
    | .ok (s, none) => s
    | _ => NewSequential "small"
  | .error _ => NewSequential "small"

/-- An engine like the sample one whose `Reshape` gives the node the new
shape. -/
def reshapingEngine : Engine :=
  { sampleEngine with
    apply := fun op args =>
      match op, args with
      | .Reshape shape, n :: _ => .ok { n with shape := shape }
      | _, n :: _ => .ok n
      | _, [] => .error (Err.engine 0) }

/-- A node of graph 0 with the given shape. -/
def sampleNode (shape : Shape) : Node :=
  newNode 0 1 "a" shape Dtype.Float32 none

/-- A compiled `Flatten` layer of graph 0. -/
def sampleFlatten : flatten := { Flatten := {}, graph := some 0 }

/-! ## Theorems -/

/-! ### Inputs -/

theorem Input.dimsDiffer_eq_false_iff :
    ∀ (s v : Shape), v.length = s.length → (Input.dimsDiffer s v = false ↔ v = s)
  | [], [], _ => by simp [Input.dimsDiffer]
  | [], _ :: _, h => by simp at h
  | _ :: _, [], h => by simp at h
  | a :: s, b :: v, h => by
    have ih := Input.dimsDiffer_eq_false_iff s v (by simpa using h)
    by_cases hab : b = a
    · simp [Input.dimsDiffer, hab, ih]
    · simp [Input.dimsDiffer, hab]

theorem Input.Check_eq_none_iff (i : Input) (v : Value) :
    i.Check v = none ↔ v.shape = i.shape ∧ v.dtype = i.dtype := by
  unfold Input.Check
  by_cases hlen : v.shape.length = i.shape.length
  · have hd := Input.dimsDiffer_eq_false_iff i.shape v.shape hlen
    by_cases hdim : Input.dimsDiffer i.shape v.shape = true
    · have hne : ¬ v.shape = i.shape := by
        intro h
        rw [hd.mpr h] at hdim
        cases hdim
      simp [hlen, hdim, hne]
    · have heq : v.shape = i.shape := hd.mp (by simpa using hdim)
      have hdim2 : Input.dimsDiffer i.shape i.shape = false := by
        rw [heq] at hdim
        simpa using hdim
      by_cases hty : i.dtype = v.dtype
      · simp [heq, hdim2, hty]
      · have hty2 : ¬ v.dtype = i.dtype := fun h => hty h.symm
        simp [heq, hdim2, hty, hty2]
  · have hne : ¬ v.shape = i.shape := fun h => hlen (by rw [h])
    simp [hlen, hne]

/-- C3: `Check` returns nil exactly when the value has the rank of the input,
the same size in every dimension and the same dtype; when `Check` fails, `Set`
returns that error and leaves the input, its node included, as it was. An
input of shape [1,4] rejects a value of shape [2,4] as a shape mismatch. -/
theorem Input.check_and_set (E : Engine) (i : Input) (v : Value) :
    (i.Check v = none ↔
      (v.shape.length = i.shape.length ∧
        (∀ k, k < i.shape.length → v.shape.get? k = i.shape.get? k) ∧
        v.dtype = i.dtype)) ∧
    (∀ err, i.Check v = some err → i.Set E v = .ok (i, some err)) ∧
    (∀ (name : String) (dtype : Dtype) (data : List Nat),
      (NewInput name [1, 4]).Set E { shape := [2, 4], dtype := dtype, data := data } =
        .ok (NewInput name [1, 4], some (Err.shapeMismatch name [1, 4] [2, 4]))) := by
  refine ⟨?_, ?_, ?_⟩
  · rw [Input.Check_eq_none_iff]
    constructor
    · rintro ⟨hs, hd⟩
      exact ⟨by rw [hs], fun k _ => by rw [hs], hd⟩
    · rintro ⟨hlen, hk, hd⟩
      refine ⟨?_, hd⟩
      apply List.ext_get? 
      intro k
      by_cases h : k < i.shape.length
      · exact hk k h
      · have h1 : i.shape.length ≤ k := Nat.le_of_not_lt h
        have h2 : v.shape.length ≤ k := by rw [hlen]; exact h1
        rw [List.get?_eq_none.mpr h1, List.get?_eq_none.mpr h2]
  · intro err h
    simp [Input.Set, h]
    rfl
  · intro name dtype data
    simp [Input.Set, Input.Check, NewInput, Input.dimsDiffer]
    rfl

/-! ### Layer configurations -/

/-- C4: `Conv2D.Validate` returns an error exactly when one of `Input`,
`Output`, `Width`, `Height` is zero; so it fails when `Width` or `Height` is
zero, and it succeeds for `Conv2D{Input: 1, Output: 4, Width: 3, Height: 3}`. -/
theorem Conv2D.validate_iff (c : Conv2D) :
    (c.Validate ≠ none ↔ (c.Input = 0 ∨ c.Output = 0 ∨ c.Width = 0 ∨ c.Height = 0)) ∧
    ((c.Width = 0 ∨ c.Height = 0) → c.Validate ≠ none) ∧
    sampleConv2D.Validate = none ∧
    ({ sampleConv2D with Width := 0 } : Conv2D).Validate = some (Err.msg "width must be set") ∧
    ({ sampleConv2D with Height := 0 } : Conv2D).Validate =
      some (Err.msg "height must be set") := by
  have key : c.Validate ≠ none ↔ (c.Input = 0 ∨ c.Output = 0 ∨ c.Width = 0 ∨ c.Height = 0) := by
    unfold Conv2D.Validate
    by_cases h1 : c.Input = 0
    · simp [h1]
    · by_cases h2 : c.Output = 0
      · simp [h1, h2]
      · by_cases h3 : c.Width = 0
        · simp [h1, h2, h3]
        · by_cases h4 : c.Height = 0 <;> simp [h1, h2, h3, h4]
  refine ⟨key, ?_, ?_, ?_, ?_⟩
  · intro h
    exact key.mpr (h.elim (fun hw => Or.inr (Or.inr (Or.inl hw)))
      (fun hh => Or.inr (Or.inr (Or.inr hh))))
  · decide
  · decide
  · decide

/-- C5: `Conv2D.ApplyDefaults` keeps `Input`, `Output`, `Height`, `Width` and
`Name`, keeps each of `Pad`, `Stride`, `Dilation` that is not empty and makes
an empty one [1,1], keeps an activation or initialiser that is set and puts
ReLU and the default initialiser `GlorotU(1)` where there was none. The
result is a struct value, and the receiver is a copy that is not changed. -/
theorem Conv2D.applyDefaults_spec (c : Conv2D) (isPtr : Bool) :
    (Config.ApplyDefaults { isPtr := isPtr, val := ConfigVal.Conv2D c } =
      { isPtr := false, val := ConfigVal.Conv2D c.ApplyDefaults }) ∧
    c.ApplyDefaults.Input = c.Input ∧
    c.ApplyDefaults.Output = c.Output ∧
    c.ApplyDefaults.Height = c.Height ∧
    c.ApplyDefaults.Width = c.Width ∧
    c.ApplyDefaults.Name = c.Name ∧
    c.ApplyDefaults.Pad = (if c.Pad = [] then [1, 1] else c.Pad) ∧
    c.ApplyDefaults.Stride = (if c.Stride = [] then [1, 1] else c.Stride) ∧
    c.ApplyDefaults.Dilation = (if c.Dilation = [] then [1, 1] else c.Dilation) ∧
    c.ApplyDefaults.Activation = some (c.Activation.getD ActivationFn.ReLU) ∧
    c.ApplyDefaults.Init = some (c.Init.getD (InitWFn.GlorotU F64.one)) := by
  refine ⟨rfl, ?_⟩
  obtain ⟨i, o, h, w, n, a, p, st, d, ini⟩ := c
  cases a <;> cases ini <;> cases p <;> cases st <;> cases d <;>
    simp [Conv2D.ApplyDefaults]

theorem FC.fc_applyDefaults_idem (f : FC) : f.ApplyDefaults.ApplyDefaults = f.ApplyDefaults := by
  obtain ⟨i, o, n, a, ini, nb, bi⟩ := f
  cases a <;> cases ini <;> cases bi <;> simp [FC.ApplyDefaults]

theorem Conv2D.conv2D_applyDefaults_idem (c : Conv2D) :
    c.ApplyDefaults.ApplyDefaults = c.ApplyDefaults := by
  obtain ⟨i, o, h, w, n, a, p, st, d, ini⟩ := c
  cases a <;> cases ini <;> cases p <;> cases st <;> cases d <;>
    simp [Conv2D.ApplyDefaults]

theorem F64.sixTenths_ne_zero : F64.eq F64.sixTenths F64.zero = false := by
  simp [F64.eq, F64.sixTenths, F64.zero]

theorem Dropout.dropout_applyDefaults_idem (d : Dropout) :
    d.ApplyDefaults.ApplyDefaults = d.ApplyDefaults := by
  unfold Dropout.ApplyDefaults
  by_cases h : F64.eq d.Probability F64.zero = true
  · simp [h, F64.sixTenths_ne_zero]
  · simp [h]

theorem MaxPooling2D.maxPooling2D_applyDefaults_idem (m : MaxPooling2D) :
    m.ApplyDefaults.ApplyDefaults = m.ApplyDefaults := by
  obtain ⟨k, p, st, n⟩ := m
  cases k <;> cases p <;> cases st <;> simp [MaxPooling2D.ApplyDefaults]

/-- C6: `ApplyDefaults` is idempotent for every layer kind: applying it to its
own result gives that result again, for `FC`, `Conv2D`, `Dropout`,
`MaxPooling2D`, `Flatten` and `Reshape`, and so for every `Config`. -/
theorem Config.applyDefaults_idempotent :
    (∀ c : Config, c.ApplyDefaults.ApplyDefaults = c.ApplyDefaults) ∧
    (∀ f : FC, f.ApplyDefaults.ApplyDefaults = f.ApplyDefaults) ∧
    (∀ c : Conv2D, c.ApplyDefaults.ApplyDefaults = c.ApplyDefaults) ∧
    (∀ d : Dropout, d.ApplyDefaults.ApplyDefaults = d.ApplyDefaults) ∧
    (∀ m : MaxPooling2D, m.ApplyDefaults.ApplyDefaults = m.ApplyDefaults) ∧
    (∀ f : Flatten, f.ApplyDefaults.ApplyDefaults = f.ApplyDefaults) ∧
    (∀ r : Reshape, r.ApplyDefaults.ApplyDefaults = r.ApplyDefaults) := by
  refine ⟨?_, FC.fc_applyDefaults_idem, Conv2D.conv2D_applyDefaults_idem, Dropout.dropout_applyDefaults_idem,
    MaxPooling2D.maxPooling2D_applyDefaults_idem, fun _ => rfl, fun _ => rfl⟩
  rintro ⟨p, v⟩
  cases v with
  | FC f => simp [Config.ApplyDefaults, FC.fc_applyDefaults_idem]
  | Conv2D f => simp [Config.ApplyDefaults, Conv2D.conv2D_applyDefaults_idem]
  | Dropout f => simp [Config.ApplyDefaults, Dropout.dropout_applyDefaults_idem]
  | MaxPooling2D f => simp [Config.ApplyDefaults, MaxPooling2D.maxPooling2D_applyDefaults_idem]
  | Flatten f => simp [Config.ApplyDefaults, Flatten.ApplyDefaults]
  | Reshape f => simp [Config.ApplyDefaults, Reshape.ApplyDefaults]

/-- C7: `FC.Validate` returns an error exactly when `Input` or `Output` is
zero, `Dropout.Validate` exactly when the probability is below 0 or above 1
(a rational probability `q` is rejected iff `q < 0` or `1 < q`),
`Reshape.Validate` exactly when `To` is empty, and `Flatten.Validate` and
`MaxPooling2D.Validate` never return an error. -/
theorem Config.validate_rejects :
    (∀ f : FC, f.Validate ≠ none ↔ (f.Input = 0 ∨ f.Output = 0)) ∧
    (∀ d : Dropout, d.Validate ≠ none ↔
      (F64.lt d.Probability F64.zero = true ∨ F64.gt d.Probability F64.one = true)) ∧
    (∀ q : ℚ, ({ Probability := F64.fin q } : Dropout).Validate ≠ none ↔ (q < 0 ∨ 1 < q)) ∧
    (∀ r : Reshape, r.Validate ≠ none ↔ r.To = []) ∧
    (∀ f : Flatten, f.Validate = none) ∧
    (∀ m : MaxPooling2D, m.Validate = none) := by
  refine ⟨?_, ?_, ?_, ?_, fun _ => rfl, fun _ => rfl⟩
  · intro f
    unfold FC.Validate
    by_cases h1 : f.Input = 0
    · simp [h1]
    · by_cases h2 : f.Output = 0 <;> simp [h1, h2]
  · intro d
    unfold Dropout.Validate
    by_cases h1 : F64.gt d.Probability F64.one = true
    · simp [h1]
    · by_cases h2 : F64.lt d.Probability F64.zero = true <;> simp [h1, h2]
  · intro q
    unfold Dropout.Validate
    by_cases h1 : 1 < q
    · simp [F64.gt, F64.lt, F64.one, F64.zero, h1]
    · by_cases h2 : q < 0 <;> simp [F64.gt, F64.lt, F64.one, F64.zero, h1, h2]
  · intro r
    unfold Reshape.Validate
    by_cases h : r.To = []
    · simp [h]
    · have hl : r.To.length ≠ 0 := fun hl => h (List.length_eq_zero.mp hl)
      simp [h, hl]

/-! ### Batch inputs -/

theorem Input.AsBatch_eq (E : Engine) (i : Input) (size : Int) (d : Int) (rest : Shape)
    (h : i.shape = d :: rest) :
    i.AsBatch E size =
      .ok { name := NameAsBatch i.name,
            shape := if rest = [] then [size, d] else size :: rest,
            dtype := i.dtype, node := none } := by
  cases rest with
  | nil => simp [Input.AsBatch, Input.Clone, Input.OneOfMany, h]; rfl
  | cons e rest => simp [Input.AsBatch, Input.Clone, h]; rfl

/-- C8: for an input with a non-empty shape, `AsBatch(n)` returns a new input
whose leading dimension is `n` and whose other dimensions are those of the
input after the first, except that a rank-1 shape [d] becomes [n, d]; the
dtype is kept, the name gets the suffix "_batch" unless it is empty, and the
new input has no node. The receiver is only read. -/
theorem Input.asBatch_spec (E : Engine) (i : Input) (n : Int) (h : i.shape ≠ []) :
    ∃ r, i.AsBatch E n = .ok r ∧
      r.shape.head? = some n ∧
      (∀ d, i.shape = [d] → r.shape = [n, d]) ∧
      (2 ≤ i.shape.length → r.shape = n :: i.shape.tail) ∧
      r.dtype = i.dtype ∧
      r.name = (if i.name = "" then "" else i.name ++ "_batch") ∧
      r.node = none := by
  obtain ⟨name, shape, dtype, node⟩ := i
  cases shape with
  | nil => exact absurd rfl h
  | cons d rest =>
    refine ⟨_, Input.AsBatch_eq E _ n d rest rfl, ?_, ?_, ?_, rfl, rfl, rfl⟩
    · cases rest <;> simp
    · intro d1 hd
      simp at hd
      simp [hd.1, hd.2]
    · intro hlen
      cases rest with
      | nil => simp at hlen
      | cons e rest => simp

/-- C8, at the input "x" of shape [4] and at the unnamed input of shape
[1, 4], both with batch size 10. -/
theorem Input.asBatch_spec_witness :
    (∃ r, (NewInput "x" [4]).AsBatch sampleEngine 10 = .ok r ∧
      r.shape.head? = some 10 ∧
      (∀ d, (NewInput "x" [4]).shape = [d] → r.shape = [10, d]) ∧
      (2 ≤ (NewInput "x" [4]).shape.length → r.shape = 10 :: (NewInput "x" [4]).shape.tail) ∧
      r.dtype = (NewInput "x" [4]).dtype ∧
      r.name = (if (NewInput "x" [4]).name = "" then "" else (NewInput "x" [4]).name ++ "_batch") ∧
      r.node = none) ∧
    (NewInput "x" [4]).AsBatch sampleEngine 10 =
      .ok { name := "x_batch", shape := [10, 4], dtype := Dtype.Float32, node := none } ∧
    (NewInput "" [1, 4]).AsBatch sampleEngine 10 =
      .ok { name := "", shape := [10, 4], dtype := Dtype.Float32, node := none } :=
  ⟨Input.asBatch_spec sampleEngine (NewInput "x" [4]) 10 (by decide), rfl, rfl⟩

/-! ### Compile: lookups and clones of inputs -/

theorem Inputs.Get_error_of_forall_ne :
    ∀ (l : Inputs) (name : String), (∀ i ∈ l, i.name ≠ name) →
      Inputs.Get l name = .error (Err.inputNotFound name)
  | [], _, _ => rfl
  | i :: rest, name, h => by
    have h1 : i.name ≠ name := h i (List.mem_cons_self _ _)
    have h2 := Inputs.Get_error_of_forall_ne rest name
      (fun j hj => h j (List.mem_cons_of_mem _ hj))
    simp [Inputs.Get, h1, h2]

theorem Inputs.Get_ok_name :
    ∀ (l : Inputs) (name : String) (i : Input), Inputs.Get l name = .ok i → i.name = name
  | [], _, _, h => by simp [Inputs.Get] at h
  | j :: rest, name, i, h => by
    by_cases hj : j.name = name
    · simp [Inputs.Get, hj] at h
      rw [← h]
      exact hj
    · simp [Inputs.Get, hj] at h
      exact Inputs.Get_ok_name rest name i h

theorem Input.Validate_ne_none_iff (y : Input) :
    y.Validate ≠ none ↔ (y.shape = [] ∨ y.shape.head? ≠ some 1) := by
  unfold Input.Validate
  cases hs : y.shape with
  | nil => simp
  | cons d rest =>
    by_cases hd : d = 1 <;> simp [hd]

theorem Input.CloneTo_nil_name (E : Engine) (i : Input) (graph tick : Nat) :
    ∃ r tick', i.CloneTo E graph [] tick = .ok (r, tick') ∧ r.name = i.name := by
  by_cases h : E.isScalarShape i.shape = true
  · refine ⟨{ i.Clone with node := some (newNode graph tick i.name [] i.dtype none) },
      tick + 1, ?_, rfl⟩
    simp [Input.CloneTo, Input.CloneWith, Input.Clone, Input.Compile, h,
      bind, Except.bind, pure, Except.pure]
  · refine ⟨{ i.Clone with node := some (newNode graph tick i.name i.shape i.dtype none) },
      tick + 1, ?_, rfl⟩
    simp [Input.CloneTo, Input.CloneWith, Input.Clone, Input.Compile, h,
      bind, Except.bind, pure, Except.pure]

theorem Sequential.cloneInputs_nil_names (E : Engine) (lossInputs : Inputs) (graph : Nat) :
    ∀ (x acc : Inputs) (tick : Nat),
      ∃ x' tick', Sequential.cloneInputs E lossInputs graph [] x acc tick = .ok (acc ++ x', tick') ∧
        x'.map Input.name = x.map Input.name
  | [], acc, tick => ⟨[], tick, by simp [Sequential.cloneInputs]; rfl, rfl⟩
  | input :: rest, acc, tick => by
    cases hg : Inputs.Get lossInputs input.name with
    | ok i =>
      obtain ⟨x', tick', h1, h2⟩ :=
        Sequential.cloneInputs_nil_names E lossInputs graph rest (acc ++ [i]) tick
      refine ⟨i :: x', tick', ?_, ?_⟩
      · simp [Sequential.cloneInputs, hg, h1]
      · simp [h2, Inputs.Get_ok_name _ _ _ hg]
    | error e =>
      obtain ⟨r, t1, hc, hn⟩ := Input.CloneTo_nil_name E input graph tick
      obtain ⟨x', tick', h1, h2⟩ :=
        Sequential.cloneInputs_nil_names E lossInputs graph rest (acc ++ [r]) t1
      refine ⟨r :: x', tick', ?_, ?_⟩
      · simp [Sequential.cloneInputs, hg, hc, h1, bind, Except.bind]
      · simp [h2, hn]

theorem Inputs.Compile_names (E : Engine) (graph : Nat) :
    ∀ (l l' : Inputs) (tick tick' : Nat),
      Inputs.Compile E l graph tick = .ok (l', tick') → l'.map Input.name = l.map Input.name
  | [], l', tick, tick', h => by
    simp [Inputs.Compile, pure, Except.pure] at h
    simp [← h.1]
  | i :: rest, l', tick, tick', h => by
    simp only [Inputs.Compile, bind, Except.bind, pure, Except.pure] at h
    split at h
    · cases h
    · rename_i v1 hv1
      split at h
      · cases h
      · rename_i v2 hv2
        cases h
        have ih := Inputs.Compile_names E graph rest v2.1 v1.2 v2.2 hv2
        have hname : v1.1.name = i.name := by
          unfold Input.Compile at hv1
          split at hv1
          · cases hv1
          · cases hv1
            rfl
        simp [ih, hname]

theorem Inputs.name_ne_of_map_eq (l l' : Inputs) (name : String)
    (h : l'.map Input.name = l.map Input.name) (hl : ∀ i ∈ l, i.name ≠ name) :
    ∀ i ∈ l', i.name ≠ name := by
  intro i hi hn
  have h1 : i.name ∈ l'.map Input.name := List.mem_map_of_mem _ hi
  rw [h] at h1
  obtain ⟨j, hj, hjn⟩ := List.mem_map.mp h1
  exact hl j hj (hjn.trans hn)

/-! ### Compile: the frame of each build step -/

theorem Sequential.track_frame (s : Sequential) (metric : Metric) (name : String)
    (loss : Node) :
    (s.track metric name loss).x = s.x ∧ (s.track metric name loss).fwd = s.fwd ∧
    (s.track metric name loss).Chain = s.Chain ∧
    (s.track metric name loss).trainChain = s.trainChain ∧
    (s.track metric name loss).trainBatchChain = s.trainBatchChain ∧
    (s.track metric name loss).onlineChain = s.onlineChain ∧
    (s.track metric name loss).onlineBatchChain = s.onlineBatchChain := by
  unfold Sequential.track
  split
  · split <;> simp
  · simp

theorem Sequential.buildTrainGraph_frame (E : Engine) (s : Sequential) (x : Inputs)
    (y : Option Input) (s' : Sequential) (r : Option Err)
    (h : s.buildTrainGraph E x y = .ok (s', r)) :
    s'.x = s.x ∧ s'.fwd = s.fwd ∧ s'.Chain = s.Chain := by
  unfold Sequential.buildTrainGraph at h
  simp only [bind, Except.bind, pure, Except.pure] at h
  repeat' split at h
  all_goals (cases h <;> simp [Sequential.track_frame])

theorem Sequential.buildTrainBatchGraph_frame (E : Engine) (s : Sequential) (x : Inputs)
    (y : Option Input) (s' : Sequential) (r : Option Err)
    (h : s.buildTrainBatchGraph E x y = .ok (s', r)) :
    s'.x = s.x ∧ s'.fwd = s.fwd ∧ s'.Chain = s.Chain ∧ s'.trainChain = s.trainChain := by
  unfold Sequential.buildTrainBatchGraph at h
  simp only [bind, Except.bind, pure, Except.pure] at h
  repeat' split at h
  all_goals (cases h <;> simp [Sequential.track_frame])

theorem Sequential.buildOnlineGraph_frame (E : Engine) (s : Sequential) (x : Inputs)
    (s' : Sequential) (r : Option Err)
    (h : s.buildOnlineGraph E x = .ok (s', r)) :
    s'.x = s.x ∧ s'.fwd = s.fwd ∧ s'.Chain = s.Chain ∧ s'.trainChain = s.trainChain ∧
    s'.trainBatchChain = s.trainBatchChain := by
  unfold Sequential.buildOnlineGraph at h
  simp only [bind, Except.bind, pure, Except.pure] at h
  repeat' split at h
  all_goals (cases h <;> simp)

theorem Sequential.buildOnlineBatchGraph_frame (E : Engine) (s : Sequential) (x : Inputs)
    (s' : Sequential) (r : Option Err)
    (h : s.buildOnlineBatchGraph E x = .ok (s', r)) :
    s'.x = s.x ∧ s'.fwd = s.fwd ∧ s'.Chain = s.Chain ∧ s'.trainChain = s.trainChain ∧
    s'.trainBatchChain = s.trainBatchChain ∧ s'.onlineChain = s.onlineChain := by
  unfold Sequential.buildOnlineBatchGraph at h
  simp only [bind, Except.bind, pure, Except.pure] at h
  repeat' split at h
  all_goals (cases h <;> simp)

/-! ### Compile: rejected targets and unknown forward inputs -/

theorem Step.andThen_ok_none (r : Step) (k : Sequential → Step) (s' : Sequential)
    (h : r.andThen k = .ok (s', none)) :
    ∃ s1, r = .ok (s1, none) ∧ k s1 = .ok (s', none) := by
  unfold Step.andThen at h
  split at h
  · cases h
  · cases h
  · exact ⟨_, rfl, h⟩

theorem Opt.run_frame (opt : Opt) (s : Sequential) :
    (opt.run s).fwd = s.fwd ∧ (opt.run s).x = s.x ∧ (opt.run s).xTrain = s.xTrain ∧
    (opt.run s).Chain = s.Chain ∧ (opt.run s).sameVariants s := by
  cases opt <;> simp [Opt.run, Sequential.sameVariants]

theorem Opt.foldl_frame : ∀ (opts : List Opt) (s : Sequential),
    (opts.foldl (fun s opt => opt.run s) s).fwd = s.fwd ∧
    (opts.foldl (fun s opt => opt.run s) s).x = s.x ∧
    (opts.foldl (fun s opt => opt.run s) s).xTrain = s.xTrain ∧
    (opts.foldl (fun s opt => opt.run s) s).Chain = s.Chain ∧
    (opts.foldl (fun s opt => opt.run s) s).sameVariants s
  | [], s => by simp [Sequential.sameVariants]
  | opt :: rest, s => by
    obtain ⟨h1, h2, h3, h4, h5⟩ := Opt.foldl_frame rest (opt.run s)
    obtain ⟨g1, g2, g3, g4, g5⟩ := Opt.run_frame opt s
    simp only [List.foldl_cons]
    refine ⟨h1.trans g1, h2.trans g2, h3.trans g3, h4.trans g4, ?_⟩
    unfold Sequential.sameVariants at *
    obtain ⟨a1, a2, a3, a4, a5, a6, a7, a8⟩ := h5
    obtain ⟨b1, b2, b3, b4, b5, b6, b7, b8⟩ := g5
    exact ⟨a1.trans b1, a2.trans b2, a3.trans b3, a4.trans b4, a5.trans b5, a6.trans b6,
      a7.trans b7, a8.trans b8⟩

theorem Sequential.defaults_frame (s : Sequential) :
    s.defaults.fwd = s.fwd ∧ s.defaults.x = s.x ∧ s.defaults.xTrain = s.xTrain ∧
    s.defaults.Chain = s.Chain ∧ s.defaults.sameVariants s ∧ ∃ l, s.defaults.loss = some l := by
  unfold Sequential.defaults Sequential.sameVariants
  cases hl : s.logger <;> cases hlo : s.loss <;> cases ho : s.optimizer <;> simp [hl, hlo, ho]

theorem Sequential.defaultTracker_frame (E : Engine) (s s' : Sequential) (r : Option Err)
    (h : s.defaultTracker E = .ok (s', r)) :
    s'.fwd = s.fwd ∧ s'.x = s.x ∧ s'.xTrain = s.xTrain ∧ s'.Chain = s.Chain ∧
    s'.loss = s.loss ∧ s'.sameVariants s ∧ (∀ e, r = some e → E.tempFile = some e) := by
  unfold Sequential.defaultTracker NewTracker at h
  unfold Sequential.sameVariants
  split at h
  · cases ht : E.tempFile with
    | none =>
      simp [ht, pure, Except.pure] at h
      obtain ⟨h1, h2⟩ := h
      subst h1
      subst h2
      simp
    | some e =>
      simp [ht, pure, Except.pure] at h
      obtain ⟨h1, h2⟩ := h
      subst h1
      subst h2
      simp
  · simp [pure, Except.pure] at h
    obtain ⟨h1, h2⟩ := h
    subst h1
    subst h2
    simp

theorem Sequential.defaultTracker_total (E : Engine) (s : Sequential) :
    ∃ s' r, s.defaultTracker E = .ok (s', r) := by
  unfold Sequential.defaultTracker NewTracker
  split
  · cases E.tempFile <;> exact ⟨_, _, rfl⟩
  · exact ⟨_, _, rfl⟩

theorem Sequential.defaultFwd_some (s : Sequential) (x : InputOr) (f : Input)
    (h : s.fwd = some f) : s.defaultFwd x = .ok (s, none) := by
  simp [Sequential.defaultFwd, h, pure, Except.pure]

theorem Sequential.buildOnlineGraph_not_found (E : Engine) (s : Sequential) (x : Inputs)
    (f : Input) (hf : s.fwd = some f) (hx : ∀ i ∈ s.x, i.name ≠ f.name) (s' : Sequential) :
    s.buildOnlineGraph E x ≠ .ok (s', none) := by
  intro h
  unfold Sequential.buildOnlineGraph at h
  simp only [bind, Except.bind, pure, Except.pure, hf, deref] at h
  split at h
  · cases h
  · rename_i v hv
    have hnames := Inputs.Compile_names E _ _ _ _ _ hv
    have hclone : (Inputs.Clone s.x).map Input.name = s.x.map Input.name := by
      simp [Inputs.Clone, Input.Clone, Function.comp_def]
    have hne := Inputs.name_ne_of_map_eq s.x v.1 f.name (hnames.trans hclone) hx
    have hget := Inputs.Get_error_of_forall_ne v.1 f.name hne
    simp only [hget] at h
    cases h

theorem Sequential.buildTrainGraph_not_found (E : Engine) (s : Sequential) (x : Inputs)
    (y : Option Input) (f : Input) (l : Loss) (hf : s.fwd = some f) (hl : s.loss = some l)
    (hx : ∀ i ∈ x, i.name ≠ f.name) (hxt : ∀ i ∈ s.xTrain, i.name ≠ f.name) :
    ∃ s', s.buildTrainGraph E x y = .ok (s', some (Err.inputNotFound f.name)) ∧
      s'.sameVariants s := by
  obtain ⟨x', tick', hc, hn⟩ :=
    Sequential.cloneInputs_nil_names E (l.CloneTo s.tick []).Inputs s.tick x s.xTrain (s.tick + 1)
  have hne : ∀ i ∈ s.xTrain ++ x', i.name ≠ f.name := by
    intro i hi
    rcases List.mem_append.mp hi with h1 | h1
    · exact hxt i h1
    · exact Inputs.name_ne_of_map_eq x x' f.name hn hx i h1
  have hget := Inputs.Get_error_of_forall_ne _ f.name hne
  unfold Sequential.buildTrainGraph
  simp only [bind, Except.bind, pure, Except.pure, hf, hl, deref, hc, hget]
  exact ⟨_, rfl, by simp [Sequential.sameVariants]⟩

/-- C9: `Compile` returns the error of `y.Validate()` whenever `y` fails
validation, that is whenever the shape of `y` is empty or does not start with
1; the model is then left as it was apart from its inputs `x`, so none of the
four variant graphs, chains or execution engines is built. -/
theorem Sequential.compile_rejects_invalid_target (E : Engine) (s : Sequential)
    (x : InputOr) (y : Input) (opts : List Opt)
    (h : y.shape = [] ∨ y.shape.head? ≠ some 1) :
    ∃ err, y.Validate = some err ∧
      s.Compile E x y opts = .ok ({ s with x := x.Inputs }, some err) ∧
      ∀ s', s.Compile E x y opts = .ok (s', some err) →
        s'.trainGraph = s.trainGraph ∧ s'.trainBatchGraph = s.trainBatchGraph ∧
        s'.onlineGraph = s.onlineGraph ∧ s'.onlineBatchGraph = s.onlineBatchGraph ∧
        s'.sameVariants s := by
  have hv := (Input.Validate_ne_none_iff y).mpr h
  cases hval : y.Validate with
  | none => exact absurd hval hv
  | some err =>
    have hc : s.Compile E x y opts = .ok ({ s with x := x.Inputs }, some err) := by
      simp [Sequential.Compile, hval, pure, Except.pure]
    refine ⟨err, rfl, hc, ?_⟩
    intro s' hs'
    rw [hc] at hs'
    cases hs'
    simp [Sequential.sameVariants]

/-- C9, at a fresh model, the input "x" of shape [1, 5] and the target "y" of
shape [10, 2], whose leading dimension is not 1. -/
theorem Sequential.compile_rejects_invalid_target_witness :
    ∃ err, (NewInput "y" [10, 2]).Validate = some err ∧
      (NewSequential "m").Compile sampleEngine (InputOr.input (NewInput "x" [1, 5]))
          (NewInput "y" [10, 2]) [] =
        .ok ({ NewSequential "m" with x := (InputOr.input (NewInput "x" [1, 5])).Inputs },
          some err) ∧
      ∀ s', (NewSequential "m").Compile sampleEngine (InputOr.input (NewInput "x" [1, 5]))
          (NewInput "y" [10, 2]) [] = .ok (s', some err) →
        s'.trainGraph = (NewSequential "m").trainGraph ∧
        s'.trainBatchGraph = (NewSequential "m").trainBatchGraph ∧
        s'.onlineGraph = (NewSequential "m").onlineGraph ∧
        s'.onlineBatchGraph = (NewSequential "m").onlineBatchGraph ∧
        s'.sameVariants (NewSequential "m") :=
  Sequential.compile_rejects_invalid_target sampleEngine (NewSequential "m")
    (InputOr.input (NewInput "x" [1, 5])) (NewInput "y" [10, 2]) [] (by decide)

theorem Sequential.sameVariants_trans (a b c : Sequential) (h1 : a.sameVariants b)
    (h2 : b.sameVariants c) : a.sameVariants c := by
  unfold Sequential.sameVariants at *
  obtain ⟨a1, a2, a3, a4, a5, a6, a7, a8⟩ := h1
  obtain ⟨b1, b2, b3, b4, b5, b6, b7, b8⟩ := h2
  exact ⟨a1.trans b1, a2.trans b2, a3.trans b3, a4.trans b4, a5.trans b5, a6.trans b6,
    a7.trans b7, a8.trans b8⟩

theorem Sequential.Compile_valid (E : Engine) (s : Sequential) (x : InputOr) (y : Input)
    (opts : List Opt) (hy : y.Validate = none) :
    ∃ (S2 : Sequential) (l : Loss), s.Compile E x y opts =
        ((S2.defaultTracker E).andThen fun s =>
         (s.defaultFwd x).andThen fun s =>
         (s.buildTrainGraph E s.x s.y).andThen fun s =>
         (s.buildTrainBatchGraph E s.x s.y).andThen fun s =>
         (s.buildOnlineGraph E s.x).andThen fun s =>
         s.buildOnlineBatchGraph E s.x) ∧
      S2.fwd = s.fwd ∧ S2.x = x.Inputs ∧ S2.xTrain = s.xTrain ∧ S2.Chain = s.Chain ∧
      S2.loss = some l ∧ S2.sameVariants s := by
  obtain ⟨o1, o2, o3, o4, o5⟩ := Opt.foldl_frame opts { s with x := x.Inputs, y := some y }
  obtain ⟨d1, d2, d3, d4, d5, l, d6⟩ := Sequential.defaults_frame
    (List.foldl (fun (s : Sequential) (opt : Opt) => opt.run s)
      { s with x := x.Inputs, y := some y } opts)
  refine ⟨_, l, ?_, d1.trans o1, d2.trans o2, d3.trans o3, d4.trans o4, d6, ?_⟩
  · simp only [Sequential.Compile, hy]
  · exact Sequential.sameVariants_trans _ _ _ d5
      (Sequential.sameVariants_trans _ _ _ o5 (by simp [Sequential.sameVariants]))

/-- C10: when the input designated with `Fwd` has a name that no input of `x`
carries and `y` is valid, `Compile` never returns nil; and on a model whose
train inputs do not hold that name (any model not compiled before) it returns
an error, the lookup error of the forward input unless creating the tracker
failed first, and no chain is compiled and no execution engine made. -/
theorem Sequential.compile_unknown_forward (E : Engine) (s0 : Sequential) (f : Input)
    (x : InputOr) (y : Input) (opts : List Opt)
    (hx : ∀ i ∈ x.Inputs, i.name ≠ f.name) (hy : y.Validate = none) :
    (∀ s', (s0.Fwd f).Compile E x y opts ≠ .ok (s', none)) ∧
    ((∀ i ∈ s0.xTrain, i.name ≠ f.name) →
      ∃ s' err, (s0.Fwd f).Compile E x y opts = .ok (s', some err) ∧
        (err = Err.inputNotFound f.name ∨ E.tempFile = some err) ∧
        s'.trainChain = s0.trainChain ∧ s'.trainBatchChain = s0.trainBatchChain ∧
        s'.onlineChain = s0.onlineChain ∧ s'.onlineBatchChain = s0.onlineBatchChain ∧
        s'.trainVM = s0.trainVM ∧ s'.trainBatchVM = s0.trainBatchVM ∧
        s'.onlineVM = s0.onlineVM ∧ s'.onlineBatchVM = s0.onlineBatchVM) := by
  obtain ⟨S2, l, hcompile, hfwd2, hx2, hxt2, _, d6, hv2⟩ :=
    Sequential.Compile_valid E (s0.Fwd f) x y opts hy
  replace hfwd2 : S2.fwd = some f := hfwd2
  replace hxt2 : S2.xTrain = s0.xTrain := hxt2
  replace hv2 : S2.sameVariants s0 := hv2
  rw [hcompile]
  constructor
  · intro s' h
    obtain ⟨S3, h3, h⟩ := Step.andThen_ok_none _ _ _ h
    obtain ⟨t1, t2, _, _, _, _, _⟩ := Sequential.defaultTracker_frame E _ _ _ h3
    have hf3 : S3.fwd = some f := t1.trans hfwd2
    rw [Sequential.defaultFwd_some S3 x f hf3] at h
    obtain ⟨S4, h4, h⟩ := Step.andThen_ok_none _ _ _ h
    cases h4
    obtain ⟨S5, h5, h⟩ := Step.andThen_ok_none _ _ _ h
    obtain ⟨a1, a2, _⟩ := Sequential.buildTrainGraph_frame E _ _ _ _ _ h5
    obtain ⟨S6, h6, h⟩ := Step.andThen_ok_none _ _ _ h
    obtain ⟨b1, b2, _⟩ := Sequential.buildTrainBatchGraph_frame E _ _ _ _ _ h6
    obtain ⟨S7, h7, h⟩ := Step.andThen_ok_none _ _ _ h
    have hf6 : S6.fwd = some f := by rw [b2, a2, hf3]
    have hx6 : ∀ i ∈ S6.x, i.name ≠ f.name := by
      rw [b1, a1, t2, hx2]
      exact hx
    exact Sequential.buildOnlineGraph_not_found E S6 _ f hf6 hx6 S7 h7
  · intro hxt
    obtain ⟨S3, r, h3⟩ := Sequential.defaultTracker_total E S2
    obtain ⟨t1, t2, t3, _, t5, t6, t7⟩ := Sequential.defaultTracker_frame E _ _ _ h3
    have hv3 : S3.sameVariants s0 := Sequential.sameVariants_trans _ _ _ t6 hv2
    rw [h3]
    cases r with
    | some e =>
      refine ⟨S3, e, rfl, Or.inr (t7 e rfl), ?_⟩
      exact hv3
    | none =>
      have hf3 : S3.fwd = some f := t1.trans hfwd2
      have hl3 : S3.loss = some l := t5.trans d6
      have hx3 : ∀ i ∈ S3.x, i.name ≠ f.name := by
        rw [t2, hx2]
        exact hx
      have hxt3 : ∀ i ∈ S3.xTrain, i.name ≠ f.name := by
        rw [t3, hxt2]
        exact hxt
      obtain ⟨S4, h4, hv4⟩ :=
        Sequential.buildTrainGraph_not_found E S3 S3.x S3.y f l hf3 hl3 hx3 hxt3
      refine ⟨S4, Err.inputNotFound f.name, ?_, Or.inl rfl, ?_⟩
      · simp only [Step.andThen, Sequential.defaultFwd_some S3 x f hf3, h4]
      · exact Sequential.sameVariants_trans _ _ _ hv4 hv3

/-- C10, at a fresh model with forward input "z" compiled with the single
input "x": the result is the lookup error for "z". -/
theorem Sequential.compile_unknown_forward_witness :
    ((∀ s', ((NewSequential "m").Fwd (NewInput "z" [1, 5])).Compile sampleEngine
        (InputOr.input (NewInput "x" [1, 5])) (NewInput "y" [1, 2]) [] ≠ .ok (s', none)) ∧
    ((∀ i ∈ (NewSequential "m").xTrain, i.name ≠ (NewInput "z" [1, 5]).name) →
      ∃ s' err, ((NewSequential "m").Fwd (NewInput "z" [1, 5])).Compile sampleEngine
          (InputOr.input (NewInput "x" [1, 5])) (NewInput "y" [1, 2]) [] = .ok (s', some err) ∧
        (err = Err.inputNotFound (NewInput "z" [1, 5]).name ∨ sampleEngine.tempFile = some err) ∧
        s'.trainChain = (NewSequential "m").trainChain ∧
        s'.trainBatchChain = (NewSequential "m").trainBatchChain ∧
        s'.onlineChain = (NewSequential "m").onlineChain ∧
        s'.onlineBatchChain = (NewSequential "m").onlineBatchChain ∧
        s'.trainVM = (NewSequential "m").trainVM ∧
        s'.trainBatchVM = (NewSequential "m").trainBatchVM ∧
        s'.onlineVM = (NewSequential "m").onlineVM ∧
        s'.onlineBatchVM = (NewSequential "m").onlineBatchVM)) ∧
    (∃ s', ((NewSequential "m").Fwd (NewInput "z" [1, 5])).Compile sampleEngine
        (InputOr.input (NewInput "x" [1, 5])) (NewInput "y" [1, 2]) [] =
      .ok (s', some (Err.inputNotFound "z"))) :=
  ⟨Sequential.compile_unknown_forward sampleEngine (NewSequential "m") (NewInput "z" [1, 5])
    (InputOr.input (NewInput "x" [1, 5])) (NewInput "y" [1, 2]) [] (by decide) (by decide),
   ⟨_, rfl⟩⟩

/-! ### Learnables of a chain -/

theorem Chain.learnables_foldl (layers : List Layer) :
    ∀ acc : List (Option Node),
      layers.foldl (fun retVal layer => retVal ++ layer.Learnables) acc =
        acc ++ (layers.map Layer.Learnables).flatten := by
  induction layers with
  | nil => intro acc; simp
  | cons l rest ih => intro acc; simp [ih]

theorem Chain.Learnables_eq (c : Chain) :
    c.Learnables = (c.layers.map Layer.Learnables).flatten := by
  unfold Chain.Learnables
  rw [Chain.learnables_foldl]
  simp

theorem Layer.layer_setLearnables_learnables (l : Layer) (ns : List (Option Node))
    (h : ns.map Option.isSome = l.Learnables.map Option.isSome) :
    (l.setLearnables ns).Learnables = ns := by
  cases l with
  | fc f =>
    cases hb : f.bias with
    | none =>
      simp [Layer.Learnables, hb] at h
      obtain ⟨w, rfl⟩ := List.length_eq_one.mp (by simpa using congrArg List.length h)
      simp [Layer.setLearnables, Layer.Learnables, hb]
    | some b =>
      simp [Layer.Learnables, hb] at h
      obtain ⟨w, b', rfl⟩ := List.length_eq_two.mp (by simpa using congrArg List.length h)
      simp at h
      simp [Layer.setLearnables, Layer.Learnables, hb, h.2]
  | conv2D c =>
    simp [Layer.Learnables] at h
    obtain ⟨w, rfl⟩ := List.length_eq_one.mp (by simpa using congrArg List.length h)
    simp [Layer.setLearnables, Layer.Learnables]
  | dropout d =>
    simp [Layer.Learnables] at h
    simp [Layer.setLearnables, Layer.Learnables, h]
  | maxPooling2D d =>
    simp [Layer.Learnables] at h
    simp [Layer.setLearnables, Layer.Learnables, h]
  | flatten d =>
    simp [Layer.Learnables] at h
    simp [Layer.setLearnables, Layer.Learnables, h]
  | reshape d =>
    simp [Layer.Learnables] at h
    simp [Layer.setLearnables, Layer.Learnables, h]

theorem setLayerLearnables_learnables :
    ∀ (layers : List Layer) (ns : List (Option Node)),
      ns.map Option.isSome = ((layers.map Layer.Learnables).flatten).map Option.isSome →
      ((setLayerLearnables layers ns).map Layer.Learnables).flatten = ns
  | [], ns, h => by
    simp at h
    simp [setLayerLearnables, h]
  | l :: rest, ns, h => by
    simp only [List.map_cons, List.flatten_cons, List.map_append] at h
    have h1 : (ns.take l.Learnables.length).map Option.isSome =
        l.Learnables.map Option.isSome := by
      have := congrArg (List.take l.Learnables.length) h
      simpa [List.map_take, List.take_append_eq_append_take] using this
    have h2 : (ns.drop l.Learnables.length).map Option.isSome =
        ((rest.map Layer.Learnables).flatten).map Option.isSome := by
      have := congrArg (List.drop l.Learnables.length) h
      simpa [List.map_drop, List.drop_append_eq_append_drop] using this
    simp only [setLayerLearnables, List.map_cons, List.flatten_cons]
    rw [Layer.layer_setLearnables_learnables l _ h1, setLayerLearnables_learnables rest _ h2]
    exact List.take_append_drop _ _

theorem Chain.chain_setLearnables_learnables (c : Chain) (ns : List (Option Node))
    (h : ns.map Option.isSome = c.Learnables.map Option.isSome) :
    (c.setLearnables ns).Learnables = ns := by
  rw [Chain.Learnables_eq] at h ⊢
  exact setLayerLearnables_learnables c.layers ns h

/-! ### CloneLearnablesTo -/

theorem clonedValue_ok (p : Option Node) (v : Option Value) (h : clonedValue p = .ok v) :
    ∃ m, p = some m ∧ m.Value = v := by
  cases p with
  | none => simp [clonedValue, deref, bind, Except.bind] at h
  | some m =>
    simp [clonedValue, deref, bind, Except.bind, pure, Except.pure, Node.Clone, Node.Value] at h
    exact ⟨m, rfl, h⟩

theorem ptrValue_ok (p : Option Node) (v : Option Value) (h : ptrValue p = .ok v) :
    ∃ m, p = some m ∧ m.Value = v := by
  cases p with
  | none => simp [ptrValue] at h
  | some m =>
    simp [ptrValue, pure, Except.pure] at h
    exact ⟨m, rfl, h⟩

theorem Let_value (E : Engine) (n : Node) (v : Option Value) (h : (Let E n v).2 = none) :
    (Let E n v).1.Value = v := by
  unfold Let at h ⊢
  cases hc : E.letCheck n v with
  | none => simp [Node.Value]
  | some e => simp [hc] at h

theorem letLoop_ok (E : Engine) (valueOf : Option Node → Go (Option Value))
    (hv : ∀ p v, valueOf p = .ok v → ∃ m, p = some m ∧ m.Value = v)
    (source : List (Option Node)) :
    ∀ (learnables : List (Option Node)) (i : Nat) (nodes : List (Option Node)),
      letLoop E valueOf source learnables i = .ok (nodes, none) →
      nodes.map Option.isSome = learnables.map Option.isSome ∧
      ∀ j, j < nodes.length →
        ∃ n m, nodes.get? j = some (some n) ∧ source.get? (i + j) = some (some m) ∧
          n.Value = m.Value
  | [], i, nodes, h => by
    simp [letLoop, pure, Except.pure] at h
    subst h
    simp
  | learnable :: rest, i, nodes, h => by
    unfold letLoop at h
    split at h
    · cases h
    · rename_i src hsrc
      simp only [bind, Except.bind] at h
      split at h
      · cases h
      · rename_i v hval
        split at h
        · cases h
        · rename_i n hn
          have hl : learnable = some n := by
            cases learnable with
            | none => simp [deref] at hn
            | some n0 =>
              simp [deref, pure, Except.pure] at hn
              rw [hn]
          split at h
          · simp [pure, Except.pure] at h
          · rename_i hnone
            split at h
            · cases h
            · rename_i r hr
              simp only [pure, Except.pure, Except.ok.injEq, Prod.mk.injEq] at h
              obtain ⟨h1, h2⟩ := h
              have hr2 : letLoop E valueOf source rest (i + 1) = .ok (r.1, none) := by
                rw [hr, ← h2]
              obtain ⟨ih1, ih2⟩ := letLoop_ok E valueOf hv source rest (i + 1) r.1 hr2
              subst h1
              refine ⟨by simp [ih1, hl], ?_⟩
              intro j hj
              cases j with
              | zero =>
                obtain ⟨m, hm1, hm2⟩ := hv src v hval
                refine ⟨(Let E n v).1, m, by simp, ?_, ?_⟩
                · simpa [hm1] using hsrc
                · rw [Let_value E n v hnone, hm2]
              | succ j =>
                obtain ⟨n1, m1, g1, g2, g3⟩ := ih2 j (by simpa using hj)
                refine ⟨n1, m1, by simpa using g1, ?_, g3⟩
                have : i + (j + 1) = i + 1 + j := by omega
                rw [this]
                exact g2

theorem Sequential.sharedChain_setSharedChain (s : Sequential) (k k' : SharedChain)
    (c : Goro.Chain) :
    (s.setSharedChain k c).sharedChain k' = if k' = k then some c else s.sharedChain k' := by
  cases k <;> cases k' <;> simp [Sequential.setSharedChain, Sequential.sharedChain]

theorem Sequential.trainChain_setSharedChain (s : Sequential) (k : SharedChain)
    (c : Goro.Chain) :
    (s.setSharedChain k c).trainChain = s.trainChain := by
  cases k <;> rfl

theorem Sequential.letShared_ok (E : Engine) (new : List (Option Node)) :
    ∀ (keys : List SharedChain) (dst dst' : Sequential),
      Sequential.letShared E new keys dst = .ok (dst', none) →
      dst'.trainChain = dst.trainChain ∧
      ∀ k, (k ∈ keys → ∃ c, dst'.sharedChain k = some c ∧ valuesFrom c.Learnables new) ∧
        (k ∉ keys → dst'.sharedChain k = dst.sharedChain k)
  | [], dst, dst', h => by
    simp [Sequential.letShared, pure, Except.pure] at h
    subst h
    simp
  | key :: rest, dst, dst', h => by
    unfold Sequential.letShared at h
    simp only [bind, Except.bind] at h
    split at h
    · cases h
    · rename_i chain hchain
      split at h
      · cases h
      · rename_i r hr
        split at h
        · simp [pure, Except.pure] at h
        · rename_i herr
          have hr2 : letLoop E ptrValue new chain.Learnables 0 = .ok (r.1, none) := by
            rw [hr, ← herr]
          obtain ⟨l1, l2⟩ := letLoop_ok E ptrValue ptrValue_ok new chain.Learnables 0 r.1 hr2
          obtain ⟨ih1, ih2⟩ := Sequential.letShared_ok E new rest _ dst' h
          have hlearn := Chain.chain_setLearnables_learnables chain r.1 l1
          refine ⟨by rw [ih1, Sequential.trainChain_setSharedChain], ?_⟩
          intro k
          constructor
          · intro hk
            by_cases hkr : k ∈ rest
            · exact (ih2 k).1 hkr
            · have hk' : k = key := by
                rcases List.mem_cons.mp hk with h0 | h0
                · exact h0
                · exact absurd h0 hkr
              refine ⟨chain.setLearnables r.1, ?_, ?_⟩
              · rw [(ih2 k).2 hkr, Sequential.sharedChain_setSharedChain]
                simp [hk']
              · rw [hlearn]
                intro j hj
                obtain ⟨n, m, g1, g2, g3⟩ := l2 j hj
                exact ⟨n, m, g1, by simpa using g2, g3⟩
          · intro hk
            have hk1 : k ≠ key := fun h0 => hk (by simp [h0])
            have hk2 : k ∉ rest := fun h0 => hk (List.mem_cons_of_mem _ h0)
            rw [(ih2 k).2 hk2, Sequential.sharedChain_setSharedChain]
            simp [hk1]

theorem valuesFrom_trans (a b c : List (Option Node)) (hlen : a.length ≤ b.length)
    (h1 : valuesFrom a b) (h2 : valuesFrom b c) : valuesFrom a c := by
  intro i hi
  obtain ⟨n, m, g1, g2, g3⟩ := h1 i hi
  obtain ⟨n', m', g1', g2', g3'⟩ := h2 i (Nat.lt_of_lt_of_le hi hlen)
  rw [g2] at g1'
  cases g1'
  exact ⟨n, m', g1, g2', g3.trans g3'⟩

theorem valuesFrom_length_le (a b : List (Option Node)) (h : valuesFrom a b) :
    a.length ≤ b.length := by
  by_contra hlt
  obtain ⟨n, m, _, g2, _⟩ := h b.length (Nat.lt_of_not_le hlt)
  rw [List.get?_eq_none.mpr (Nat.le_refl b.length)] at g2
  cases g2

/-- C2: whenever `s.CloneLearnablesTo(to)` returns nil, the train chain of `to`
has as many learnables as the train chain of `s`, and every learnable of the
train, train-batch, online and online-batch chains of `to` holds the value of
the learnable of the train chain of `s` at the same index. This holds for
every order in which the map of the shared chains is visited. -/
theorem Sequential.cloneLearnablesTo_copies (E : Engine) (order : MapOrder)
    (s dst dst' : Sequential)
    (h : s.CloneLearnablesTo E order dst = .ok (dst', none)) :
    ∃ src train trainBatch online onlineBatch,
      s.trainChain = some src ∧ dst'.trainChain = some train ∧
      dst'.trainBatchChain = some trainBatch ∧ dst'.onlineChain = some online ∧
      dst'.onlineBatchChain = some onlineBatch ∧
      train.Learnables.length = src.Learnables.length ∧
      train.valuesFrom src ∧ trainBatch.valuesFrom src ∧ online.valuesFrom src ∧
      onlineBatch.valuesFrom src := by
  unfold Sequential.CloneLearnablesTo at h
  simp only [bind, Except.bind] at h
  split at h
  · cases h
  · rename_i src hsrc
    split at h
    · cases h
    · rename_i dstTrain hdst
      split at h
      · cases h
      · rename_i hlen
        split at h
        · cases h
        · rename_i r hr
          split at h
          · simp [pure, Except.pure] at h
          · rename_i herr
            have hr2 : letLoop E clonedValue src.Learnables dstTrain.Learnables 0 =
                .ok (r.1, none) := by rw [hr, ← herr]
            obtain ⟨l1, l2⟩ :=
              letLoop_ok E clonedValue clonedValue_ok src.Learnables dstTrain.Learnables 0 r.1 hr2
            have hlearn := Chain.chain_setLearnables_learnables dstTrain r.1 l1
            obtain ⟨k1, k2⟩ := Sequential.letShared_ok E _ order.keys _ dst' h
            rw [hlearn] at k2
            have hlen2 : r.1.length = src.Learnables.length := by
              have h1 := congrArg List.length l1
              simp only [List.length_map] at h1
              rw [h1]
              have h2 : src.Learnables.length = dstTrain.Learnables.length := by
                simpa using hlen
              exact h2.symm
            have hsrc' : s.trainChain = some src := by
              cases hs : s.trainChain with
              | none => simp [hs, deref] at hsrc
              | some c => simp [hs, deref, pure, Except.pure] at hsrc; rw [hsrc]
            have hnew : valuesFrom r.1 src.Learnables := by
              intro j hj
              obtain ⟨n, m, g1, g2, g3⟩ := l2 j hj
              exact ⟨n, m, g1, by simpa using g2, g3⟩
            have mem : ∀ k, k ∈ order.keys := by
              intro k
              cases order <;> cases k <;> simp [MapOrder.keys]
            obtain ⟨tb, htb, vtb⟩ := (k2 SharedChain.trainBatch).1 (mem _)
            obtain ⟨onl, hon, von⟩ := (k2 SharedChain.online).1 (mem _)
            obtain ⟨ob, hob, vob⟩ := (k2 SharedChain.onlineBatch).1 (mem _)
            have hk1 : dst'.trainChain = some (dstTrain.setLearnables r.1) := by
              rw [k1]
            refine ⟨src, dstTrain.setLearnables r.1, tb, onl, ob, hsrc', hk1, htb, hon, hob,
              ?_, ?_, ?_, ?_, ?_⟩
            · rw [hlearn, hlen2]
            · unfold Chain.valuesFrom
              rw [hlearn]
              exact hnew
            · exact valuesFrom_trans _ _ _ (valuesFrom_length_le _ _ vtb) vtb hnew
            · exact valuesFrom_trans _ _ _ (valuesFrom_length_le _ _ von) von hnew
            · exact valuesFrom_trans _ _ _ (valuesFrom_length_le _ _ vob) vob hnew

/-- C2, copying the learnables of one compiled sample model to another whose
weights were initialised differently. -/
theorem Sequential.cloneLearnablesTo_copies_witness :
    ∃ dst', (sampleCompiled "a" (some (InitWFn.custom 7))).CloneLearnablesTo sampleEngine
        MapOrder.on_ob_tb (sampleCompiled "b" none) = .ok (dst', none) ∧
      ∃ src train trainBatch online onlineBatch,
        (sampleCompiled "a" (some (InitWFn.custom 7))).trainChain = some src ∧
        dst'.trainChain = some train ∧
        dst'.trainBatchChain = some trainBatch ∧ dst'.onlineChain = some online ∧
        dst'.onlineBatchChain = some onlineBatch ∧
        train.Learnables.length = src.Learnables.length ∧
        train.valuesFrom src ∧ trainBatch.valuesFrom src ∧ online.valuesFrom src ∧
        onlineBatch.valuesFrom src :=
  ⟨_, rfl, Sequential.cloneLearnablesTo_copies sampleEngine MapOrder.on_ob_tb
    (sampleCompiled "a" (some (InitWFn.custom 7))) (sampleCompiled "b" none) _ rfl⟩

/-! ### Compile: shared learnables -/

theorem FC.fc_Compile_shared (E : Engine) (f : FC) (g t : Nat) (l : Layer) (t1 : Nat)
    (g' t' : Nat) (opts : List CompileOpt) (l' : Layer) (t1' : Nat)
    (h1 : f.Compile E g [] t = .ok (l, t1))
    (hopts : opts = [] ∨ opts = [CompileOpt.AsBatch])
    (h2 : f.Compile E g' (opts ++ [CompileOpt.WithSharedLearnables (some l)]) t' = .ok (l', t1')) :
    List.Forall₂ sameValue l'.Learnables l.Learnables := by
  unfold FC.Compile at h1
  simp only [List.foldlM_nil, bind, Except.bind, pure, Except.pure, newFC] at h1
  cases hi : f.Init with
  | none => simp [hi, withInit] at h1
  | some ini =>
    cases hb : f.NoBias with
    | true =>
      simp [hi, hb, withInit, pure, Except.pure] at h1
      obtain ⟨h1a, h1b⟩ := h1
      subst h1a
      rcases hopts with rfl | rfl <;>
      · simp [FC.Compile, newFC, CompileOpt.runFC, bind, Except.bind, pure, Except.pure,
          ptrValue, withValue, hb] at h2
        split at h2
        · cases h2
        · rename_i v hv
          split at hv
          · cases hv
            cases h2
            simp [Layer.Learnables, sameValue, Node.Value, newNode]
          · cases hv
    | false =>
      cases hbi : f.BiasInit with
      | none => simp [hi, hb, hbi, withInit, pure, Except.pure] at h1
      | some bini =>
        simp [hi, hb, hbi, withInit, pure, Except.pure] at h1
        obtain ⟨h1a, h1b⟩ := h1
        subst h1a
        rcases hopts with rfl | rfl <;>
        · simp [FC.Compile, newFC, CompileOpt.runFC, bind, Except.bind, pure, Except.pure,
            ptrValue, withValue, hb] at h2
          split at h2
          · cases h2
          · rename_i v hv
            split at hv
            · cases hv
              split at h2
              · cases h2
              · rename_i v2 hv2
                split at hv2
                · cases hv2
                  cases h2
                  simp [Layer.Learnables, sameValue, Node.Value, newNode]
                · cases hv2
            · cases hv

theorem Conv2D.conv2D_Compile_shared (E : Engine) (c : Conv2D) (g t : Nat) (l : Layer) (t1 : Nat)
    (g' t' : Nat) (opts : List CompileOpt) (l' : Layer) (t1' : Nat)
    (h1 : c.Compile E g [] t = .ok (l, t1))
    (hopts : opts = [] ∨ opts = [CompileOpt.AsBatch])
    (h2 : c.Compile E g' (opts ++ [CompileOpt.WithSharedLearnables (some l)]) t' = .ok (l', t1')) :
    List.Forall₂ sameValue l'.Learnables l.Learnables := by
  unfold Conv2D.Compile at h1
  simp only [List.foldlM_nil, bind, Except.bind, pure, Except.pure, newConv2D] at h1
  cases hi : c.Init with
  | none => simp [hi, withInit] at h1
  | some ini =>
    simp [hi, withInit, pure, Except.pure] at h1
    obtain ⟨h1a, h1b⟩ := h1
    subst h1a
    rcases hopts with rfl | rfl <;>
    · simp [Conv2D.Compile, newConv2D, CompileOpt.runConv2D, bind, Except.bind, pure,
        Except.pure, ptrValue, withValue, withInit, hi] at h2
      split at h2
      · cases h2
      · rename_i v hv
        split at hv
        · cases hv
          cases h2
          simp [Layer.Learnables, sameValue, Node.Value, newNode]
        · cases hv

theorem Config.config_Compile_shared (E : Engine) (cfg : Config) (g t : Nat) (l : Layer) (t1 : Nat)
    (g' t' : Nat) (opts : List CompileOpt) (l' : Layer) (t1' : Nat)
    (h1 : cfg.Compile E g [] t = .ok (l, t1))
    (hopts : opts = [] ∨ opts = [CompileOpt.AsBatch])
    (h2 : cfg.Compile E g' (opts ++ [CompileOpt.WithSharedLearnables (some l)]) t' =
      .ok (l', t1')) :
    List.Forall₂ sameValue l'.Learnables l.Learnables := by
  obtain ⟨p, v⟩ := cfg
  cases v with
  | FC f => exact FC.fc_Compile_shared E f g t l t1 g' t' opts l' t1' h1 hopts h2
  | Conv2D c => exact Conv2D.conv2D_Compile_shared E c g t l t1 g' t' opts l' t1' h1 hopts h2
  | Dropout d =>
    simp [Config.Compile, pure, Except.pure, Dropout.Compile] at h1 h2
    rw [← h1.1, ← h2.1]
    simp [Layer.Learnables]
  | MaxPooling2D d =>
    simp [Config.Compile, pure, Except.pure, MaxPooling2D.Compile] at h1 h2
    rw [← h1.1, ← h2.1]
    simp [Layer.Learnables]
  | Flatten d =>
    simp [Config.Compile, pure, Except.pure, Flatten.Compile] at h1 h2
    rw [← h1.1, ← h2.1]
    simp [Layer.Learnables]
  | Reshape d =>
    simp [Config.Compile, pure, Except.pure, Reshape.Compile] at h1 h2
    rw [← h1.1, ← h2.1]
    simp [Layer.Learnables]

theorem Chain.compileLoop_unshared (E : Engine) (g : Nat) :
    ∀ (cfgs : List Config) (i : Nat) (acc : List Layer) (t : Nat) (res : List Layer)
      (t' : Nat),
      Chain.compileLoop E g none [] cfgs i acc t = .ok (res, t') →
      ∃ new, res = acc ++ new ∧
        List.Forall₂ (fun cfg l => ∃ t0 t1, Config.Compile E cfg g [] t0 = .ok (l, t1)) cfgs new
  | [], i, acc, t, res, t', h => by
    simp [Chain.compileLoop, pure, Except.pure] at h
    exact ⟨[], by simp [h.1], List.Forall₂.nil⟩
  | cfg :: rest, i, acc, t, res, t', h => by
    unfold Chain.compileLoop at h
    simp only [bind, Except.bind] at h
    split at h
    · cases h
    · rename_i v hv
      obtain ⟨new, hnew, hF⟩ := Chain.compileLoop_unshared E g rest (i + 1) _ _ res t' h
      refine ⟨v.1 :: new, by simp [hnew], List.Forall₂.cons ⟨t, v.2, hv⟩ hF⟩

theorem Chain.compileLoop_shared (E : Engine) (g g' : Nat) (opts : List CompileOpt)
    (hopts : opts = [] ∨ opts = [CompileOpt.AsBatch]) :
    ∀ (cfgs : List Config) (new : List Layer),
      List.Forall₂ (fun cfg l => ∃ t0 t1, Config.Compile E cfg g [] t0 = .ok (l, t1)) cfgs new →
      ∀ (pre acc : List Layer) (t : Nat) (res : List Layer) (t' : Nat),
        Chain.compileLoop E g' (some (pre ++ new)) opts cfgs pre.length acc t = .ok (res, t') →
        ∃ new', res = acc ++ new' ∧
          List.Forall₂ (fun l' l => List.Forall₂ sameValue l'.Learnables l.Learnables) new' new
  | [], new, hF, pre, acc, t, res, t', h => by
    cases hF
    simp [Chain.compileLoop, pure, Except.pure] at h
    exact ⟨[], by simp [h.1], List.Forall₂.nil⟩
  | cfg :: rest, new, hF, pre, acc, t, res, t', h => by
    cases hF with
    | cons hl hrest =>
      rename_i l newrest
      obtain ⟨t0, t1, hc⟩ := hl
      unfold Chain.compileLoop at h
      have hget : (pre ++ l :: newrest).get? pre.length = some l := by
        rw [List.get?_eq_getElem?, List.getElem?_append_right (Nat.le_refl _)]
        simp
      simp only [hget, bind, Except.bind] at h
      split at h
      · cases h
      · rename_i v hv
        have hpre : pre ++ l :: newrest = (pre ++ [l]) ++ newrest := by simp
        have hlen : pre.length + 1 = (pre ++ [l]).length := by simp
        rw [hpre, hlen] at h
        obtain ⟨new', hnew', hF'⟩ :=
          Chain.compileLoop_shared E g g' opts hopts rest newrest hrest (pre ++ [l]) _ _ res t' h
        refine ⟨v.1 :: new', by simp [hnew'], List.Forall₂.cons ?_ hF'⟩
        exact Config.config_Compile_shared E cfg g t0 l t1 g' t opts v.1 v.2 hc hopts hv

theorem Chain.Add_frame (E : Engine) : ∀ (l : List Config) (c c' : Chain),
    Chain.Add E c l = .ok c' →
    c'.sharedLearnables = c.sharedLearnables ∧ c'.compileOpts = c.compileOpts ∧
    c'.layers = c.layers
  | [], c, c', h => by
    simp [Chain.Add, pure, Except.pure] at h
    subst h
    simp
  | cfg :: rest, c, c', h => by
    unfold Chain.Add at h
    split at h
    · split at h
      · cases h
      · exact Chain.Add_frame E rest { c with Layers := c.Layers ++ [cfg.ApplyDefaults] } c' h
    · exact Chain.Add_frame E rest { c with Layers := c.Layers ++ [cfg.ApplyDefaults] } c' h

theorem Chain.cloneLoop_frame (E : Engine) : ∀ (l : List Config) (c c' : Chain),
    Chain.cloneLoop E c l = .ok c' →
    c'.sharedLearnables = c.sharedLearnables ∧ c'.compileOpts = c.compileOpts ∧
    c'.layers = c.layers
  | [], c, c', h => by
    simp [Chain.cloneLoop, pure, Except.pure] at h
    subst h
    simp
  | cfg :: rest, c, c', h => by
    unfold Chain.cloneLoop at h
    simp only [bind, Except.bind] at h
    split at h
    · cases h
    · split at h
      · cases h
      · rename_i c1 hc1
        obtain ⟨a1, a2, a3⟩ := Chain.Add_frame E _ _ _ hc1
        obtain ⟨b1, b2, b3⟩ := Chain.cloneLoop_frame E rest _ c' h
        exact ⟨b1.trans a1, b2.trans a2, b3.trans a3⟩

theorem Chain.Clone_fresh (E : Engine) (c cl : Chain) (h : c.Clone E = .ok cl) :
    cl.sharedLearnables = none ∧ cl.compileOpts = [] ∧ cl.layers = [] :=
  Chain.cloneLoop_frame E c.Layers Chain.empty cl h

theorem Chain.Compile_shared_values (E : Engine) (cl : Chain) (g t : Nat) (train : Chain)
    (t1 : Nat) (g' t' : Nat) (chainOpts : List ChainOpt) (c : Chain) (t1' : Nat)
    (hcl : cl.sharedLearnables = none ∧ cl.compileOpts = [] ∧ cl.layers = [])
    (h1 : cl.Compile E g [] t = .ok (train, t1))
    (hopts : chainOpts = [ChainOpt.WithSharedChainLearnables (some train)] ∨
      chainOpts = [ChainOpt.WithSharedChainLearnables (some train),
        ChainOpt.WithLayerOpts [CompileOpt.AsBatch]])
    (h2 : cl.Compile E g' chainOpts t' = .ok (c, t1')) :
    List.Forall₂ sameValue c.Learnables train.Learnables := by
  obtain ⟨c1, c2, c3⟩ := hcl
  unfold Chain.Compile at h1 h2
  simp only [List.foldl_nil, bind, Except.bind, pure, Except.pure, c1, c2, c3] at h1
  split at h1
  · cases h1
  · rename_i v hv
    cases h1
    obtain ⟨new, hnew, hF⟩ := Chain.compileLoop_unshared E g cl.Layers 0 [] t v.1 v.2 hv
    simp only [List.nil_append] at hnew
    rw [← hnew] at hF
    have key : ∀ opts, (opts = [] ∨ opts = [CompileOpt.AsBatch]) → ∀ r,
        Chain.compileLoop E g' (some v.1) opts cl.Layers 0 [] t' = .ok r →
        List.Forall₂ sameValue ((r.1.map Layer.Learnables).flatten)
          ((v.1.map Layer.Learnables).flatten) := by
      intro opts ho r hr
      obtain ⟨new', hnew', hF'⟩ :=
        Chain.compileLoop_shared E g g' opts ho cl.Layers v.1 hF [] [] t' r.1 r.2 hr
      simp only [List.nil_append] at hnew'
      rw [hnew']
      apply List.rel_flatten
      exact List.forall₂_map_left_iff.mpr (List.forall₂_map_right_iff.mpr hF')
    rcases hopts with rfl | rfl
    · simp only [List.foldl_cons, List.foldl_nil, ChainOpt.run, Option.map_some', bind,
        Except.bind, pure, Except.pure, c2, c3] at h2
      split at h2
      · cases h2
      · rename_i r hr
        cases h2
        rw [Chain.Learnables_eq, Chain.Learnables_eq]
        exact key [] (Or.inl rfl) r hr
    · simp only [List.foldl_cons, List.foldl_nil, ChainOpt.run, Option.map_some', bind,
        Except.bind, pure, Except.pure, c2, c3] at h2
      split at h2
      · cases h2
      · rename_i r hr
        cases h2
        rw [Chain.Learnables_eq, Chain.Learnables_eq]
        exact key [CompileOpt.AsBatch] (Or.inr rfl) r hr

theorem Sequential.buildTrainGraph_ok (E : Engine) (s : Sequential) (x : Inputs)
    (y : Option Input) (s' : Sequential) (h : s.buildTrainGraph E x y = .ok (s', none)) :
    ∃ cl chain g t t', s.Chain.Clone E = .ok cl ∧ cl.Compile E g [] t = .ok (chain, t') ∧
      s'.trainChain = some chain := by
  unfold Sequential.buildTrainGraph at h
  simp only [bind, Except.bind, pure, Except.pure] at h
  repeat' split at h
  all_goals first
    | cases h; done
    | (cases h
       refine ⟨?cl, ?chain, ?g, ?t, ?t', ?h1, ?h2, ?h3⟩
       case h1 => assumption
       case h2 => assumption
       case h3 => simp only [(Sequential.track_frame _ _ _ _).2.2.2.1])

theorem Sequential.buildTrainBatchGraph_ok (E : Engine) (s : Sequential) (x : Inputs)
    (y : Option Input) (s' : Sequential) (h : s.buildTrainBatchGraph E x y = .ok (s', none)) :
    ∃ cl chain g t t', s.Chain.Clone E = .ok cl ∧
      cl.Compile E g [ChainOpt.WithSharedChainLearnables s.trainChain,
        ChainOpt.WithLayerOpts [CompileOpt.AsBatch]] t = .ok (chain, t') ∧
      s'.trainBatchChain = some chain := by
  unfold Sequential.buildTrainBatchGraph at h
  simp only [bind, Except.bind, pure, Except.pure] at h
  repeat' split at h
  all_goals first
    | cases h; done
    | (cases h
       refine ⟨?cl, ?chain, ?g, ?t, ?t', ?h1, ?h2, ?h3⟩
       case h1 => assumption
       case h2 => assumption
       case h3 => simp only [(Sequential.track_frame _ _ _ _).2.2.2.2.1])

theorem Sequential.buildOnlineGraph_ok (E : Engine) (s : Sequential) (x : Inputs)
    (s' : Sequential) (h : s.buildOnlineGraph E x = .ok (s', none)) :
    ∃ cl chain g t t', s.Chain.Clone E = .ok cl ∧
      cl.Compile E g [ChainOpt.WithSharedChainLearnables s.trainChain] t = .ok (chain, t') ∧
      s'.onlineChain = some chain := by
  unfold Sequential.buildOnlineGraph at h
  simp only [bind, Except.bind, pure, Except.pure] at h
  repeat' split at h
  all_goals first
    | cases h; done
    | (cases h
       refine ⟨?cl, ?chain, ?g, ?t, ?t', ?h1, ?h2, ?h3⟩
       case h1 => assumption
       case h2 => assumption
       case h3 => rfl)

theorem Sequential.buildOnlineBatchGraph_ok (E : Engine) (s : Sequential) (x : Inputs)
    (s' : Sequential) (h : s.buildOnlineBatchGraph E x = .ok (s', none)) :
    ∃ cl chain g t t', s.Chain.Clone E = .ok cl ∧
      cl.Compile E g [ChainOpt.WithSharedChainLearnables s.trainChain,
        ChainOpt.WithLayerOpts [CompileOpt.AsBatch]] t = .ok (chain, t') ∧
      s'.onlineBatchChain = some chain := by
  unfold Sequential.buildOnlineBatchGraph at h
  simp only [bind, Except.bind, pure, Except.pure] at h
  repeat' split at h
  all_goals first
    | cases h; done
    | (cases h
       refine ⟨?cl, ?chain, ?g, ?t, ?t', ?h1, ?h2, ?h3⟩
       case h1 => assumption
       case h2 => assumption
       case h3 => rfl)

/-! ### Compile: the learnables hold values -/

theorem FC.fc_Compile_holds (E : Engine) (f : FC) (g t : Nat) (l : Layer) (t1 : Nat)
    (h : f.Compile E g [] t = .ok (l, t1)) :
    ∀ p ∈ l.Learnables, holdsValue p := by
  unfold FC.Compile at h
  simp only [List.foldlM_nil, bind, Except.bind, pure, Except.pure, newFC] at h
  cases hi : f.Init with
  | none => simp [hi, withInit] at h
  | some ini =>
    cases hb : f.NoBias with
    | true =>
      simp [hi, hb, withInit, pure, Except.pure] at h
      obtain ⟨h1a, _⟩ := h
      subst h1a
      simp [Layer.Learnables, holdsValue, Node.Value, newNode]
    | false =>
      cases hbi : f.BiasInit with
      | none => simp [hi, hb, hbi, withInit, pure, Except.pure] at h
      | some bini =>
        simp [hi, hb, hbi, withInit, pure, Except.pure] at h
        obtain ⟨h1a, _⟩ := h
        subst h1a
        simp [Layer.Learnables, holdsValue, Node.Value, newNode]

theorem Conv2D.conv2D_Compile_holds (E : Engine) (c : Conv2D) (g t : Nat) (l : Layer)
    (t1 : Nat) (h : c.Compile E g [] t = .ok (l, t1)) :
    ∀ p ∈ l.Learnables, holdsValue p := by
  unfold Conv2D.Compile at h
  simp only [List.foldlM_nil, bind, Except.bind, pure, Except.pure, newConv2D] at h
  cases hi : c.Init with
  | none => simp [hi, withInit] at h
  | some ini =>
    simp [hi, withInit, pure, Except.pure] at h
    obtain ⟨h1a, _⟩ := h
    subst h1a
    simp [Layer.Learnables, holdsValue, Node.Value, newNode]

theorem Config.config_Compile_holds (E : Engine) (cfg : Config) (g t : Nat) (l : Layer)
    (t1 : Nat) (h : cfg.Compile E g [] t = .ok (l, t1)) :
    ∀ p ∈ l.Learnables, holdsValue p := by
  obtain ⟨p, v⟩ := cfg
  cases v with
  | FC f => exact FC.fc_Compile_holds E f g t l t1 h
  | Conv2D c => exact Conv2D.conv2D_Compile_holds E c g t l t1 h
  | Dropout d =>
    simp [Config.Compile, pure, Except.pure, Dropout.Compile] at h
    rw [← h.1]
    simp [Layer.Learnables]
  | MaxPooling2D d =>
    simp [Config.Compile, pure, Except.pure, MaxPooling2D.Compile] at h
    rw [← h.1]
    simp [Layer.Learnables]
  | Flatten d =>
    simp [Config.Compile, pure, Except.pure, Flatten.Compile] at h
    rw [← h.1]
    simp [Layer.Learnables]
  | Reshape d =>
    simp [Config.Compile, pure, Except.pure, Reshape.Compile] at h
    rw [← h.1]
    simp [Layer.Learnables]

theorem Chain.Compile_holds (E : Engine) (cl : Chain) (g t : Nat) (train : Chain) (t1 : Nat)
    (hcl : cl.sharedLearnables = none ∧ cl.compileOpts = [] ∧ cl.layers = [])
    (h1 : cl.Compile E g [] t = .ok (train, t1)) :
    ∀ p ∈ train.Learnables, holdsValue p := by
  obtain ⟨c1, c2, c3⟩ := hcl
  unfold Chain.Compile at h1
  simp only [List.foldl_nil, bind, Except.bind, pure, Except.pure, c1, c2, c3] at h1
  split at h1
  · cases h1
  · rename_i v hv
    cases h1
    obtain ⟨new, hnew, hF⟩ := Chain.compileLoop_unshared E g cl.Layers 0 [] t v.1 v.2 hv
    simp only [List.nil_append] at hnew
    rw [Chain.Learnables_eq]
    simp only [hnew]
    intro p hp
    rw [List.mem_flatten] at hp
    obtain ⟨ls, hls, hp⟩ := hp
    rw [List.mem_map] at hls
    obtain ⟨l, hl, rfl⟩ := hls
    have key : ∀ (cfgs : List Config) (new : List Layer),
        List.Forall₂ (fun cfg l => ∃ t0 t1, Config.Compile E cfg g [] t0 = .ok (l, t1))
          cfgs new → ∀ l ∈ new, ∀ p ∈ l.Learnables, holdsValue p := by
      intro cfgs new hF
      induction hF with
      | nil => intro l hl; cases hl
      | cons hhead _ ih =>
        intro l hl
        rcases List.mem_cons.mp hl with rfl | hl
        · obtain ⟨t0, t1, hc⟩ := hhead
          exact Config.config_Compile_holds E _ g t0 _ t1 hc
        · exact ih l hl
    exact key _ _ hF l hl p hp

theorem sharesValues_of_forall₂ :
    ∀ (a b : List (Option Node)), List.Forall₂ sameValue a b →
      (∀ p ∈ b, holdsValue p) → a.length = b.length ∧ sharesValues a b
  | [], [], _, _ => ⟨rfl, fun i hi => absurd hi (Nat.not_lt_zero i)⟩
  | p :: a, q :: b, h, hb => by
    cases h with
    | cons hpq hrest =>
      obtain ⟨hlen, hv⟩ :=
        sharesValues_of_forall₂ a b hrest (fun r hr => hb r (List.mem_cons_of_mem _ hr))
      refine ⟨by simp [hlen], ?_⟩
      intro i hi
      cases i with
      | zero =>
        obtain ⟨n, m, rfl, rfl, hnm⟩ := hpq
        obtain ⟨m', v, hm, hv'⟩ := hb (some m) (List.mem_cons_self _ _)
        cases hm
        exact ⟨n, m, v, rfl, rfl, hnm.trans hv', hv'⟩
      | succ i =>
        obtain ⟨n, m, v, g1, g2, g3, g4⟩ := hv i (by simpa using hi)
        exact ⟨n, m, v, by simpa using g1, by simpa using g2, g3, g4⟩

/-- C1: after `Compile` succeeds, each of the three shared chains (train-batch,
online, online-batch) has as many learnables as the train chain, and every one
of its learnables holds a value, which is the value the train chain's learnable
at the same index holds. -/
theorem Sequential.compile_shares_values (E : Engine) (s : Sequential) (x : InputOr)
    (y : Input) (opts : List Opt) (s' : Sequential)
    (h : s.Compile E x y opts = .ok (s', none)) :
    ∃ train trainBatch online onlineBatch,
      s'.trainChain = some train ∧ s'.trainBatchChain = some trainBatch ∧
      s'.onlineChain = some online ∧ s'.onlineBatchChain = some onlineBatch ∧
      trainBatch.Learnables.length = train.Learnables.length ∧
      trainBatch.sharesValues train ∧
      online.Learnables.length = train.Learnables.length ∧ online.sharesValues train ∧
      onlineBatch.Learnables.length = train.Learnables.length ∧
      onlineBatch.sharesValues train := by
  have hy : y.Validate = none := by
    cases hv : y.Validate with
    | none => rfl
    | some err => simp [Sequential.Compile, hv, pure, Except.pure] at h
  obtain ⟨S2, l, hcompile, _⟩ := Sequential.Compile_valid E s x y opts hy
  rw [hcompile] at h
  obtain ⟨S3, _, h⟩ := Step.andThen_ok_none _ _ _ h
  obtain ⟨S4, _, h⟩ := Step.andThen_ok_none _ _ _ h
  obtain ⟨S5, h5, h⟩ := Step.andThen_ok_none _ _ _ h
  obtain ⟨S6, h6, h⟩ := Step.andThen_ok_none _ _ _ h
  obtain ⟨S7, h7, h8⟩ := Step.andThen_ok_none _ _ _ h
  obtain ⟨_, _, a3⟩ := Sequential.buildTrainGraph_frame E _ _ _ _ _ h5
  obtain ⟨_, _, b3, b4⟩ := Sequential.buildTrainBatchGraph_frame E _ _ _ _ _ h6
  obtain ⟨_, _, c3, c4, c5⟩ := Sequential.buildOnlineGraph_frame E _ _ _ _ h7
  obtain ⟨_, _, _, d4, d5, d6⟩ := Sequential.buildOnlineBatchGraph_frame E _ _ _ _ h8
  obtain ⟨cl, train, g1, t1, t1', k1, k2, k3⟩ := Sequential.buildTrainGraph_ok E _ _ _ _ h5
  obtain ⟨cl2, tb, g2, t2, t2', m1, m2, m3⟩ := Sequential.buildTrainBatchGraph_ok E _ _ _ _ h6
  obtain ⟨cl3, onl, g3, t3, t3', n1, n2, n3⟩ := Sequential.buildOnlineGraph_ok E _ _ _ h7
  obtain ⟨cl4, ob, g4, t4, t4', p1, p2, p3⟩ := Sequential.buildOnlineBatchGraph_ok E _ _ _ h8
  -- every variant compiles a clone of the same chain
  have e2 : cl2 = cl := by
    rw [a3, k1] at m1
    cases m1
    rfl
  have e3 : cl3 = cl := by
    rw [b3, a3, k1] at n1
    cases n1
    rfl
  have e4 : cl4 = cl := by
    rw [c3, b3, a3, k1] at p1
    cases p1
    rfl
  subst e2 e3 e4
  -- and shares the learnables of the train chain built first
  rw [k3] at m2
  rw [b4, k3] at n2
  rw [c4, b4, k3] at p2
  have hfresh := Chain.Clone_fresh E _ _ k1
  -- which were all initialised
  have hold := Chain.Compile_holds E _ g1 t1 train t1' hfresh k2
  have v2 := sharesValues_of_forall₂ _ _
    (Chain.Compile_shared_values E _ g1 t1 train t1' g2 t2 _ tb t2' hfresh k2 (Or.inr rfl) m2)
    hold
  have v3 := sharesValues_of_forall₂ _ _
    (Chain.Compile_shared_values E _ g1 t1 train t1' g3 t3 _ onl t3' hfresh k2 (Or.inl rfl) n2)
    hold
  have v4 := sharesValues_of_forall₂ _ _
    (Chain.Compile_shared_values E _ g1 t1 train t1' g4 t4 _ ob t4' hfresh k2 (Or.inr rfl) p2)
    hold
  refine ⟨train, tb, onl, ob, ?_, ?_, ?_, p3, v2.1, v2.2, v3.1, v3.2, v4.1, v4.2⟩
  · rw [d4, c4, b4, k3]
  · rw [d5, c5, m3]
  · rw [d6, n3]

/-- C1, at the sample model compiled for the input "x" of shape [1, 5] and the
target "y" of shape [1, 2] with batch size 10: the train chain has three
learnables, the weights and the bias of the first layer and the weights of the
second, each holding the value its initialiser yielded, and the three shared
chains hold these same three values. -/
theorem Sequential.compile_shares_values_witness :
    ∃ s', (sampleModel "m" none).Compile sampleEngine (InputOr.input (NewInput "x" [1, 5]))
        (NewInput "y" [1, 2]) [Opt.WithBatchSize 10] = .ok (s', none) ∧
      (∃ train trainBatch online onlineBatch,
        s'.trainChain = some train ∧ s'.trainBatchChain = some trainBatch ∧
        s'.onlineChain = some online ∧ s'.onlineBatchChain = some onlineBatch ∧
        trainBatch.Learnables.length = train.Learnables.length ∧
        trainBatch.sharesValues train ∧
        online.Learnables.length = train.Learnables.length ∧ online.sharesValues train ∧
        onlineBatch.Learnables.length = train.Learnables.length ∧
        onlineBatch.sharesValues train) ∧
      s'.trainChain.map Chain.learnableValues =
        some [some (sampleEngine.initW (InitWFn.GlorotN F64.one) Dtype.Float32 [5, 3] 3),
              some (sampleEngine.initW (InitWFn.GlorotN F64.one) Dtype.Float32 [1, 3] 4),
              some (sampleEngine.initW (InitWFn.GlorotN F64.one) Dtype.Float32 [3, 2] 5)] ∧
      s'.trainBatchChain.map Chain.learnableValues = s'.trainChain.map Chain.learnableValues ∧
      s'.onlineChain.map Chain.learnableValues = s'.trainChain.map Chain.learnableValues ∧
      s'.onlineBatchChain.map Chain.learnableValues =
        s'.trainChain.map Chain.learnableValues :=
  ⟨_, rfl, Sequential.compile_shares_values sampleEngine (sampleModel "m" none)
    (InputOr.input (NewInput "x" [1, 5])) (NewInput "y" [1, 2]) [Opt.WithBatchSize 10] _ rfl,
    rfl, rfl, rfl, rfl⟩

/-! ### The forward pass of a chain -/

theorem Chain.fwdSpec_error (E : Engine) (p : String) :
    ∀ layers : List Layer,
      layers.foldl
        (fun (acc : Goro.Fwd) layer =>
          match acc with
          | .ok (.ok prediction) => Layer.Fwd E layer prediction
          | failed => failed) (.error p) = .error p
  | [] => rfl
  | _ :: rest => Chain.fwdSpec_error E p rest

theorem Chain.fwdSpec_failed (E : Engine) (err : Err) :
    ∀ layers : List Layer,
      layers.foldl
        (fun (acc : Goro.Fwd) layer =>
          match acc with
          | .ok (.ok prediction) => Layer.Fwd E layer prediction
          | failed => failed) (.ok (.error err)) = .ok (.error err)
  | [] => rfl
  | _ :: rest => Chain.fwdSpec_failed E err rest

theorem Chain.fwdLoop_eq_fwdSpec (E : Engine) :
    ∀ (layers : List Layer) (x : Node), Chain.fwdLoop E layers x = Chain.fwdSpec E layers x
  | [], x => rfl
  | l :: rest, x => by
    unfold Chain.fwdLoop Chain.fwdSpec
    simp only [List.foldl_cons]
    cases hl : l.Fwd E x with
    | error p =>
      exact (Chain.fwdSpec_error E p rest).symm
    | ok r =>
      cases r with
      | error e =>
        exact (Chain.fwdSpec_failed E e rest).symm
      | ok y =>
        simp only []
        exact Chain.fwdLoop_eq_fwdSpec E rest y

theorem Chain.fwdLoop_append (E : Engine) :
    ∀ (pre post : List Layer) (x y : Node), Chain.fwdLoop E pre x = .ok (.ok y) →
      Chain.fwdLoop E (pre ++ post) x = Chain.fwdLoop E post y
  | [], post, x, y, h => by
    simp [Chain.fwdLoop, pure, Except.pure] at h
    simp [h]
  | l :: pre, post, x, y, h => by
    unfold Chain.fwdLoop at h
    simp only [List.cons_append]
    rw [Chain.fwdLoop]
    cases hl : l.Fwd E x with
    | error p => simp [hl] at h
    | ok r =>
      cases r with
      | error e => simp [hl, pure, Except.pure] at h
      | ok z =>
        simp only [hl] at h ⊢
        exact Chain.fwdLoop_append E pre post z y h

/-- C16: `Chain.Fwd` is the composition of the layers' forward passes in chain
order: it equals the fold that feeds each output into the next layer and keeps
the first failure; without layers it returns `x`; a prefix that succeeds with
`y` hands `y` to the rest; and when the layer after such a prefix fails, the
result is that error with a nil prediction, whatever layers follow. -/
theorem Chain.fwd_composes (E : Engine) :
    (∀ (c : Chain) (x : Node), c.Fwd E x = Chain.fwdSpec E c.layers x) ∧
    (∀ (c : Chain) (x : Node), c.layers = [] → c.Fwd E x = .ok (.ok x)) ∧
    (∀ (c : Chain) (l : Layer) (x : Node), c.layers = [l] → c.Fwd E x = l.Fwd E x) ∧
    (∀ (c : Chain) (pre post : List Layer) (x y : Node), c.layers = pre ++ post →
      Chain.Fwd E { c with layers := pre } x = .ok (.ok y) →
      c.Fwd E x = Chain.Fwd E { c with layers := post } y) ∧
    (∀ (c : Chain) (pre post : List Layer) (l : Layer) (x y : Node) (err : Err),
      c.layers = pre ++ l :: post →
      Chain.Fwd E { c with layers := pre } x = .ok (.ok y) →
      l.Fwd E y = .ok (.error err) →
      c.Fwd E x = .ok (.error err)) := by
  refine ⟨fun c x => Chain.fwdLoop_eq_fwdSpec E c.layers x, ?_, ?_, ?_, ?_⟩
  · intro c x h
    simp [Chain.Fwd, h, Chain.fwdLoop, pure, Except.pure]
  · intro c l x h
    simp only [Chain.Fwd, h, Chain.fwdLoop]
    cases hl : l.Fwd E x with
    | error p => rfl
    | ok r => cases r <;> rfl
  · intro c pre post x y h hpre
    simp only [Chain.Fwd] at hpre ⊢
    rw [h]
    exact Chain.fwdLoop_append E pre post x y hpre
  · intro c pre post l x y err h hpre hl
    simp only [Chain.Fwd] at hpre ⊢
    rw [h, Chain.fwdLoop_append E pre (l :: post) x y hpre]
    simp [Chain.fwdLoop, hl, pure, Except.pure]

/-! ### The learnables of compiled layers -/

theorem CompileOpt.runFC_frame (opt : CompileOpt) (l l' : fc) (h : opt.runFC l = .ok l') :
    l'.FC = l.FC ∧ l'.weights = l.weights ∧ l'.bias = l.bias := by
  unfold CompileOpt.runFC at h
  split at h <;> cases h <;> simp

theorem CompileOpt.foldlM_runFC_frame : ∀ (opts : List CompileOpt) (l l' : fc),
    opts.foldlM (fun l opt => opt.runFC l) l = .ok l' →
    l'.FC = l.FC ∧ l'.weights = l.weights ∧ l'.bias = l.bias
  | [], l, l', h => by
    simp only [List.foldlM_nil, pure, Except.pure] at h
    cases h
    simp
  | opt :: rest, l, l', h => by
    simp only [List.foldlM_cons, bind, Except.bind] at h
    split at h
    · cases h
    · rename_i l1 h1
      have a := CompileOpt.runFC_frame opt l l1 h1
      have b := CompileOpt.foldlM_runFC_frame rest l1 l' h
      exact ⟨b.1.trans a.1, b.2.1.trans a.2.1, b.2.2.trans a.2.2⟩

theorem FC.fc_Compile_learnables (E : Engine) (f : FC) (graph tick : Nat)
    (opts : List CompileOpt) (l : Layer) (tick' : Nat)
    (h : f.Compile E graph opts tick = .ok (l, tick')) :
    ∃ fcn w, l = Layer.fc fcn ∧ fcn.weights = some w ∧
      (f.NoBias = false → ∃ b, fcn.bias = some b ∧ l.Learnables = [some w, some b]) ∧
      (f.NoBias = true → fcn.bias = none ∧ l.Learnables = [some w]) := by
  unfold FC.Compile at h
  simp only [bind, Except.bind, pure, Except.pure] at h
  split at h
  · cases h
  · rename_i fcn hf
    have hfr := CompileOpt.foldlM_runFC_frame opts _ _ hf
    simp only [newFC] at hfr
    obtain ⟨hFC, hw, hb⟩ := hfr
    rw [hFC] at h
    cases hnb : f.NoBias <;> simp only [hnb] at h <;>
      (repeat' split at h) <;> cases h <;>
      simp_all [Layer.Learnables]

theorem Conv2D.conv2D_Compile_learnables (E : Engine) (c : Conv2D) (graph tick : Nat)
    (opts : List CompileOpt) (l : Layer) (tick' : Nat)
    (h : c.Compile E graph opts tick = .ok (l, tick')) :
    ∃ cnv w, l = Layer.conv2D cnv ∧ cnv.filter = some w ∧ l.Learnables = [some w] := by
  unfold Conv2D.Compile at h
  simp only [bind, Except.bind, pure, Except.pure] at h
  (repeat' split at h) <;> cases h <;> simp [Layer.Learnables]

/-- C17: `Chain.Learnables` is the concatenation, in chain order, of the
learnables of the compiled layers. An `fc` layer contributes its weights and
its bias, or its weights alone when it has no bias; a compiled `FC` has a bias
exactly when `NoBias` is false. A `conv2D` layer contributes its filter, and
flatten, reshape, max-pooling and dropout layers contribute nothing. -/
theorem Chain.learnables_concat :
    (∀ c : Chain, c.Learnables = (c.layers.map Layer.Learnables).flatten) ∧
    (∀ (f : fc) (b : Node), f.bias = some b → (Layer.fc f).Learnables = [f.weights, some b]) ∧
    (∀ f : fc, f.bias = none → (Layer.fc f).Learnables = [f.weights]) ∧
    (∀ (E : Engine) (f : FC) (graph tick : Nat) (opts : List CompileOpt) (l : Layer)
        (tick' : Nat), f.Compile E graph opts tick = .ok (l, tick') →
      ∃ fcn w, l = Layer.fc fcn ∧ fcn.weights = some w ∧
        (f.NoBias = false → ∃ b, fcn.bias = some b ∧ l.Learnables = [some w, some b]) ∧
        (f.NoBias = true → fcn.bias = none ∧ l.Learnables = [some w])) ∧
    (∀ c : conv2D, (Layer.conv2D c).Learnables = [c.filter]) ∧
    (∀ (E : Engine) (c : Conv2D) (graph tick : Nat) (opts : List CompileOpt) (l : Layer)
        (tick' : Nat), c.Compile E graph opts tick = .ok (l, tick') →
      ∃ cnv w, l = Layer.conv2D cnv ∧ cnv.filter = some w ∧ l.Learnables = [some w]) ∧
    (∀ l : flatten, (Layer.flatten l).Learnables = []) ∧
    (∀ l : reshape, (Layer.reshape l).Learnables = []) ∧
    (∀ l : maxPooling2D, (Layer.maxPooling2D l).Learnables = []) ∧
    (∀ l : dropout, (Layer.dropout l).Learnables = []) := by
  refine ⟨Chain.Learnables_eq, ?_, ?_, FC.fc_Compile_learnables, fun _ => rfl,
    Conv2D.conv2D_Compile_learnables, fun _ => rfl, fun _ => rfl, fun _ => rfl, fun _ => rfl⟩
  · intro f b h
    simp [Layer.Learnables, h]
  · intro f h
    simp [Layer.Learnables, h]

/-! ### Adding to a chain and cloning it -/

theorem ActivationFn.Clone_eq (a : ActivationFn) : a.Clone = a := by
  cases a <;> rfl

theorem Config.Validate_applyDefaults (c : Config) (h : c.Validate = none) :
    c.ApplyDefaults.Validate = none := by
  obtain ⟨p, v⟩ := c
  cases v with
  | FC f =>
    obtain ⟨i, o, n, a, ini, nb, bi⟩ := f
    cases a <;> cases ini <;> cases bi <;>
      simpa [Config.Validate, Config.ApplyDefaults, FC.ApplyDefaults, FC.Validate] using h
  | Conv2D f =>
    obtain ⟨i, o, hh, w, n, a, pd, st, d, ini⟩ := f
    cases a <;> cases ini <;> cases pd <;> cases st <;> cases d <;>
      simpa [Config.Validate, Config.ApplyDefaults, Conv2D.ApplyDefaults, Conv2D.Validate] using h
  | Dropout d =>
    simp only [Config.Validate, Config.ApplyDefaults, Dropout.ApplyDefaults] at h ⊢
    by_cases hz : F64.eq d.Probability F64.zero = true
    · rw [if_pos hz]
      simp [Dropout.Validate, F64.gt, F64.lt, F64.sixTenths, F64.one, F64.zero]
      norm_num
    · simpa [hz] using h
  | MaxPooling2D d => rfl
  | Flatten d => rfl
  | Reshape d => simpa [Config.Validate, Config.ApplyDefaults, Reshape.ApplyDefaults] using h

theorem Config.config_Clone_settled (l : Config) (hd : l.ApplyDefaults = l) :
    ∃ l', l.Clone = .ok l' ∧ l'.val = l.val := by
  obtain ⟨p, v⟩ := l
  cases v with
  | FC f =>
    obtain ⟨i, o, n, a, ini, nb, bi⟩ := f
    cases a with
    | none =>
      cases ini <;> cases bi <;> simp [Config.ApplyDefaults, FC.ApplyDefaults] at hd
    | some a =>
      simp [Config.Clone, FC.Clone, bind, Except.bind, pure, Except.pure, ActivationFn.Clone_eq]
  | Conv2D f =>
    obtain ⟨i, o, hh, w, n, a, pd, st, d, ini⟩ := f
    cases a with
    | none =>
      cases ini <;> cases pd <;> cases st <;> cases d <;>
        simp [Config.ApplyDefaults, Conv2D.ApplyDefaults] at hd
    | some a =>
      simp [Config.Clone, Conv2D.Clone, bind, Except.bind, pure, Except.pure,
        ActivationFn.Clone_eq]
  | Dropout d => exact ⟨_, rfl, rfl⟩
  | MaxPooling2D d => exact ⟨_, rfl, rfl⟩
  | Flatten d => exact ⟨_, rfl, rfl⟩
  | Reshape d => exact ⟨_, rfl, rfl⟩

theorem Config.Validate_congr (a b : Config) (h : a.val = b.val) : a.Validate = b.Validate := by
  simp [Config.Validate, h]

theorem Config.ApplyDefaults_congr (a b : Config) (h : a.val = b.val) :
    a.ApplyDefaults = b.ApplyDefaults := by
  simp [Config.ApplyDefaults, h]

theorem Chain.Add_valid (E : Engine) : ∀ (cfgs : List Config) (c : Chain),
    (∀ cfg ∈ cfgs, cfg.Validate = none) →
    c.Add E cfgs = .ok { c with Layers := c.Layers ++ cfgs.map Config.ApplyDefaults }
  | [], c, _ => by simp [Chain.Add, pure, Except.pure]
  | cfg :: rest, c, h => by
    have h1 : cfg.Validate = none := h cfg (List.mem_cons_self _ _)
    have h2 : ∀ x ∈ rest, x.Validate = none := fun x hx => h x (List.mem_cons_of_mem _ hx)
    unfold Chain.Add
    simp only [h1]
    rw [Chain.Add_valid E rest _ h2]
    simp

theorem Chain.cloneLoop_settled (E : Engine) : ∀ (ls : List Config) (ch : Chain),
    (∀ l ∈ ls, l.Validate = none ∧ l.ApplyDefaults = l) →
    Chain.cloneLoop E ch ls = .ok { ch with Layers := ch.Layers ++ ls }
  | [], ch, _ => by simp [Chain.cloneLoop, pure, Except.pure]
  | l :: rest, ch, h => by
    obtain ⟨hv, hd⟩ := h l (List.mem_cons_self _ _)
    have h2 : ∀ x ∈ rest, x.Validate = none ∧ x.ApplyDefaults = x :=
      fun x hx => h x (List.mem_cons_of_mem _ hx)
    obtain ⟨l', hl', hval⟩ := Config.config_Clone_settled l hd
    have hv' : l'.Validate = none := (Config.Validate_congr l' l hval).trans hv
    have hd' : l'.ApplyDefaults = l := (Config.ApplyDefaults_congr l' l hval).trans hd
    unfold Chain.cloneLoop
    simp only [bind, Except.bind, hl']
    rw [Chain.Add_valid E [l'] ch (by simpa using hv')]
    simp only [List.map_cons, List.map_nil, hd']
    rw [Chain.cloneLoop_settled E rest _ h2]
    simp

theorem Chain.chain_Clone_settled (E : Engine) (c : Chain)
    (h : ∀ l ∈ c.Layers, l.Validate = none ∧ l.ApplyDefaults = l) :
    c.Clone E = .ok { Layers := c.Layers, sharedLearnables := none, compileOpts := [],
                      layers := [] } := by
  unfold Chain.Clone
  rw [Chain.cloneLoop_settled E c.Layers Chain.empty h]
  simp [Chain.empty]

theorem Config.settled_of_valid (cfg : Config) (h : cfg.Validate = none) :
    cfg.ApplyDefaults.Validate = none ∧ cfg.ApplyDefaults.ApplyDefaults = cfg.ApplyDefaults := by
  refine ⟨Config.Validate_applyDefaults cfg h, ?_⟩
  obtain ⟨p, v⟩ := cfg
  cases v with
  | FC f => simp [Config.ApplyDefaults, FC.fc_applyDefaults_idem]
  | Conv2D f => simp [Config.ApplyDefaults, Conv2D.conv2D_applyDefaults_idem]
  | Dropout f => simp [Config.ApplyDefaults, Dropout.dropout_applyDefaults_idem]
  | MaxPooling2D f => simp [Config.ApplyDefaults, MaxPooling2D.maxPooling2D_applyDefaults_idem]
  | Flatten f => simp [Config.ApplyDefaults, Flatten.ApplyDefaults]
  | Reshape f => simp [Config.ApplyDefaults, Reshape.ApplyDefaults]

/-- C18: for a chain whose layer configs were added by `Add` from configs that
all pass `Validate`, `Clone` succeeds and returns a chain with the same
configs in the same order, each one equal to the original, with no compiled
layers, no shared chain and no compile options. The clone of each single
config has the fields of the original, the activation being a copy of the same
kind and parameters. -/
theorem Chain.clone_spec (E : Engine) (c : Chain) (cfgs : List Config)
    (hvalid : ∀ cfg ∈ cfgs, cfg.Validate = none)
    (hc : c.Layers = cfgs.map Config.ApplyDefaults) :
    (∃ cl, c.Clone E = .ok cl ∧
      cl.Layers.length = c.Layers.length ∧
      (∀ i, cl.Layers.get? i = c.Layers.get? i) ∧
      cl.Layers = c.Layers ∧
      cl.layers = [] ∧ cl.sharedLearnables = none ∧ cl.compileOpts = []) ∧
    (∀ l ∈ c.Layers, ∃ l', l.Clone = .ok l' ∧ l'.val = l.val) ∧
    (∀ a : ActivationFn, a.Clone = a) := by
  have hs : ∀ l ∈ c.Layers, l.Validate = none ∧ l.ApplyDefaults = l := by
    intro l hl
    rw [hc] at hl
    obtain ⟨cfg, hcfg, rfl⟩ := List.mem_map.mp hl
    exact Config.settled_of_valid cfg (hvalid cfg hcfg)
  refine ⟨⟨_, Chain.chain_Clone_settled E c hs, rfl, fun _ => rfl, rfl, rfl, rfl, rfl⟩, ?_,
    ActivationFn.Clone_eq⟩
  intro l hl
  exact Config.config_Clone_settled l (hs l hl).2

/-- C18, at a chain holding the defaulted sample layers and a compile option. -/
theorem Chain.clone_spec_witness :
    ∃ cl, Chain.Clone sampleEngine
        { Layers := (sampleLayers none).map Config.ApplyDefaults, sharedLearnables := none,
          compileOpts := [CompileOpt.AsBatch], layers := [] } = .ok cl ∧
      cl.Layers = (sampleLayers none).map Config.ApplyDefaults ∧ cl.compileOpts = [] :=
  have h := (Chain.clone_spec sampleEngine
    { Layers := (sampleLayers none).map Config.ApplyDefaults, sharedLearnables := none,
      compileOpts := [CompileOpt.AsBatch], layers := [] } (sampleLayers none)
    (by decide) rfl).1
  match h with
  | ⟨cl, h1, _, _, h3, _, _, h6⟩ => ⟨cl, h1, h3, h6⟩

theorem Chain.Add_append (E : Engine) : ∀ (pre post : List Config) (c : Chain),
    (∀ cfg ∈ pre, cfg.Validate = none) →
    c.Add E (pre ++ post) =
      Chain.Add E { c with Layers := c.Layers ++ pre.map Config.ApplyDefaults } post
  | [], post, c, _ => by simp
  | cfg :: rest, post, c, h => by
    have h1 : cfg.Validate = none := h cfg (List.mem_cons_self _ _)
    have h2 : ∀ x ∈ rest, x.Validate = none := fun x hx => h x (List.mem_cons_of_mem _ hx)
    rw [List.cons_append, Chain.Add]
    simp only [h1]
    rw [Chain.Add_append E rest post _ h2]
    simp

theorem Chain.Add_quiet (E : Engine) (hq : E.globalLevel < ErrorLevel) :
    ∀ (cfgs : List Config) (c : Chain),
      c.Add E cfgs = .ok { c with Layers := c.Layers ++ cfgs.map Config.ApplyDefaults }
  | [], c => by simp [Chain.Add, pure, Except.pure]
  | cfg :: rest, c => by
    have hf : ∀ m, Fatalf E m = .ok () := by
      intro m
      simp [Fatalf, not_le.mpr hq, pure, Except.pure]
    unfold Chain.Add
    simp only [hf]
    rw [Chain.Add_quiet E hq rest]
    cases cfg.Validate <;> simp

/-- C19: `Chain.Add` with configs that all pass `Validate` appends to `Layers`,
in order, the result of `ApplyDefaults` of each config and leaves the earlier
entries unchanged. When `log.GlobalLevel` is at least `ErrorLevel`, a config
that fails `Validate` makes `Add` exit at that config. When the level is below
`ErrorLevel`, `log.Fatalf` returns and `Add` defaults and appends every
config, valid or not, as it does for the invalid config `FC{Output: 3}`. -/
theorem Chain.add_spec (E : Engine) (c : Chain) :
    (∀ cfgs : List Config, (∀ cfg ∈ cfgs, cfg.Validate = none) →
      c.Add E cfgs = .ok { c with Layers := c.Layers ++ cfgs.map Config.ApplyDefaults }) ∧
    (ErrorLevel ≤ E.globalLevel → ∀ (pre post : List Config) (bad : Config),
      (∀ cfg ∈ pre, cfg.Validate = none) → bad.Validate ≠ none →
      ∃ p, c.Add E (pre ++ bad :: post) = .error p) ∧
    (E.globalLevel < ErrorLevel → ∀ cfgs : List Config,
      c.Add E cfgs = .ok { c with Layers := c.Layers ++ cfgs.map Config.ApplyDefaults }) ∧
    (invalidFC.Validate ≠ none ∧
      c.Add quietEngine [invalidFC] =
        .ok { c with Layers := c.Layers ++ [invalidFC.ApplyDefaults] }) := by
  refine ⟨fun cfgs h => Chain.Add_valid E cfgs c h, ?_, fun hq cfgs => Chain.Add_quiet E hq cfgs c,
    by decide, ?_⟩
  · intro hl pre post bad hpre hbad
    rw [Chain.Add_append E pre (bad :: post) c hpre, Chain.Add]
    cases hb : bad.Validate with
    | none => exact absurd hb hbad
    | some e =>
      have hf : Fatalf E "layer failed validation" = .error "layer failed validation" := by
        simp [Fatalf, hl, throw, throwThe, MonadExceptOf.throw]
      simp only [hf]
      exact ⟨_, rfl⟩
  · exact Chain.Add_quiet quietEngine (by decide) [invalidFC] c

/-! ### ResizeBatch -/

theorem Sequential.track_singles (s : Sequential) (metric : Metric) (name : String)
    (loss : Node) :
    (s.track metric name loss).trainGraph = s.trainGraph ∧
    (s.track metric name loss).xTrain = s.xTrain ∧
    (s.track metric name loss).xTrainFwd = s.xTrainFwd ∧
    (s.track metric name loss).yTrain = s.yTrain ∧
    (s.track metric name loss).trainPred = s.trainPred ∧
    (s.track metric name loss).trainLoss = s.trainLoss ∧
    (s.track metric name loss).trainVM = s.trainVM ∧
    (s.track metric name loss).onlineGraph = s.onlineGraph ∧
    (s.track metric name loss).xOnline = s.xOnline ∧
    (s.track metric name loss).xOnlineFwd = s.xOnlineFwd ∧
    (s.track metric name loss).onlinePred = s.onlinePred ∧
    (s.track metric name loss).onlineVM = s.onlineVM ∧
    (s.track metric name loss).batchSize = s.batchSize ∧
    (s.track metric name loss).trainBatchGraph = s.trainBatchGraph ∧
    (s.track metric name loss).y = s.y := by
  unfold Sequential.track
  split
  · split <;> simp
  · simp

theorem Sequential.buildTrainBatchGraph_singles (E : Engine) (s : Sequential) (x : Inputs)
    (y : Option Input) (s' : Sequential) (r : Option Err)
    (h : s.buildTrainBatchGraph E x y = .ok (s', r)) :
    s'.sameSingles s ∧ s'.batchSize = s.batchSize ∧ s'.trainBatchGraph = some s.tick ∧
    s'.y = s.y := by
  unfold Sequential.buildTrainBatchGraph at h
  simp only [bind, Except.bind, pure, Except.pure] at h
  repeat' split at h
  all_goals
    (cases h <;> simp [Sequential.sameSingles, Sequential.track_frame, Sequential.track_singles])

theorem Sequential.buildOnlineBatchGraph_singles (E : Engine) (s : Sequential) (x : Inputs)
    (s' : Sequential) (r : Option Err)
    (h : s.buildOnlineBatchGraph E x = .ok (s', r)) :
    s'.sameSingles s ∧ s'.batchSize = s.batchSize ∧ s'.trainBatchGraph = s.trainBatchGraph := by
  unfold Sequential.buildOnlineBatchGraph at h
  simp only [bind, Except.bind, pure, Except.pure] at h
  repeat' split at h
  all_goals (cases h <;> simp [Sequential.sameSingles])

theorem Sequential.sameSingles_trans (a b c : Sequential) (h1 : a.sameSingles b)
    (h2 : b.sameSingles c) : a.sameSingles c := by
  unfold Sequential.sameSingles at *
  obtain ⟨a1, a2, a3, a4, a5, a6, a7, a8, a9, a10, a11, a12, a13, a14⟩ := h1
  obtain ⟨b1, b2, b3, b4, b5, b6, b7, b8, b9, b10, b11, b12, b13, b14⟩ := h2
  exact ⟨a1.trans b1, a2.trans b2, a3.trans b3, a4.trans b4, a5.trans b5, a6.trans b6,
    a7.trans b7, a8.trans b8, a9.trans b9, a10.trans b10, a11.trans b11, a12.trans b12,
    a13.trans b13, a14.trans b14⟩

theorem Sequential.ResizeBatch_singles (E : Engine) (s : Sequential) (n : Int)
    (s' : Sequential) (r : Option Err) (h : s.ResizeBatch E n = .ok (s', r)) :
    s'.sameSingles s ∧ s'.batchSize = n ∧ s'.trainBatchGraph = some s.tick := by
  unfold Sequential.ResizeBatch at h
  simp only [Step.andThen] at h
  split at h
  · cases h
  · rename_i s1 err h1
    cases h
    obtain ⟨a, b, c, _⟩ := Sequential.buildTrainBatchGraph_singles E _ _ _ _ _ h1
    exact ⟨a, b, c⟩
  · rename_i s1 h1
    obtain ⟨a, b, c, _⟩ := Sequential.buildTrainBatchGraph_singles E _ _ _ _ _ h1
    obtain ⟨a', b', c'⟩ := Sequential.buildOnlineBatchGraph_singles E _ _ _ _ h
    refine ⟨Sequential.sameSingles_trans _ _ _ a' ?_, b'.trans b, c'.trans c⟩
    simpa [Sequential.sameSingles] using a

/-- C11: whatever `ResizeBatch(n)` returns, the train-single and online-single
variants of the model are the ones from before the call: graph, chain, inputs,
forward input, target, prediction node, loss and execution engine are equal,
and so are the number of the learnables of both chains and their values. -/
theorem Sequential.resizeBatch_keeps_singles (E : Engine) (s : Sequential) (n : Int)
    (s' : Sequential) (r : Option Err) (h : s.ResizeBatch E n = .ok (s', r)) :
    s'.sameSingles s ∧
    learnablesOf s'.trainChain = learnablesOf s.trainChain ∧
    learnablesOf s'.onlineChain = learnablesOf s.onlineChain ∧
    (learnablesOf s'.trainChain).length = (learnablesOf s.trainChain).length ∧
    (learnablesOf s'.onlineChain).length = (learnablesOf s.onlineChain).length ∧
    (learnablesOf s'.trainChain).map (Option.map Node.Value) =
      (learnablesOf s.trainChain).map (Option.map Node.Value) ∧
    (learnablesOf s'.onlineChain).map (Option.map Node.Value) =
      (learnablesOf s.onlineChain).map (Option.map Node.Value) := by
  have hs := (Sequential.ResizeBatch_singles E s n s' r h).1
  have h1 : s'.trainChain = s.trainChain := hs.2.1
  have h2 : s'.onlineChain = s.onlineChain := hs.2.2.2.2.2.2.2.2.2.1
  rw [h1, h2]
  exact ⟨hs, rfl, rfl, rfl, rfl, rfl, rfl⟩

/-- C11, at the compiled sample model resized from batch size 10 to 5. -/
theorem Sequential.resizeBatch_keeps_singles_witness :
    ∃ s', (sampleCompiled "m" none).ResizeBatch sampleEngine 5 = .ok (s', none) ∧
      s'.batchSize = 5 ∧
      (learnablesOf (sampleCompiled "m" none).trainChain).length = 3 ∧
      s'.sameSingles (sampleCompiled "m" none) :=
  ⟨_, rfl, rfl, rfl,
    (Sequential.resizeBatch_keeps_singles sampleEngine (sampleCompiled "m" none) 5 _ none rfl).1⟩

/-- C14 as stated fails: after `Fwd` was given an input the model does not
have, `ResizeBatch(5)` returns the error of the lookup, and the batch size,
the train-batch graph and the train-batch inputs are no longer the ones from
before the call. -/
theorem Sequential.resizeBatch_error_changes :
    ∃ s', sampleRefwd.ResizeBatch sampleEngine 5 = .ok (s', some (Err.inputNotFound "z_batch")) ∧
      sampleRefwd.batchSize = 10 ∧ s'.batchSize = 5 ∧
      s'.trainBatchGraph ≠ sampleRefwd.trainBatchGraph ∧
      s'.xTrainBatch ≠ sampleRefwd.xTrainBatch ∧
      s'.xTrainBatchFwd ≠ sampleRefwd.xTrainBatchFwd :=
  ⟨_, rfl, rfl, rfl, by decide, by decide, by decide⟩

/-- C14, amended: when `ResizeBatch(n)` returns an error, the batch size of
the model is `n` and its train-batch graph is the new graph of the call; the
train-single and online-single variants are the ones from before the call. -/
theorem Sequential.resizeBatch_error_state (E : Engine) (s : Sequential) (n : Int)
    (s' : Sequential) (e : Err) (h : s.ResizeBatch E n = .ok (s', some e)) :
    s'.batchSize = n ∧ s'.trainBatchGraph = some s.tick ∧ s'.sameSingles s := by
  obtain ⟨a, b, c⟩ := Sequential.ResizeBatch_singles E s n s' (some e) h
  exact ⟨b, c, a⟩

/-- C14, amended, at the compiled sample model whose forward input was replaced
by an input it does not have. -/
theorem Sequential.resizeBatch_error_state_witness :
    ∃ s', sampleRefwd.ResizeBatch sampleEngine 5 = .ok (s', some (Err.inputNotFound "z_batch")) ∧
      s'.batchSize = 5 ∧ s'.trainBatchGraph = some sampleRefwd.tick ∧
      s'.sameSingles sampleRefwd :=
  ⟨_, rfl,
    Sequential.resizeBatch_error_state sampleEngine sampleRefwd 5 _
      (Err.inputNotFound "z_batch") rfl⟩

theorem deref_ok {α : Type} (p : Option α) (a : α) (h : deref p = .ok a) : p = some a := by
  cases p with
  | none => cases h
  | some b =>
    cases h
    rfl


/-! ### Predict and Fit: a failed run -/

theorem mapSet_any (values : List (String × TrackedNodeValue)) (key name : String)
    (tv : TrackedNodeValue) :
    (mapSet values key tv).any (fun kv => kv.1 = name) =
      (values.any (fun kv => kv.1 = name) || decide (name = key)) := by
  unfold mapSet
  split
  · rename_i hk
    rw [Bool.eq_iff_iff]
    simp only [List.any_eq_true, List.mem_map, decide_eq_true_eq, Bool.or_eq_true] at hk ⊢
    obtain ⟨kv0, hkv0, hkey0⟩ := hk
    constructor
    · rintro ⟨kv, ⟨kv1, hmem, rfl⟩, hname⟩
      by_cases hk1 : kv1.1 = key
      · rw [if_pos hk1] at hname
        exact Or.inr hname.symm
      · rw [if_neg hk1] at hname
        exact Or.inl ⟨kv1, hmem, hname⟩
    · rintro (⟨kv, hmem, hname⟩ | hname)
      · by_cases hk1 : kv.1 = key
        · exact ⟨(key, tv), ⟨kv, hmem, by rw [if_pos hk1]⟩, hk1.symm.trans hname⟩
        · exact ⟨kv, ⟨kv, hmem, by rw [if_neg hk1]⟩, hname⟩
      · exact ⟨(key, tv), ⟨kv0, hkv0, by rw [if_pos hkey0]⟩, hname.symm⟩
  · simp [List.any_append, eq_comm]

theorem Tracker.TrackValue_holds (t : Tracker) (nm : String) (value : Node) (ns name : String) :
    (t.TrackValue nm value ns).holds name =
      (t.holds name || decide (name = namespaceValue ns nm)) := by
  simp only [Tracker.TrackValue, Tracker.holds]
  exact mapSet_any _ _ _ _

theorem Tracker.holds_empty (name : String) :
    Tracker.holds { values := [] } name = false := rfl

theorem Sequential.track_Tracker (s : Sequential) (metric : Metric) (nm : String)
    (loss : Node) :
    (s.track metric nm loss).Tracker =
      (if s.metrics.Contains metric then s.Tracker.map (fun t => t.TrackValue nm loss s.name)
       else s.Tracker) ∧
    (s.track metric nm loss).metrics = s.metrics ∧
    (s.track metric nm loss).name = s.name := by
  unfold Sequential.track
  split
  · split <;> simp [*]
  · simp [*]

theorem Sequential.buildTrainGraph_tracker (E : Engine) (s : Sequential) (x : Inputs)
    (y : Option Input) (s' : Sequential) (h : s.buildTrainGraph E x y = .ok (s', none)) :
    s'.metrics = s.metrics ∧ s'.name = s.name ∧
    ∃ loss, s'.Tracker =
      (if s.metrics.Contains TrainLossMetric then
         s.Tracker.map (fun t => t.TrackValue "train_loss" loss s.name)
       else s.Tracker) := by
  unfold Sequential.buildTrainGraph at h
  simp only [bind, Except.bind, pure, Except.pure] at h
  repeat' split at h
  all_goals cases h
  simp only [Sequential.track_Tracker, true_and]
  exact ⟨_, rfl⟩

theorem Sequential.buildTrainBatchGraph_tracker (E : Engine) (s : Sequential) (x : Inputs)
    (y : Option Input) (s' : Sequential) (h : s.buildTrainBatchGraph E x y = .ok (s', none)) :
    s'.metrics = s.metrics ∧ s'.name = s.name ∧
    ∃ loss, s'.Tracker =
      (if s.metrics.Contains TrainBatchLossMetric then
         s.Tracker.map (fun t => t.TrackValue "train_batch_loss" loss s.name)
       else s.Tracker) := by
  unfold Sequential.buildTrainBatchGraph at h
  simp only [bind, Except.bind, pure, Except.pure] at h
  repeat' split at h
  all_goals cases h
  simp only [Sequential.track_Tracker, true_and]
  exact ⟨_, rfl⟩

theorem Sequential.buildOnlineGraph_tracker (E : Engine) (s : Sequential) (x : Inputs)
    (s' : Sequential) (r : Option Err) (h : s.buildOnlineGraph E x = .ok (s', r)) :
    s'.metrics = s.metrics ∧ s'.name = s.name ∧ s'.Tracker = s.Tracker := by
  unfold Sequential.buildOnlineGraph at h
  simp only [bind, Except.bind, pure, Except.pure] at h
  repeat' split at h
  all_goals (cases h <;> simp)

theorem Sequential.buildOnlineBatchGraph_tracker (E : Engine) (s : Sequential) (x : Inputs)
    (s' : Sequential) (r : Option Err) (h : s.buildOnlineBatchGraph E x = .ok (s', r)) :
    s'.metrics = s.metrics ∧ s'.name = s.name ∧ s'.Tracker = s.Tracker := by
  unfold Sequential.buildOnlineBatchGraph at h
  simp only [bind, Except.bind, pure, Except.pure] at h
  repeat' split at h
  all_goals (cases h <;> simp)

theorem Sequential.defaultFwd_tracker (s : Sequential) (x : InputOr) (s' : Sequential)
    (r : Option Err) (h : s.defaultFwd x = .ok (s', r)) :
    s'.metrics = s.metrics ∧ s'.name = s.name ∧ s'.Tracker = s.Tracker := by
  unfold Sequential.defaultFwd at h
  simp only [pure, Except.pure] at h
  repeat' split at h
  all_goals (cases h <;> simp)

theorem Sequential.defaultTracker_tracker (E : Engine) (s : Sequential) (s' : Sequential)
    (h : s.defaultTracker E = .ok (s', none)) :
    s'.metrics = s.metrics ∧ s'.name = s.name ∧
    s'.Tracker = (if s.Tracker.isNone && !s.noTracker then some { values := [] }
                  else s.Tracker) := by
  unfold Sequential.defaultTracker NewTracker at h
  simp only [pure, Except.pure] at h
  cases ht : E.tempFile <;> simp only [ht] at h <;> (repeat' split at h) <;>
    (rename_i hc; cases h <;> simp [hc])

theorem Sequential.defaults_tracker (s : Sequential) :
    s.defaults.metrics = s.metrics ∧ s.defaults.name = s.name ∧
    s.defaults.Tracker = s.Tracker := by
  unfold Sequential.defaults
  cases hl : s.logger <;> cases hlo : s.loss <;> cases ho : s.optimizer <;> simp [hl, hlo, ho]

theorem Opt.foldl_name : ∀ (opts : List Opt) (s : Sequential),
    (opts.foldl (fun s opt => opt.run s) s).name = s.name
  | [], _ => rfl
  | opt :: rest, s => by
    rw [List.foldl_cons, Opt.foldl_name rest]
    cases opt <;> rfl

theorem namespaceValue_ne (ns : String) :
    namespaceValue ns "train_loss" ≠ namespaceValue ns "train_batch_loss" := by
  intro h
  have h2 := congrArg String.data h
  simp only [namespaceValue, String.data_append, List.append_assoc] at h2
  have h3 := List.append_cancel_left h2
  revert h3
  decide

theorem namespaceValue_eq (ns : String) :
    namespaceValue ns "train_loss" = ns ++ "_train_loss" ∧
    namespaceValue ns "train_batch_loss" = ns ++ "_train_batch_loss" := by
  constructor <;> (simp only [namespaceValue, String.append_assoc]; rfl)

theorem Sequential.Compile_tracker (E : Engine) (s : Sequential) (x : InputOr) (y : Input)
    (opts : List Opt) (s' : Sequential) (t' : Goro.Tracker)
    (h : s.Compile E x y opts = .ok (s', none)) (ht : s'.Tracker = some t') :
    s'.name = s.name ∧
    s'.metrics = (opts.foldl (fun (s : Sequential) (opt : Opt) => opt.run s)
      { s with x := x.Inputs, y := some y }).metrics ∧
    ∀ name, t'.holds name = true ↔
      ((∃ t0, (opts.foldl (fun (s : Sequential) (opt : Opt) => opt.run s)
          { s with x := x.Inputs, y := some y }).Tracker = some t0 ∧ t0.holds name = true) ∨
       (s'.metrics.Contains TrainLossMetric = true ∧
          name = namespaceValue s.name "train_loss") ∨
       (s'.metrics.Contains TrainBatchLossMetric = true ∧
          name = namespaceValue s.name "train_batch_loss")) := by
  have hy : y.Validate = none := by
    cases hv : y.Validate with
    | none => rfl
    | some err => simp [Sequential.Compile, hv, pure, Except.pure] at h
  unfold Sequential.Compile at h
  simp only [hy] at h
  generalize hpre : (opts.foldl (fun s opt => opt.run s)
      { s with x := x.Inputs, y := some y }) = pre at h ⊢
  have hname : pre.name = s.name := by
    rw [← hpre, Opt.foldl_name]
  obtain ⟨S3, h3, h⟩ := Step.andThen_ok_none _ _ _ h
  obtain ⟨S4, h4, h⟩ := Step.andThen_ok_none _ _ _ h
  obtain ⟨S5, h5, h⟩ := Step.andThen_ok_none _ _ _ h
  obtain ⟨S6, h6, h⟩ := Step.andThen_ok_none _ _ _ h
  obtain ⟨S7, h7, h8⟩ := Step.andThen_ok_none _ _ _ h
  obtain ⟨d1, d2, d3⟩ := Sequential.defaults_tracker pre
  obtain ⟨a1, a2, a3⟩ := Sequential.defaultTracker_tracker E _ _ h3
  obtain ⟨b1, b2, b3⟩ := Sequential.defaultFwd_tracker _ _ _ _ h4
  obtain ⟨c1, c2, l1, c3⟩ := Sequential.buildTrainGraph_tracker E _ _ _ _ h5
  obtain ⟨e1, e2, l2, e3⟩ := Sequential.buildTrainBatchGraph_tracker E _ _ _ _ h6
  obtain ⟨f1, f2, f3⟩ := Sequential.buildOnlineGraph_tracker E _ _ _ _ h7
  obtain ⟨g1, g2, g3⟩ := Sequential.buildOnlineBatchGraph_tracker E _ _ _ _ h8
  have hm5 : S5.metrics = pre.metrics := by rw [c1, b1, a1, d1]
  have hm' : s'.metrics = pre.metrics := by rw [g1, f1, e1, hm5]
  have hn4 : S4.name = s.name := by rw [b2, a2, d2, hname]
  have hn5 : S5.name = s.name := by rw [c2, hn4]
  have hm4 : S4.metrics = pre.metrics := by rw [b1, a1, d1]
  refine ⟨by rw [g2, f2, e2, hn5], hm', ?_⟩
  rw [g3, f3, e3, c3, b3, a3, d3, hm5, hm4, hn5, hn4] at ht
  rw [hm']
  intro name
  cases hT : pre.Tracker with
  | some t0 =>
    simp only [hT, Option.isNone_some, Bool.false_and, Bool.false_eq_true, if_false] at ht
    cases hc1 : pre.metrics.Contains TrainLossMetric <;>
      cases hc2 : pre.metrics.Contains TrainBatchLossMetric <;>
      simp only [hc1, hc2, if_true, if_false, Bool.false_eq_true, Option.map_some'] at ht <;>
      cases ht <;>
      simp [Tracker.TrackValue_holds, or_assoc]
  | none =>
    cases hnt : pre.defaults.noTracker <;>
      simp only [hT, hnt, Option.isNone_none, Bool.true_and, Bool.not_false, Bool.not_true,
        Bool.false_eq_true, if_true, if_false] at ht
    · cases hc1 : pre.metrics.Contains TrainLossMetric <;>
        cases hc2 : pre.metrics.Contains TrainBatchLossMetric <;>
        simp only [hc1, hc2, if_true, if_false, Bool.false_eq_true, Option.map_some'] at ht <;>
        cases ht <;>
        simp [Tracker.TrackValue_holds, Tracker.holds_empty]
    · cases hc1 : pre.metrics.Contains TrainLossMetric <;>
        cases hc2 : pre.metrics.Contains TrainBatchLossMetric <;>
        simp [hc1, hc2] at ht

/-- C20 as stated fails: the sample model "m" compiled with a tracker that
already tracks a value named "m_train_loss" and with no metrics has a tracker
that holds "m_train_loss", although the metrics do not contain
`TrainLossMetric`. -/
theorem Sequential.compile_keeps_tracked_names :
    ∃ s' t', (sampleModel "m" none).Compile sampleEngine (InputOr.input (NewInput "x" [1, 5]))
        (NewInput "y" [1, 2]) [Opt.WithTracker (some sampleTracker), Opt.WithMetrics []] =
          .ok (s', none) ∧
      s'.name = "m" ∧ s'.Tracker = some t' ∧
      t'.holds ("m" ++ "_train_loss") = true ∧
      s'.metrics.Contains TrainLossMetric = false :=
  ⟨_, _, rfl, rfl, rfl, rfl, rfl⟩

/-- C20, amended: after a successful `Compile` of a model named N that has a
tracker, the tracker holds a value named N + "_train_loss" if and only if the
metrics contain `TrainLossMetric` or the tracker given to the model held that
name before, and a value named N + "_train_batch_loss" if and only if the
metrics contain `TrainBatchLossMetric` or the tracker held that name before.
For the tracker that `Compile` creates itself, each name is held exactly when
the metrics contain the metric. The metrics of a new model contain both. -/
theorem Sequential.compile_tracks_losses (E : Engine) (s : Sequential) (x : InputOr)
    (y : Input) (opts : List Opt) (s' pre : Sequential) (t' : Goro.Tracker)
    (hpre : pre = opts.foldl (fun (s : Sequential) (opt : Opt) => opt.run s)
      { s with x := x.Inputs, y := some y })
    (h : s.Compile E x y opts = .ok (s', none)) (ht : s'.Tracker = some t') :
    (s'.name = s.name ∧ s'.metrics = pre.metrics) ∧
    (namespaceValue s'.name "train_loss" = s'.name ++ "_train_loss" ∧
      namespaceValue s'.name "train_batch_loss" = s'.name ++ "_train_batch_loss") ∧
    (t'.holds (s'.name ++ "_train_loss") = true ↔
      (s'.metrics.Contains TrainLossMetric = true ∨
        ∃ t0, pre.Tracker = some t0 ∧ t0.holds (s'.name ++ "_train_loss") = true)) ∧
    (t'.holds (s'.name ++ "_train_batch_loss") = true ↔
      (s'.metrics.Contains TrainBatchLossMetric = true ∨
        ∃ t0, pre.Tracker = some t0 ∧ t0.holds (s'.name ++ "_train_batch_loss") = true)) ∧
    (pre.Tracker = none →
      (t'.holds (s'.name ++ "_train_loss") = true ↔
        s'.metrics.Contains TrainLossMetric = true) ∧
      (t'.holds (s'.name ++ "_train_batch_loss") = true ↔
        s'.metrics.Contains TrainBatchLossMetric = true)) ∧
    (∀ name, (NewSequential name).metrics.Contains TrainLossMetric = true ∧
      (NewSequential name).metrics.Contains TrainBatchLossMetric = true) := by
  subst hpre
  obtain ⟨hn, hm, hchar⟩ := Sequential.Compile_tracker E s x y opts s' t' h ht
  obtain ⟨e1, e2⟩ := namespaceValue_eq s.name
  have hne := namespaceValue_ne s.name
  have k1 := hchar (namespaceValue s.name "train_loss")
  have k2 := hchar (namespaceValue s.name "train_batch_loss")
  simp only [true_and, and_true, hne, hne.symm, and_false, or_false, false_or] at k1 k2
  rw [hn, ← e1, ← e2]
  refine ⟨⟨rfl, hm⟩, ⟨rfl, rfl⟩, ?_, ?_, ?_, fun _ => ⟨rfl, rfl⟩⟩
  · rw [k1]
    exact Or.comm
  · rw [k2]
    exact Or.comm
  · intro hnone
    rw [k1, k2]
    simp [hnone]

/-- C20, amended, at the sample model compiled with the metric
`TrainBatchLossMetric` alone and no tracker given. -/
theorem Sequential.compile_tracks_losses_witness :
    ∃ s' t', (sampleModel "m" none).Compile sampleEngine (InputOr.input (NewInput "x" [1, 5]))
        (NewInput "y" [1, 2]) [Opt.WithMetrics [TrainBatchLossMetric]] = .ok (s', none) ∧
      s'.Tracker = some t' ∧
      (t'.holds (s'.name ++ "_train_loss") = true ↔
        s'.metrics.Contains TrainLossMetric = true) ∧
      (t'.holds (s'.name ++ "_train_batch_loss") = true ↔
        s'.metrics.Contains TrainBatchLossMetric = true) :=
  ⟨_, _, rfl, rfl,
    (Sequential.compile_tracks_losses sampleEngine (sampleModel "m" none)
      (InputOr.input (NewInput "x" [1, 5])) (NewInput "y" [1, 2])
      [Opt.WithMetrics [TrainBatchLossMetric]] _ _ _ rfl rfl rfl).2.2.2.2.1 rfl⟩

/-! ### The inputs of the batch variants -/


theorem Input.AsBatch_ok (E : Engine) (i bi : Input) (size : Int)
    (h : i.AsBatch E size = .ok bi) :
    bi.name = NameAsBatch i.name ∧ bi.dtype = i.dtype ∧ bi.node = none ∧
    bi.shape.head? = some size := by
  cases hs : i.shape with
  | nil =>
    simp [Input.AsBatch, Input.Clone, hs, bind, Except.bind, pure, Except.pure] at h
  | cons d rest =>
    rw [Input.AsBatch_eq E i size d rest hs] at h
    cases h
    by_cases hr : rest = [] <;> simp [hr]

theorem Input.Compile_ok (E : Engine) (i i' : Input) (graph tick tick' : Nat)
    (h : i.Compile E graph tick = .ok (i', tick')) :
    i'.name = i.name ∧ i'.shape = i.shape ∧ i'.dtype = i.dtype := by
  unfold Input.Compile at h
  split at h
  · cases h
  · cases h
    simp

theorem Input.CloneTo_nil_ok (E : Engine) (i i' : Input) (graph tick tick' : Nat)
    (h : i.CloneTo E graph [] tick = .ok (i', tick')) :
    i'.name = i.name ∧ i'.shape = i.shape ∧ i'.dtype = i.dtype := by
  unfold Input.CloneTo Input.CloneWith at h
  simp only [List.foldlM_nil, bind, Except.bind, pure, Except.pure, Input.Clone] at h
  have h2 := Input.Compile_ok E _ _ _ _ _ h
  simpa using h2

theorem Sequential.onlineBatchInputs_spec (E : Engine) (graph : Nat) (fwdName : String)
    (b : Int) : ∀ (xs acc : Inputs) (fwd : Option Input) (tick : Nat) (res : Inputs)
      (fwd' : Option Input) (tick' : Nat),
    Sequential.onlineBatchInputs E graph fwdName b xs acc fwd tick = .ok (res, fwd', tick') →
    ∃ new, res = acc ++ new ∧ List.Forall₂ (onlineBatchOf E fwdName b) xs new
  | [], acc, fwd, tick, res, fwd', tick', h => by
    simp only [Sequential.onlineBatchInputs, pure, Except.pure] at h
    cases h
    exact ⟨[], by simp, List.Forall₂.nil⟩
  | input :: rest, acc, fwd, tick, res, fwd', tick', h => by
    unfold Sequential.onlineBatchInputs at h
    split at h
    · rename_i hname
      simp only [bind, Except.bind] at h
      split at h
      · cases h
      · rename_i bi hbi
        split at h
        · cases h
        · rename_i v hv
          obtain ⟨new, hres, hF⟩ :=
            Sequential.onlineBatchInputs_spec E graph fwdName b rest _ _ _ res fwd' tick' h
          obtain ⟨a1, a2, a3, a4⟩ := Input.AsBatch_ok E _ _ _ hbi
          obtain ⟨c1, c2, c3⟩ := Input.Compile_ok E _ _ _ _ _ hv
          refine ⟨v.1 :: new, by simp [hres], List.Forall₂.cons ⟨fun _ => ?_, fun hne => ?_⟩ hF⟩
          · exact ⟨bi, hbi, c1.trans a1, c2, by rw [c2]; exact a4, c3.trans a2⟩
          · exact absurd hname hne
    · rename_i hname
      simp only [bind, Except.bind] at h
      split at h
      · cases h
      · rename_i v hv
        obtain ⟨new, hres, hF⟩ :=
          Sequential.onlineBatchInputs_spec E graph fwdName b rest _ _ _ res fwd' tick' h
        refine ⟨v.1 :: new, by simp [hres], List.Forall₂.cons ⟨fun he => ?_, fun _ => ?_⟩ hF⟩
        · exact absurd he hname
        · exact Input.CloneTo_nil_ok E _ _ _ _ _ hv

theorem Sequential.track_io (s : Sequential) (metric : Metric) (name : String)
    (loss : Node) :
    (s.track metric name loss).y = s.y ∧
    (s.track metric name loss).batchSize = s.batchSize ∧
    (s.track metric name loss).xTrainBatch = s.xTrainBatch ∧
    (s.track metric name loss).yTrainBatch = s.yTrainBatch ∧
    (s.track metric name loss).xOnlineBatch = s.xOnlineBatch := by
  unfold Sequential.track
  split
  · split <;> simp
  · simp

theorem Sequential.buildTrainGraph_io (E : Engine) (s : Sequential) (x : Inputs)
    (y : Option Input) (s' : Sequential) (r : Option Err)
    (h : s.buildTrainGraph E x y = .ok (s', r)) :
    s'.x = s.x ∧ s'.y = s.y ∧ s'.fwd = s.fwd ∧ s'.batchSize = s.batchSize ∧
    s'.xTrainBatch = s.xTrainBatch ∧ s'.xOnlineBatch = s.xOnlineBatch := by
  unfold Sequential.buildTrainGraph at h
  simp only [bind, Except.bind, pure, Except.pure] at h
  repeat' split at h
  all_goals (cases h <;> simp [Sequential.track_frame, Sequential.track_io])

theorem Sequential.buildTrainBatchGraph_io (E : Engine) (s : Sequential) (x : Inputs)
    (y : Option Input) (s' : Sequential) (r : Option Err)
    (h : s.buildTrainBatchGraph E x y = .ok (s', r)) :
    s'.x = s.x ∧ s'.y = s.y ∧ s'.fwd = s.fwd ∧ s'.batchSize = s.batchSize ∧
    s'.xOnlineBatch = s.xOnlineBatch := by
  unfold Sequential.buildTrainBatchGraph at h
  simp only [bind, Except.bind, pure, Except.pure] at h
  repeat' split at h
  all_goals (cases h <;> simp [Sequential.track_frame, Sequential.track_io])

theorem Sequential.buildOnlineGraph_io (E : Engine) (s : Sequential) (x : Inputs)
    (s' : Sequential) (r : Option Err) (h : s.buildOnlineGraph E x = .ok (s', r)) :
    s'.x = s.x ∧ s'.y = s.y ∧ s'.fwd = s.fwd ∧ s'.batchSize = s.batchSize ∧
    s'.xTrainBatch = s.xTrainBatch ∧ s'.yTrainBatch = s.yTrainBatch ∧
    s'.xOnlineBatch = s.xOnlineBatch := by
  unfold Sequential.buildOnlineGraph at h
  simp only [bind, Except.bind, pure, Except.pure] at h
  repeat' split at h
  all_goals (cases h <;> simp)

theorem Sequential.buildOnlineBatchGraph_io (E : Engine) (s : Sequential) (x : Inputs)
    (s' : Sequential) (r : Option Err) (h : s.buildOnlineBatchGraph E x = .ok (s', r)) :
    s'.x = s.x ∧ s'.y = s.y ∧ s'.fwd = s.fwd ∧ s'.batchSize = s.batchSize ∧
    s'.xTrainBatch = s.xTrainBatch ∧ s'.yTrainBatch = s.yTrainBatch ∧
    s'.xOnline = s.xOnline ∧ s'.xOnlineFwd = s.xOnlineFwd := by
  unfold Sequential.buildOnlineBatchGraph at h
  simp only [bind, Except.bind, pure, Except.pure] at h
  repeat' split at h
  all_goals (cases h <;> simp)

theorem Sequential.buildOnlineBatchGraph_inputs (E : Engine) (s : Sequential) (x : Inputs)
    (s' : Sequential) (h : s.buildOnlineBatchGraph E x = .ok (s', none)) :
    ∃ f new xob, s.fwd = some f ∧ s'.xOnlineBatch = s.xOnlineBatch ++ new ∧
      List.Forall₂ (onlineBatchOf E f.name s.batchSize) x new ∧
      s'.xOnlineBatchFwd = some xob ∧
      Inputs.Get s'.xOnlineBatch (NameAsBatch f.name) = .ok xob := by
  unfold Sequential.buildOnlineBatchGraph at h
  simp only [bind, Except.bind, pure, Except.pure] at h
  split at h
  · cases h
  · rename_i f hf
    split at h
    · cases h
    · rename_i v hv
      obtain ⟨new, hres, hF⟩ := Sequential.onlineBatchInputs_spec E _ _ _ _ _ _ _ _ _ _ hv
      have hf' := deref_ok _ _ hf
      simp only at hf'
      repeat' split at h
      all_goals first
        | cases h; done
        | (cases h
           refine ⟨f, new, _, hf', by simpa using hres, hF, rfl, ?_⟩
           assumption)

theorem Opt.foldl_io : ∀ (opts : List Opt) (s : Sequential),
    (opts.foldl (fun s opt => opt.run s) s).y = s.y ∧
    (opts.foldl (fun s opt => opt.run s) s).xTrainBatch = s.xTrainBatch ∧
    (opts.foldl (fun s opt => opt.run s) s).xOnlineBatch = s.xOnlineBatch
  | [], _ => ⟨rfl, rfl, rfl⟩
  | opt :: rest, s => by
    rw [List.foldl_cons]
    obtain ⟨a, b, c⟩ := Opt.foldl_io rest (opt.run s)
    rw [a, b, c]
    cases opt <;> exact ⟨rfl, rfl, rfl⟩

theorem Sequential.defaults_io (s : Sequential) :
    s.defaults.y = s.y ∧ s.defaults.xTrainBatch = s.xTrainBatch ∧
    s.defaults.xOnlineBatch = s.xOnlineBatch ∧ s.defaults.batchSize = s.batchSize := by
  unfold Sequential.defaults
  cases hl : s.logger <;> cases hlo : s.loss <;> cases ho : s.optimizer <;> simp [hl, hlo, ho]

theorem Sequential.defaultTracker_io (E : Engine) (s s' : Sequential) (r : Option Err)
    (h : s.defaultTracker E = .ok (s', r)) :
    s'.y = s.y ∧ s'.xTrainBatch = s.xTrainBatch ∧ s'.xOnlineBatch = s.xOnlineBatch ∧
    s'.batchSize = s.batchSize := by
  unfold Sequential.defaultTracker NewTracker at h
  simp only [pure, Except.pure] at h
  cases ht : E.tempFile <;> simp only [ht] at h <;> (repeat' split at h) <;>
    (cases h; simp)

theorem Sequential.defaultFwd_io (s : Sequential) (x : InputOr) (s' : Sequential)
    (r : Option Err) (h : s.defaultFwd x = .ok (s', r)) :
    s'.x = s.x ∧ s'.y = s.y ∧ s'.xTrainBatch = s.xTrainBatch ∧
    s'.xOnlineBatch = s.xOnlineBatch ∧ s'.batchSize = s.batchSize := by
  unfold Sequential.defaultFwd at h
  simp only [pure, Except.pure] at h
  repeat' split at h
  all_goals (cases h <;> simp)

/-- The steps of a successful `Compile`: the state the four build functions
start from and the states between them. -/
theorem Sequential.Compile_steps (E : Engine) (s : Sequential) (x : InputOr) (y : Input)
    (opts : List Opt) (s' : Sequential) (h : s.Compile E x y opts = .ok (s', none)) :
    ∃ S4 S5 S6 S7 : Sequential,
      S4.x = x.Inputs ∧ S4.y = some y ∧ S4.xTrainBatch = s.xTrainBatch ∧
      S4.xOnlineBatch = s.xOnlineBatch ∧
      S4.buildTrainGraph E S4.x S4.y = .ok (S5, none) ∧
      S5.buildTrainBatchGraph E S5.x S5.y = .ok (S6, none) ∧
      S6.buildOnlineGraph E S6.x = .ok (S7, none) ∧
      S7.buildOnlineBatchGraph E S7.x = .ok (s', none) := by
  have hy : y.Validate = none := by
    cases hv : y.Validate with
    | none => rfl
    | some err => simp [Sequential.Compile, hv, pure, Except.pure] at h
  unfold Sequential.Compile at h
  simp only [hy] at h
  generalize hpre : (opts.foldl (fun s opt => opt.run s)
      { s with x := x.Inputs, y := some y }) = pre at h
  obtain ⟨S3, h3, h⟩ := Step.andThen_ok_none _ _ _ h
  obtain ⟨S4, h4, h⟩ := Step.andThen_ok_none _ _ _ h
  obtain ⟨S5, h5, h⟩ := Step.andThen_ok_none _ _ _ h
  obtain ⟨S6, h6, h⟩ := Step.andThen_ok_none _ _ _ h
  obtain ⟨S7, h7, h8⟩ := Step.andThen_ok_none _ _ _ h
  obtain ⟨_, px, _⟩ := Opt.foldl_frame opts { s with x := x.Inputs, y := some y }
  obtain ⟨py, pt, po⟩ := Opt.foldl_io opts { s with x := x.Inputs, y := some y }
  rw [hpre] at px py pt po
  obtain ⟨_, dx, _⟩ := Sequential.defaults_frame pre
  obtain ⟨dy, dt, d0, _⟩ := Sequential.defaults_io pre
  obtain ⟨_, tx, _⟩ := Sequential.defaultTracker_frame E _ _ _ h3
  obtain ⟨ty, tt, t0, _⟩ := Sequential.defaultTracker_io E _ _ _ h3
  obtain ⟨fx, fy, ft, f0, _⟩ := Sequential.defaultFwd_io _ _ _ _ h4
  refine ⟨S4, S5, S6, S7, ?_, ?_, ?_, ?_, h5, h6, h7, h8⟩
  · rw [fx, tx, dx, px]
  · rw [fy, ty, dy, py]
  · rw [ft, tt, dt, pt]
  · rw [f0, t0, d0, po]

/-- C13 as stated fails: the sample model compiled for the inputs "x" and "z"
with batch size 10 (the forward input is "x") has the online-batch inputs
"x_batch" of shape [10, 5] and "z" of shape [1, 3]: the input "z" is not in
batch form. -/
theorem Sequential.online_batch_input_not_batched :
    ∃ s', (sampleModel "m" none).Compile sampleEngine sampleTwoInputs (NewInput "y" [1, 2])
        [Opt.WithBatchSize 10] = .ok (s', none) ∧
      s'.batchSize = 10 ∧
      s'.x.map (fun (i : Input) => (i.name, i.shape)) = [("x", [1, 5]), ("z", [1, 3])] ∧
      s'.xOnlineBatch.map (fun (i : Input) => (i.name, i.shape)) =
        [("x_batch", [10, 5]), ("z", [1, 3])] :=
  ⟨_, rfl, rfl, rfl, rfl⟩

/-- C13, amended: after a successful `Compile` of a model that was not
compiled before, the online-batch inputs correspond one to one, in order, to
the model inputs. An input named like the forward input is in batch form: its
name is `NameAsBatch` of the name, its shape the one `AsBatch` gives, with
leading dimension the batch size. Every other input is a plain clone with the
name, shape and type of the model input. -/
theorem Sequential.compile_online_batch_inputs (E : Engine) (s : Sequential) (x : InputOr)
    (y : Input) (opts : List Opt) (s' : Sequential) (hfresh : s.xOnlineBatch = [])
    (h : s.Compile E x y opts = .ok (s', none)) :
    ∃ f, s'.fwd = some f ∧ s'.x = x.Inputs ∧
      List.Forall₂ (onlineBatchOf E f.name s'.batchSize) s'.x s'.xOnlineBatch := by
  obtain ⟨S4, S5, S6, S7, hx, _, _, ho, h5, h6, h7, h8⟩ :=
    Sequential.Compile_steps E s x y opts s' h
  obtain ⟨a1, _, _, _, _, a6⟩ := Sequential.buildTrainGraph_io E _ _ _ _ _ h5
  obtain ⟨b1, _, _, _, b5⟩ := Sequential.buildTrainBatchGraph_io E _ _ _ _ _ h6
  obtain ⟨c1, _, _, _, _, _, c7⟩ := Sequential.buildOnlineGraph_io E _ _ _ _ h7
  obtain ⟨d1, _, d3, d4, _⟩ := Sequential.buildOnlineBatchGraph_io E _ _ _ _ h8
  obtain ⟨f, new, xob, hf, hnew, hF, _, _⟩ := Sequential.buildOnlineBatchGraph_inputs E _ _ _ h8
  have h7o : S7.xOnlineBatch = [] := by rw [c7, b5, a6, ho, hfresh]
  have h7x : S7.x = x.Inputs := by rw [c1, b1, a1, hx]
  rw [h7o, List.nil_append] at hnew
  refine ⟨f, by rw [d3, hf], by rw [d1, h7x], ?_⟩
  rw [d1, d4, hnew]
  exact hF

/-- C13, amended, at the sample model compiled for the inputs "x" and "z" with
batch size 10. -/
theorem Sequential.compile_online_batch_inputs_witness :
    ∃ s', (sampleModel "m" none).Compile sampleEngine sampleTwoInputs (NewInput "y" [1, 2])
        [Opt.WithBatchSize 10] = .ok (s', none) ∧
      ∃ f, s'.fwd = some f ∧ s'.x = sampleTwoInputs.Inputs ∧
        List.Forall₂ (onlineBatchOf sampleEngine f.name s'.batchSize) s'.x s'.xOnlineBatch :=
  ⟨_, rfl,
    Sequential.compile_online_batch_inputs sampleEngine (sampleModel "m" none)
      sampleTwoInputs (NewInput "y" [1, 2]) [Opt.WithBatchSize 10] _ rfl rfl⟩

/-! ### The input checks of Predict and Fit -/

theorem Loss.CloneTo_Inputs (l : Loss) (graph : Nat) (opts : List CloneOpt) :
    (l.CloneTo graph opts).Inputs = [] := by
  cases l <;> rfl

theorem Input.CloneTo_batch_ok (E : Engine) (i i' : Input) (graph tick tick' : Nat) (b : Int)
    (d : Int) (rest : Shape) (hs : i.shape = d :: rest)
    (h : i.CloneTo E graph [CloneOpt.AsBatch b] tick = .ok (i', tick')) :
    i'.name = NameAsBatch i.name ∧
    i'.shape = (if rest = [] then [b, d] else b :: rest) ∧ i'.dtype = i.dtype := by
  unfold Input.CloneTo Input.CloneWith at h
  simp only [List.foldlM_cons, List.foldlM_nil, bind, Except.bind, pure, Except.pure,
    CloneOpt.run] at h
  rw [Input.AsBatch_eq E i.Clone b d rest (by simpa [Input.Clone] using hs)] at h
  simp only [Input.Clone] at h
  have h2 := Input.Compile_ok E _ _ _ _ _ h
  simpa using h2

theorem Sequential.buildOnlineGraph_inputs (E : Engine) (s : Sequential) (x : Inputs)
    (s' : Sequential) (xi : Input) (hx : s.x = [xi])
    (h : s.buildOnlineGraph E x = .ok (s', none)) :
    ∃ f xo, s.fwd = some f ∧ xi.name = f.name ∧ s'.xOnlineFwd = some xo ∧
      xo.name = xi.name ∧ xo.shape = xi.shape ∧ xo.dtype = xi.dtype := by
  unfold Sequential.buildOnlineGraph at h
  simp only [bind, Except.bind, pure, Except.pure, hx, Inputs.Clone, List.map_cons,
    List.map_nil, Inputs.Compile] at h
  split at h
  · cases h
  · rename_i v hv
    split at hv
    · cases hv
    · rename_i w hw
      cases hv
      obtain ⟨c1, c2, c3⟩ := Input.Compile_ok E _ _ _ _ _ hw
      simp only [Input.Clone] at c1 c2 c3
      split at h
      · cases h
      · rename_i f hf
        have hf' := deref_ok _ _ hf
        simp only at hf'
        simp only [Inputs.Get] at h
        by_cases hn : w.1.name = f.name
        · simp only [hn, if_true] at h
          repeat' split at h
          all_goals first
            | cases h; done
            | (cases h
               exact ⟨f, w.1, hf', c1.symm.trans hn, rfl, c1, c2, c3⟩)
        · simp only [hn, if_false] at h
          cases h

theorem Sequential.cloneInputs_single (E : Engine) (graph : Nat) (opts : List CloneOpt)
    (xi : Input) (tick : Nat) (res : Inputs) (tick' : Nat)
    (h : Sequential.cloneInputs E [] graph opts [xi] [] tick = .ok (res, tick')) :
    ∃ i, xi.CloneTo E graph opts tick = .ok (i, tick') ∧ res = [i] := by
  simp only [Sequential.cloneInputs, Inputs.Get, bind, Except.bind, pure, Except.pure] at h
  split at h
  · cases h
  · rename_i v hv
    cases h
    exact ⟨v.1, hv, rfl⟩

theorem Sequential.buildTrainBatchGraph_inputs (E : Engine) (s : Sequential) (x : Inputs)
    (y : Option Input) (s' : Sequential) (xi sy : Input) (d e : Shape) (hx : x = [xi])
    (hy : s.y = some sy) (hfresh : s.xTrainBatch = []) (hxs : xi.shape = 1 :: d)
    (hys : sy.shape = 1 :: e) (h : s.buildTrainBatchGraph E x y = .ok (s', none)) :
    ∃ xtb ytb, s'.xTrainBatch = [xtb] ∧ s'.yTrainBatch = some ytb ∧
      xtb.name = NameAsBatch xi.name ∧
      xtb.shape = (if d = [] then [s.batchSize, 1] else s.batchSize :: d) ∧
      xtb.dtype = xi.dtype ∧
      ytb.name = NameAsBatch sy.name ∧
      ytb.shape = (if e = [] then [s.batchSize, 1] else s.batchSize :: e) ∧
      ytb.dtype = sy.dtype := by
  unfold Sequential.buildTrainBatchGraph at h
  simp only [bind, Except.bind, pure, Except.pure, Loss.CloneTo_Inputs, hx, hfresh, hy] at h
  split at h
  · cases h
  · rename_i loss hloss
    split at h
    · cases h
    · rename_i v hv
      obtain ⟨i, hi, hres⟩ := Sequential.cloneInputs_single E _ _ _ _ _ _ hv
      obtain ⟨a1, a2, a3⟩ := Input.CloneTo_batch_ok E _ _ _ _ _ _ 1 d hxs hi
      split at h
      · cases h
      · rename_i f hf
        split at h
        · cases h
        · rename_i xfwd hget
          simp only [deref, pure, Except.pure] at h
          rw [Input.AsBatch_eq E sy s.batchSize 1 e hys] at h
          simp only at h
          split at h
          · cases h
          · rename_i w hw
            obtain ⟨c1, c2, c3⟩ := Input.Compile_ok E _ _ _ _ _ hw
            simp only at c1 c2 c3
            repeat' split at h
            all_goals first
              | cases h; done
              | (cases h
                 refine ⟨i, w.1, ?_, ?_, a1, a2, a3, c1, c2, c3⟩
                 · simp [Sequential.track_io, hres]
                 · simp [Sequential.track_io])

theorem Sequential.buildOnlineBatchGraph_fwd (E : Engine) (s : Sequential) (x : Inputs)
    (s' : Sequential) (xi f : Input) (d : Shape) (hx : x = [xi]) (hf : s.fwd = some f)
    (hname : xi.name = f.name) (hfresh : s.xOnlineBatch = []) (hxs : xi.shape = 1 :: d)
    (h : s.buildOnlineBatchGraph E x = .ok (s', none)) :
    ∃ xob, s'.xOnlineBatchFwd = some xob ∧ s'.xOnlineBatch = [xob] ∧
      xob.name = NameAsBatch xi.name ∧
      xob.shape = (if d = [] then [s.batchSize, 1] else s.batchSize :: d) ∧
      xob.dtype = xi.dtype := by
  obtain ⟨f', new, xob, hf', hnew, hF, hfwd, hget⟩ :=
    Sequential.buildOnlineBatchGraph_inputs E s x s' h
  rw [hf] at hf'
  cases hf'
  rw [hfresh, List.nil_append] at hnew
  rw [hx] at hF
  obtain ⟨out, rest, hrel, hrest, rfl⟩ := List.forall₂_cons_left_iff.mp hF
  cases hrest
  obtain ⟨bi, hbi, b1, b2, _, b4⟩ := hrel.1 hname
  rw [Input.AsBatch_eq E xi s.batchSize 1 d hxs] at hbi
  cases hbi
  rw [hnew] at hget
  simp only [Inputs.Get] at hget
  split at hget
  · cases hget
    exact ⟨_, hfwd, hnew, b1, b2, b4⟩
  · cases hget

theorem Sequential.Predict_rejects (E : Engine) (m : Sequential) (v : Value) (xo : Input)
    (err : Err) (hxo : m.xOnlineFwd = some xo) (hc : xo.Check v = some err) :
    m.Predict E v = .ok (m, none, some err) := by
  simp [Sequential.Predict, hxo, deref, Input.Set, hc, bind, Except.bind, pure, Except.pure]

theorem Sequential.PredictBatch_rejects (E : Engine) (m : Sequential) (v : Value)
    (xob : Input) (err : Err) (hxo : m.xOnlineBatchFwd = some xob)
    (hc : xob.Check v = some err) :
    m.PredictBatch E v = .ok (m, none, some err) := by
  simp [Sequential.PredictBatch, hxo, deref, Input.Set, hc, bind, Except.bind, pure,
    Except.pure]

theorem Sequential.FitBatch_rejects (E : Engine) (m : Sequential) (xv : ValueOr) (yv : Value)
    (ytb : Input) (err : Err) (hy : m.yTrainBatch = some ytb) (hc : ytb.Check yv = some err) :
    m.FitBatch E xv yv = .ok (m, some err) := by
  simp [Sequential.FitBatch, hy, deref, Input.Set, hc, bind, Except.bind, pure, Except.pure]

theorem Inputs.Set_rejects (E : Engine) (xtb : Input) (v : Value) (err : Err)
    (hc : xtb.Check v = some err) :
    Inputs.Set E [xtb] [v] = .ok ([xtb], some err) := by
  simp [Inputs.Set, Input.Set, hc, bind, Except.bind, pure, Except.pure]

theorem Sequential.Compile_single_input (E : Engine) (s : Sequential) (xi y : Input)
    (opts : List Opt) (s' : Sequential) (d e : Shape) (hx : xi.shape = 1 :: d)
    (hy : y.shape = 1 :: e) (hfresh : s.xTrainBatch = [] ∧ s.xOnlineBatch = [])
    (h : s.Compile E (InputOr.input xi) y opts = .ok (s', none)) :
    (∃ f, s'.fwd = some f ∧ xi.name = f.name) ∧ s'.x = [xi] ∧ s'.y = some y ∧
    s'.xOnlineFwd.map (fun (i : Input) => (i.shape, i.dtype)) = some (1 :: d, xi.dtype) ∧
    s'.xOnlineBatchFwd.map (fun (i : Input) => (i.shape, i.dtype)) =
      some (if d = [] then [s'.batchSize, 1] else s'.batchSize :: d, xi.dtype) ∧
    s'.xTrainBatch.map (fun (i : Input) => (i.shape, i.dtype)) =
      [(if d = [] then [s'.batchSize, 1] else s'.batchSize :: d, xi.dtype)] ∧
    s'.yTrainBatch.map (fun (i : Input) => (i.shape, i.dtype)) =
      some (if e = [] then [s'.batchSize, 1] else s'.batchSize :: e, y.dtype) := by
  obtain ⟨S4, S5, S6, S7, h4x, h4y, h4t, h4o, h5, h6, h7, h8⟩ :=
    Sequential.Compile_steps E s (InputOr.input xi) y opts s' h
  simp only [InputOr.Inputs] at h4x
  obtain ⟨a1, a2, a3, a4, a5, a6⟩ := Sequential.buildTrainGraph_io E _ _ _ _ _ h5
  obtain ⟨b1, b2, b3, b4, b5⟩ := Sequential.buildTrainBatchGraph_io E _ _ _ _ _ h6
  obtain ⟨c1, c2, c3, c4, c5, c6, c7⟩ := Sequential.buildOnlineGraph_io E _ _ _ _ h7
  obtain ⟨d1, d2, d3, d4, d5, d6, d7, d8⟩ := Sequential.buildOnlineBatchGraph_io E _ _ _ _ h8
  have x5 : S5.x = [xi] := a1.trans h4x
  have y5 : S5.y = some y := a2.trans h4y
  have x6 : S6.x = [xi] := b1.trans x5
  have x7 : S7.x = [xi] := c1.trans x6
  obtain ⟨xtb, ytb, t1, t2, _, t4, t5, _, t7, t8⟩ :=
    Sequential.buildTrainBatchGraph_inputs E S5 S5.x S5.y S6 xi y d e x5 y5
      (a5.trans (h4t.trans hfresh.1)) hx hy h6
  obtain ⟨f, xo, o1, o2, o3, _, o5, o6⟩ := Sequential.buildOnlineGraph_inputs E S6 S6.x S7 xi x6 h7
  obtain ⟨xob, q1, _, _, q4, q5⟩ :=
    Sequential.buildOnlineBatchGraph_fwd E S7 S7.x s' xi f d x7 (c3.trans o1) o2
      (c7.trans (b5.trans (a6.trans (h4o.trans hfresh.2)))) hx h8
  have hb7 : S7.batchSize = S5.batchSize := c4.trans b4
  refine ⟨⟨f, by rw [d3, c3, o1], o2⟩, d1.trans x7, by rw [d2, c2, b2, y5], ?_, ?_, ?_, ?_⟩
  · rw [d8, o3]
    simp [o5, o6, hx]
  · rw [q1, d4]
    simp [q4, q5]
  · rw [d5, c5, t1, d4, hb7]
    simp [t4, t5]
  · rw [d6, c6, t2, d4, hb7]
    simp [t7, t8]

theorem Sequential.ResizeBatch_single_input (E : Engine) (s : Sequential) (xi y f : Input)
    (n : Int) (s'' : Sequential) (d e : Shape) (hsx : s.x = [xi]) (hsy : s.y = some y)
    (hf : s.fwd = some f) (hname : xi.name = f.name) (hx : xi.shape = 1 :: d)
    (hy : y.shape = 1 :: e) (h : s.ResizeBatch E n = .ok (s'', none)) :
    s''.batchSize = n ∧ s''.xOnlineFwd = s.xOnlineFwd ∧
    s''.xOnlineBatchFwd.map (fun (i : Input) => (i.shape, i.dtype)) =
      some (if d = [] then [n, 1] else n :: d, xi.dtype) ∧
    s''.xTrainBatch.map (fun (i : Input) => (i.shape, i.dtype)) =
      [(if d = [] then [n, 1] else n :: d, xi.dtype)] ∧
    s''.yTrainBatch.map (fun (i : Input) => (i.shape, i.dtype)) =
      some (if e = [] then [n, 1] else n :: e, y.dtype) := by
  obtain ⟨hsing, hbatch, _⟩ := Sequential.ResizeBatch_singles E s n s'' none h
  unfold Sequential.ResizeBatch at h
  obtain ⟨s2, h2, h4⟩ := Step.andThen_ok_none _ _ _ h
  simp only at h2 h4
  obtain ⟨b1, b2, b3, b4, b5⟩ := Sequential.buildTrainBatchGraph_io E _ _ _ _ _ h2
  simp only at b1 b2 b3 b4
  obtain ⟨d1, d2, d3, d4, d5, d6, d7, d8⟩ := Sequential.buildOnlineBatchGraph_io E _ _ _ _ h4
  simp only at d4 d5 d6
  obtain ⟨xtb, ytb, t1, t2, _, t4, t5, _, t7, t8⟩ :=
    Sequential.buildTrainBatchGraph_inputs E
      { s with batchSize := n, xTrainBatch := [], xTrainBatchFwd := none } s.x s.y s2 xi y d e
      hsx hsy rfl hx hy h2
  simp only at t4 t7
  obtain ⟨xob, q1, _, _, q4, q5⟩ :=
    Sequential.buildOnlineBatchGraph_fwd E
      { s2 with xOnlineBatch := [], xOnlineBatchFwd := none } s2.x s'' xi f d (b1.trans hsx)
      (b3.trans hf) hname rfl hx h4
  simp only [b4] at q4
  refine ⟨hbatch, hsing.2.2.2.2.2.2.2.2.2.2.2.1, ?_, ?_, ?_⟩
  · rw [q1]
    simp [q4, q5]
  · rw [d5, t1]
    simp [t4, t5]
  · rw [d6, t2]
    simp [t7, t8]

/-- C12 as stated fails: for the model of one layer from 1 to 1 without a
bias, compiled with the forward input "x" of shape [1], the target "y" of shape
[1] and batch size 10, the batch input and the batch target have shape [10, 1],
and `FitBatch` and `PredictBatch` reject values of shape [10]. -/
theorem Sequential.vector_batch_rejected :
    ∃ s', sampleVectorModel.Compile sampleEngine (InputOr.input (NewInput "x" [1]))
        (NewInput "y" [1]) [Opt.WithBatchSize 10] = .ok (s', none) ∧
      s'.yTrainBatch.map (fun (i : Input) => i.shape) = some [10, 1] ∧
      s'.xOnlineBatchFwd.map (fun (i : Input) => i.shape) = some [10, 1] ∧
      s'.FitBatch sampleEngine (ValueOr.value (zerosF32 [10] 10)) (zerosF32 [10] 10) =
        .ok (s', some (Err.shapeMismatch "y_batch" [10, 1] [10])) ∧
      s'.PredictBatch sampleEngine (zerosF32 [10] 10) =
        .ok (s', none, some (Err.shapeMismatch "x_batch" [10, 1] [10])) :=
  ⟨_, rfl, rfl, rfl, rfl, rfl⟩

/-- C12, amended: for a model not compiled before that is compiled with the
single input of shape [1, d...], the target of shape [1, e...] and batch size
b, the input that `Predict` sets has shape [1, d...], and the inputs that
`PredictBatch` and `FitBatch` set have shape [b, d...] for x and [b, e...] for
y when d... and e... are not empty, and shape [b, 1] when they are empty, all
with the type of the model input. The same holds with b = n after a successful
`ResizeBatch(n)`. `Check` accepts a value exactly when its shape and type are
those of the input, and `Predict`, `PredictBatch` and `FitBatch` return the
error of the check when it fails. -/
theorem Sequential.compile_input_checks (E : Engine) (s : Sequential) (xi y : Input)
    (opts : List Opt) (s' : Sequential) (d e : Shape) (hx : xi.shape = 1 :: d)
    (hy : y.shape = 1 :: e) (hfresh : s.xTrainBatch = [] ∧ s.xOnlineBatch = [])
    (h : s.Compile E (InputOr.input xi) y opts = .ok (s', none)) :
    (s'.xOnlineFwd.map (fun (i : Input) => (i.shape, i.dtype)) = some (1 :: d, xi.dtype) ∧
     s'.xOnlineBatchFwd.map (fun (i : Input) => (i.shape, i.dtype)) =
       some (if d = [] then [s'.batchSize, 1] else s'.batchSize :: d, xi.dtype) ∧
     s'.xTrainBatch.map (fun (i : Input) => (i.shape, i.dtype)) =
       [(if d = [] then [s'.batchSize, 1] else s'.batchSize :: d, xi.dtype)] ∧
     s'.yTrainBatch.map (fun (i : Input) => (i.shape, i.dtype)) =
       some (if e = [] then [s'.batchSize, 1] else s'.batchSize :: e, y.dtype)) ∧
    (∀ (n : Int) (s'' : Sequential), s'.ResizeBatch E n = .ok (s'', none) →
      s''.batchSize = n ∧ s''.xOnlineFwd = s'.xOnlineFwd ∧
      s''.xOnlineBatchFwd.map (fun (i : Input) => (i.shape, i.dtype)) =
        some (if d = [] then [n, 1] else n :: d, xi.dtype) ∧
      s''.xTrainBatch.map (fun (i : Input) => (i.shape, i.dtype)) =
        [(if d = [] then [n, 1] else n :: d, xi.dtype)] ∧
      s''.yTrainBatch.map (fun (i : Input) => (i.shape, i.dtype)) =
        some (if e = [] then [n, 1] else n :: e, y.dtype)) ∧
    (∀ (i : Input) (v : Value), i.Check v = none ↔ (v.shape = i.shape ∧ v.dtype = i.dtype)) ∧
    (∀ (m : Sequential) (v : Value) (xo : Input) (err : Err), m.xOnlineFwd = some xo →
      xo.Check v = some err → m.Predict E v = .ok (m, none, some err)) ∧
    (∀ (m : Sequential) (v : Value) (xob : Input) (err : Err), m.xOnlineBatchFwd = some xob →
      xob.Check v = some err → m.PredictBatch E v = .ok (m, none, some err)) ∧
    (∀ (m : Sequential) (xv : ValueOr) (yv : Value) (ytb : Input) (err : Err),
      m.yTrainBatch = some ytb → ytb.Check yv = some err →
      m.FitBatch E xv yv = .ok (m, some err)) ∧
    (∀ (xtb : Input) (v : Value) (err : Err), xtb.Check v = some err →
      Inputs.Set E [xtb] [v] = .ok ([xtb], some err)) := by
  obtain ⟨⟨f, hf, hname⟩, hsx, hsy, c1, c2, c3, c4⟩ :=
    Sequential.Compile_single_input E s xi y opts s' d e hx hy hfresh h
  refine ⟨⟨c1, c2, c3, c4⟩, ?_, Input.Check_eq_none_iff, Sequential.Predict_rejects E,
    Sequential.PredictBatch_rejects E, Sequential.FitBatch_rejects E, Inputs.Set_rejects E⟩
  intro n s'' hr
  exact Sequential.ResizeBatch_single_input E s' xi y f n s'' d e hsx hsy hf hname hx hy hr

/-- C12, amended, at the sample model compiled for the input "x" of shape
[1, 5], the target "y" of shape [1, 2] and batch size 10: the values of the
shapes [1, 5], [10, 5] and [10, 2] pass the checks of `Predict`, `FitBatch` and
`PredictBatch`. -/
theorem Sequential.compile_input_checks_witness :
    ∃ s', (sampleModel "m" none).Compile sampleEngine (InputOr.input (NewInput "x" [1, 5]))
        (NewInput "y" [1, 2]) [Opt.WithBatchSize 10] = .ok (s', none) ∧
      s'.batchSize = 10 ∧
      (s'.xOnlineFwd.map (fun (i : Input) => (i.shape, i.dtype)) =
         some (1 :: [5], (NewInput "x" [1, 5]).dtype) ∧
       s'.xOnlineBatchFwd.map (fun (i : Input) => (i.shape, i.dtype)) =
         some (if [5] = [] then [s'.batchSize, 1] else s'.batchSize :: [5],
           (NewInput "x" [1, 5]).dtype) ∧
       s'.xTrainBatch.map (fun (i : Input) => (i.shape, i.dtype)) =
         [(if [5] = [] then [s'.batchSize, 1] else s'.batchSize :: [5],
           (NewInput "x" [1, 5]).dtype)] ∧
       s'.yTrainBatch.map (fun (i : Input) => (i.shape, i.dtype)) =
         some (if [2] = [] then [s'.batchSize, 1] else s'.batchSize :: [2],
           (NewInput "y" [1, 2]).dtype)) ∧
      (∃ s'' p, s'.Predict sampleEngine (zerosF32 [1, 5] 5) = .ok (s'', p, none)) ∧
      (∃ s'', s'.FitBatch sampleEngine (ValueOr.value (zerosF32 [10, 5] 50))
        (zerosF32 [10, 2] 20) = .ok (s'', none)) ∧
      (∃ s'' p, s'.PredictBatch sampleEngine (zerosF32 [10, 5] 50) = .ok (s'', p, none)) :=
  ⟨_, rfl, rfl,
    (Sequential.compile_input_checks sampleEngine (sampleModel "m" none) (NewInput "x" [1, 5])
      (NewInput "y" [1, 2]) [Opt.WithBatchSize 10] _ [5] [2] rfl rfl ⟨rfl, rfl⟩ rfl).1,
    ⟨_, _, rfl⟩, ⟨_, rfl⟩, ⟨_, _, rfl⟩⟩

/-! ### Squeeze and CloneTo of an input -/

/-- C24: `Squeeze` removes the first dimension when it is 1 and nothing else:
the shape [1, 1, 4] gives [1, 4], which still starts with 1, where the claim
and the comment of `Squeeze` say that any leading dimensions of size 1 are
removed. The input is not changed; an empty shape panics. -/
theorem Input.squeeze_removes_one :
    (∀ (i : Input) (d : Int) (rest : Shape), i.shape = d :: rest →
      i.Squeeze = .ok (if d = 1 then rest else d :: rest)) ∧
    (NewInput "x" [1, 1, 4]).Squeeze = .ok [1, 4] ∧
    (NewInput "x" [1, 4]).Squeeze = .ok [4] ∧
    (NewInput "x" [2, 1, 4]).Squeeze = .ok [2, 1, 4] := by
  refine ⟨?_, rfl, rfl, rfl⟩
  intro i d rest h
  unfold Input.Squeeze
  rw [h]
  by_cases hd : d = 1 <;> simp [hd, pure, Except.pure]

theorem Input.AsBatch_node (E : Engine) (i bi : Input) (size : Int)
    (h : i.AsBatch E size = .ok bi) : bi.node = none :=
  (Input.AsBatch_ok E i bi size h).2.2.1

theorem Input.CloneWith_node (E : Engine) (i : Input) : ∀ (opts : List CloneOpt) (c : Input),
    i.CloneWith E opts = .ok c → c.node = none := by
  unfold Input.CloneWith
  have key : ∀ (opts : List CloneOpt) (start c : Input), start.node = none →
      opts.foldlM (fun ret opt => opt.run E ret) start = .ok c → c.node = none := by
    intro opts
    induction opts with
    | nil =>
      intro start c hs h
      simp only [List.foldlM_nil, pure, Except.pure] at h
      cases h
      exact hs
    | cons opt rest ih =>
      intro start c _ h
      simp only [List.foldlM_cons, bind, Except.bind] at h
      split at h
      · cases h
      · rename_i v hv
        cases opt with
        | AsBatch size => exact ih v c (Input.AsBatch_node E _ _ _ hv) h
  intro opts c h
  exact key opts i.Clone c rfl h

/-- C25: `CloneTo` never clones the node of the input: `Clone` does not copy
the node, so the branch for a clone that has a node is not reached and the
result is always compiled afresh, with a new node that holds no value. An
input whose node holds a value is cloned to an input whose node holds none. -/
theorem Input.cloneTo_compiles_afresh (E : Engine) :
    (∀ (i : Input) (graph : Nat) (opts : List CloneOpt) (tick : Nat) (r : Input) (tick' : Nat),
      i.CloneTo E graph opts tick = .ok (r, tick') →
      ∃ c, i.CloneWith E opts = .ok c ∧ c.node = none ∧
        c.Compile E graph tick = .ok (r, tick') ∧
        r.node.bind Node.value = none ∧ r.node.map Node.id = some tick) ∧
    (sampleSetInput.node.bind Node.value = some (zerosF32 [1, 5] 5) ∧
      (sampleSetInput.CloneTo sampleEngine 7 [] 20).map (fun r => r.1.node) =
        .ok (some (newNode 7 20 "x" [1, 5] Dtype.Float32 none))) := by
  refine ⟨?_, rfl, rfl⟩
  intro i graph opts tick r tick' h
  unfold Input.CloneTo at h
  simp only [bind, Except.bind] at h
  split at h
  · cases h
  · rename_i c hc
    have hn := Input.CloneWith_node E i opts c hc
    simp only [hn] at h
    refine ⟨c, hc, hn, h, ?_, ?_⟩ <;>
    · unfold Input.Compile at h
      simp only [hn, pure, Except.pure] at h
      cases h
      by_cases hsc : E.isScalarShape c.shape <;> simp [hsc, newNode]

/-! ### The bias of a fully connected layer -/

/-- C26: `NoBias` does not default to true. `ApplyDefaults` leaves `NoBias` as
it is, so an `FC` config that leaves it unset (false, the zero value) is
stored by `Chain.Add` with `NoBias` false, and the compiled layer has a bias:
its learnables are the weights and the bias. -/
theorem FC.noBias_stays_false :
    (∀ f : FC, f.ApplyDefaults.NoBias = f.NoBias) ∧
    (∀ (E : Engine) (f : FC) (graph tick : Nat) (opts : List CompileOpt) (l : Layer)
        (tick' : Nat), f.NoBias = false → f.Compile E graph opts tick = .ok (l, tick') →
      ∃ w b, l.Learnables = [some w, some b]) ∧
    (NewChain sampleEngine [plainFC]).map
        (fun c => c.Layers.map (fun (l : Config) =>
          match l.val with
          | .FC f => some f.NoBias
          | _ => none)) = .ok [some false] ∧
    ((NewChain sampleEngine [plainFC]).bind (fun c => c.Compile sampleEngine 0 [] 0)).map
        (fun r => r.1.Learnables.map Option.isSome) = .ok [true, true] := by
  refine ⟨?_, ?_, rfl, rfl⟩
  · intro f
    obtain ⟨i, o, n, a, ini, nb, bi⟩ := f
    cases a <;> cases ini <;> cases bi <;> simp [FC.ApplyDefaults]
  · intro E f graph tick opts l tick' hnb h
    obtain ⟨fcn, w, _, _, h1, _⟩ := FC.fc_Compile_learnables E f graph tick opts l tick' h
    obtain ⟨b, _, hb⟩ := h1 hnb
    exact ⟨w, b, hb⟩

/-! ### Flatten -/

theorem wrapInt_of_range (y : Int) (h1 : -2 ^ 63 ≤ y) (h2 : y < 2 ^ 63) : wrapInt y = y := by
  unfold wrapInt
  rw [Int.emod_eq_of_lt (by omega) (by omega)]
  omega

theorem wrapInt_congr (x y : Int) (h : x % 2 ^ 64 = y % 2 ^ 64) : wrapInt x = wrapInt y := by
  unfold wrapInt
  have h2 : (x + 2 ^ 63) % 2 ^ 64 = (y + 2 ^ 63) % 2 ^ 64 := by
    rw [Int.add_emod, h, ← Int.add_emod]
  rw [h2]

theorem wrapInt_emod (x : Int) : wrapInt x % 2 ^ 64 = x % 2 ^ 64 := by
  unfold wrapInt
  omega

theorem flattenProduct_foldl : ∀ (s : Shape) (a : Int),
    s.foldl (fun product d => wrapInt (product * d)) (wrapInt a) = wrapInt (a * s.prod)
  | [], a => by simp
  | d :: rest, a => by
    rw [List.foldl_cons, flattenProduct_foldl rest (wrapInt a * d), List.prod_cons]
    apply wrapInt_congr
    rw [mul_assoc, Int.mul_emod, wrapInt_emod, ← Int.mul_emod]

theorem flattenProduct_eq (s : Shape) : flattenProduct s = wrapInt s.prod := by
  unfold flattenProduct
  have h := flattenProduct_foldl s 1
  rw [wrapInt_of_range 1 (by norm_num) (by norm_num), one_mul] at h
  exact h

/-- C28 as stated fails: for an input of shape [1, 2^32, 2^32] the product of
the trailing dimensions is 2^64, which is 0 as a Go `int`, so `flatten.Fwd`
asks for a reshape to [1, 0], for every engine; where the reshape yields a node
of the new shape the result has no element, the input 2^64. -/
theorem flatten.fwd_product_wraps :
    (∀ E : Engine, flatten.Fwd E sampleFlatten (sampleNode [1, 2 ^ 32, 2 ^ 32]) =
      .ok (E.apply (Op.Reshape [1, 0]) [sampleNode [1, 2 ^ 32, 2 ^ 32]])) ∧
    flatten.Fwd reshapingEngine sampleFlatten (sampleNode [1, 2 ^ 32, 2 ^ 32]) =
      .ok (.ok { sampleNode [1, 2 ^ 32, 2 ^ 32] with shape := [1, 0] }) ∧
    ([1, 2 ^ 32, 2 ^ 32] : Shape).prod = 2 ^ 64 ∧ ([1, 0] : Shape).prod = 0 := by
  have hp : flattenProduct [4294967296, 4294967296] = 0 := by
    rw [flattenProduct_eq]
    unfold wrapInt
    norm_num
  refine ⟨?_, ?_, by norm_num, by norm_num⟩
  · intro E
    simp [flatten.Fwd, sampleNode, newNode, hp, pure, Except.pure]
  · simp [flatten.Fwd, sampleNode, newNode, hp, pure, Except.pure, reshapingEngine]

/-- C28, amended: for an input of shape [b, d1, ..., dk] with k at least 1,
`flatten.Fwd` returns what the engine gives for a reshape to [b, p], where p is
the product of d1 to dk as a Go `int`, that is, reduced to 64 bits; when the
product fits in 64 bits p is the product itself, so the batch dimension and the
number of elements are preserved. For an input of rank less than 2 it returns
an error. -/
theorem flatten.fwd_spec (E : Engine) (f : flatten) (x : Node) :
    (∀ (b d : Int) (ds : Shape), x.shape = b :: d :: ds →
      f.Fwd E x = .ok (E.apply (Op.Reshape [b, flattenProduct (d :: ds)]) [x])) ∧
    (∀ s : Shape, flattenProduct s = wrapInt s.prod) ∧
    (∀ s : Shape, -2 ^ 63 ≤ s.prod → s.prod < 2 ^ 63 → flattenProduct s = s.prod) ∧
    (∀ (b : Int) (s : Shape), -2 ^ 63 ≤ s.prod → s.prod < 2 ^ 63 →
      [b, flattenProduct s].prod = (b :: s).prod) ∧
    (x.shape.length < 2 → f.Fwd E x = .ok (.error (Err.flattenDims x.shape))) := by
  refine ⟨?_, flattenProduct_eq, ?_, ?_, ?_⟩
  · intro b d ds h
    simp [flatten.Fwd, h, pure, Except.pure]
  · intro s h1 h2
    rw [flattenProduct_eq, wrapInt_of_range _ h1 h2]
  · intro b s h1 h2
    rw [flattenProduct_eq, wrapInt_of_range _ h1 h2]
    simp
  · intro h
    unfold flatten.Fwd
    match hs : x.shape with
    | [] => simp [pure, Except.pure]
    | [_] => simp [pure, Except.pure]
    | _ :: _ :: _ =>
      simp only [hs, List.length_cons] at h
      omega

/-! ### CloneLearnablesTo: models of different size -/

/-- C29: when the train chains of `s` and `to` have different numbers of
learnables, `CloneLearnablesTo` returns the error "models must be identical to
clone learnables" and the model `to` is left as it was; `s` is only read. -/
theorem Sequential.cloneLearnablesTo_mismatch (E : Engine) (order : MapOrder)
    (s dst : Sequential) (a b : Goro.Chain) (hs : s.trainChain = some a)
    (hd : dst.trainChain = some b) (hlen : a.Learnables.length ≠ b.Learnables.length) :
    s.CloneLearnablesTo E order dst =
      .ok (dst, some (Err.msg "models must be identical to clone learnables")) := by
  simp [Sequential.CloneLearnablesTo, hs, hd, deref, bind, Except.bind, pure, Except.pure,
    hlen]

/-- C29, copying from the compiled sample model, which has three learnables, to
the compiled one-layer model, which has two. -/
theorem Sequential.cloneLearnablesTo_mismatch_witness :
    (sampleCompiled "m" none).CloneLearnablesTo sampleEngine MapOrder.tb_on_ob
        sampleSmallCompiled =
      .ok (sampleSmallCompiled,
        some (Err.msg "models must be identical to clone learnables")) :=
  Sequential.cloneLearnablesTo_mismatch sampleEngine MapOrder.tb_on_ob
    (sampleCompiled "m" none) sampleSmallCompiled _ _ rfl rfl (by decide)

/-! ### Clone of a compiled layer -/

/-- C27: `Clone` of a compiled layer does not succeed for every kind. The
config clones of `FC` (a pointer, asserted to be a struct) and of `Conv2D`,
`Flatten` and `Reshape` (structs, asserted to be pointers) fail the type
assertion, so `Clone` of an `fc`, `conv2D`, `flatten` or `reshape` layer
panics. `Clone` of a `maxPooling2D` or `dropout` layer returns a layer of the
same kind with an equal config. The layer compiled from the config
`FC{Input: 5, Output: 3}` panics in `Clone`. -/
theorem Layer.clone_asserts :
    (∀ (f : Goro.fc) (a : ActivationFn), f.FC.Activation = some a →
      (Layer.fc f).Clone =
        .error "interface conversion: layer.Config is *layer.FC, not layer.FC") ∧
    (∀ f : Goro.fc, ∃ p, (Layer.fc f).Clone = .error p) ∧
    (∀ (c : Goro.conv2D) (a : ActivationFn), c.Conv2D.Activation = some a →
      (Layer.conv2D c).Clone =
        .error "interface conversion: layer.Config is layer.Conv2D, not *layer.Conv2D") ∧
    (∀ c : Goro.conv2D, ∃ p, (Layer.conv2D c).Clone = .error p) ∧
    (∀ f : Goro.flatten,
      (Layer.flatten f).Clone =
        .error "interface conversion: layer.Config is layer.Flatten, not *layer.Flatten") ∧
    (∀ r : Goro.reshape,
      (Layer.reshape r).Clone =
        .error "interface conversion: layer.Config is layer.Reshape, not *layer.Reshape") ∧
    (∀ m : Goro.maxPooling2D,
      (Layer.maxPooling2D m).Clone =
        .ok (Layer.maxPooling2D { MaxPooling2D := m.MaxPooling2D, graph := none })) ∧
    (∀ d : Goro.dropout,
      (Layer.dropout d).Clone = .ok (Layer.dropout { Dropout := d.Dropout, graph := none })) ∧
    ((NewChain sampleEngine [plainFC]).bind (fun c => c.Compile sampleEngine 0 [] 0)).map
        (fun r => r.1.layers.map Layer.Clone) =
      .ok [.error "interface conversion: layer.Config is *layer.FC, not layer.FC"] := by
  refine ⟨?_, ?_, ?_, ?_, fun _ => rfl, fun _ => rfl, fun _ => rfl, fun _ => rfl, rfl⟩
  · intro f a h
    simp [Layer.Clone, fc.Clone, Config.Clone, FC.Clone, h, bind, Except.bind, pure,
      Except.pure, throw, throwThe, MonadExceptOf.throw]
  · intro f
    cases h : f.FC.Activation <;>
      simp [Layer.Clone, fc.Clone, Config.Clone, FC.Clone, h, bind, Except.bind, pure,
        Except.pure, throw, throwThe, MonadExceptOf.throw]
  · intro c a h
    simp [Layer.Clone, conv2D.Clone, Config.Clone, Conv2D.Clone, h, bind, Except.bind, pure,
      Except.pure, throw, throwThe, MonadExceptOf.throw]
  · intro c
    cases h : c.Conv2D.Activation <;>
      simp [Layer.Clone, conv2D.Clone, Config.Clone, Conv2D.Clone, h, bind, Except.bind, pure,
        Except.pure, throw, throwThe, MonadExceptOf.throw]

/-! ### The axis of softMax -/

theorem softMax_squeezed (E : Engine) (a : Node) (d : Int) (rest : Shape) (axes : List Int)
    (hs : a.shape = d :: rest) (hd : d ≠ 1) :
    softMax E a axes =
      match axes with
      | [] => softMaxAlong E a (softMaxDefaultAxis E a (d :: rest))
      | ax :: _ =>
        if ax ≥ softMaxDefaultAxis E a (d :: rest) + 1 ∨ ax < 0 then
          .ok (.error (Err.softmaxAxis ax a.shape))
        else softMaxAlong E a ax := by
  unfold softMax
  rw [hs]
  simp only [hd, if_false, bind, Except.bind, pure, Except.pure]
  cases axes with
  | nil => rfl
  | cons ax more =>
    simp only [softMaxDefaultAxis, softMaxAlong]
    by_cases hc : ax ≥ (if (E.isColVec a || (E.isVector a && !E.isRowVec a)) = true then (0 : Int)
        else ((d :: rest).length : Int) - 1) + 1 ∨ ax < 0
    · simp only [hc, if_true, hs]
    · simp only [hc, if_false]
      rfl

theorem softMax_leading_one (E : Engine) (a a1 : Node) (rest : Shape) (axes : List Int)
    (hs : a.shape = 1 :: rest) (hr : E.apply (Op.Reshape rest) [a] = .ok a1) :
    softMax E a axes =
      match axes with
      | [] => softMaxAlong E a1 (softMaxDefaultAxis E a1 rest)
      | ax :: _ =>
        if ax ≥ softMaxDefaultAxis E a1 rest + 1 ∨ ax < 0 then
          .ok (.error (Err.softmaxAxis ax a1.shape))
        else softMaxAlong E a1 ax := by
  unfold softMax
  rw [hs]
  simp only [if_true, hr, bind, Except.bind, pure, Except.pure]
  cases axes with
  | nil => rfl
  | cons ax more =>
    simp only [softMaxDefaultAxis, softMaxAlong]
    by_cases hc : ax ≥ (if (E.isColVec a1 || (E.isVector a1 && !E.isRowVec a1)) = true
        then (0 : Int) else (rest.length : Int) - 1) + 1 ∨ ax < 0
    · simp only [hc, if_true]
    · simp only [hc, if_false]
      rfl

/-- C21: with no explicit axis, `softMax` removes the first dimension of the
input when it is 1, and only that one, and normalises along the last axis of
what remains, except that it normalises along axis 0 when the node is a column
vector or a vector that is not a row vector (a rank-1 vector). -/
theorem softMax_default_axis (E : Engine) (a : Node) (d : Int) (rest : Shape)
    (hs : a.shape = d :: rest) :
    (d ≠ 1 → softMax E a [] = softMaxAlong E a (softMaxDefaultAxis E a (d :: rest))) ∧
    (d = 1 → ∀ a1, E.apply (Op.Reshape rest) [a] = .ok a1 →
      softMax E a [] = softMaxAlong E a1 (softMaxDefaultAxis E a1 rest)) ∧
    (∀ (n : Node) (sh : Shape),
      (E.isColVec n = true ∨ (E.isVector n = true ∧ E.isRowVec n = false)) →
      softMaxDefaultAxis E n sh = 0) ∧
    (∀ (n : Node) (sh : Shape),
      ¬ (E.isColVec n = true ∨ (E.isVector n = true ∧ E.isRowVec n = false)) →
      softMaxDefaultAxis E n sh = (sh.length : Int) - 1) := by
  refine ⟨fun hd => softMax_squeezed E a d rest [] hs hd, ?_, ?_, ?_⟩
  · intro hd a1 hr
    subst hd
    exact softMax_leading_one E a a1 rest [] hs hr
  · intro n sh h
    unfold softMaxDefaultAxis
    rcases h with h | ⟨h1, h2⟩ <;> simp [*]
  · intro n sh h
    unfold softMaxDefaultAxis
    rw [if_neg]
    intro hc
    apply h
    simp only [Bool.or_eq_true, Bool.and_eq_true, Bool.not_eq_true'] at hc
    exact hc

/-- C21, at nodes of shape [1, 1, 4] and [1, 4]: the first is normalised along
axis 1 of the shape [1, 4], the second along axis 0 of the shape [4]. -/
theorem softMax_default_axis_witness :
    softMax reshapingEngine (sampleNode [1, 1, 4]) [] =
      softMaxAlong reshapingEngine { sampleNode [1, 1, 4] with shape := [1, 4] } 1 ∧
    softMax reshapingEngine (sampleNode [1, 4]) [] =
      softMaxAlong reshapingEngine { sampleNode [1, 4] with shape := [4] } 0 :=
  ⟨(softMax_default_axis reshapingEngine (sampleNode [1, 1, 4]) 1 [1, 4] rfl).2.1 rfl _ rfl,
   (softMax_default_axis reshapingEngine (sampleNode [1, 4]) 1 [4] rfl).2.1 rfl _ rfl⟩

/-- C22 as stated fails: for a column vector of shape [3, 1] the explicit axis 1
is within the two dimensions of the input, and `softMax` returns the axis
error. -/
theorem softMax_rejects_column_axis :
    softMax sampleEngine (sampleNode [3, 1]) [1] =
      .ok (.error (Err.softmaxAxis 1 [3, 1])) ∧
    (0 : Int) ≤ 1 ∧ (1 : Int) < ((sampleNode [3, 1]).shape.length : Int) ∧
    sampleEngine.isColVec (sampleNode [3, 1]) = true := by
  refine ⟨rfl, by decide, by decide, rfl⟩

/-- C22, amended: with an explicit axis `ax`, `softMax` returns the axis error
exactly when `ax` is negative or greater than the default axis of the input
after the squeeze of the leading one. For a node that is neither a column
vector nor a vector that is not a row vector this means `ax` is at least the
number of dimensions of the squeezed input; for a column vector or such a
vector every axis but 0 is rejected. For an accepted `ax` it normalises along
axis `ax`. -/
theorem softMax_explicit_axis (E : Engine) (a : Node) (d : Int) (rest : Shape) (ax : Int)
    (more : List Int) (hs : a.shape = d :: rest) :
    (d ≠ 1 → softMax E a (ax :: more) =
      if ax ≥ softMaxDefaultAxis E a (d :: rest) + 1 ∨ ax < 0 then
        .ok (.error (Err.softmaxAxis ax a.shape))
      else softMaxAlong E a ax) ∧
    (d = 1 → ∀ a1, E.apply (Op.Reshape rest) [a] = .ok a1 →
      softMax E a (ax :: more) =
        if ax ≥ softMaxDefaultAxis E a1 rest + 1 ∨ ax < 0 then
          .ok (.error (Err.softmaxAxis ax a1.shape))
        else softMaxAlong E a1 ax) ∧
    (∀ (n : Node) (sh : Shape),
      ¬ (E.isColVec n = true ∨ (E.isVector n = true ∧ E.isRowVec n = false)) →
      ((ax ≥ softMaxDefaultAxis E n sh + 1 ∨ ax < 0) ↔ (ax < 0 ∨ ax ≥ (sh.length : Int)))) ∧
    (∀ (n : Node) (sh : Shape),
      (E.isColVec n = true ∨ (E.isVector n = true ∧ E.isRowVec n = false)) →
      ((ax ≥ softMaxDefaultAxis E n sh + 1 ∨ ax < 0) ↔ ax ≠ 0)) := by
  refine ⟨fun hd => softMax_squeezed E a d rest (ax :: more) hs hd, ?_, ?_, ?_⟩
  · intro hd a1 hr
    subst hd
    exact softMax_leading_one E a a1 rest (ax :: more) hs hr
  · intro n sh h
    have hD : softMaxDefaultAxis E n sh = (sh.length : Int) - 1 := by
      unfold softMaxDefaultAxis
      rw [if_neg]
      intro hc
      apply h
      simp only [Bool.or_eq_true, Bool.and_eq_true, Bool.not_eq_true'] at hc
      exact hc
    rw [hD]
    omega
  · intro n sh h
    have hD : softMaxDefaultAxis E n sh = 0 := by
      unfold softMaxDefaultAxis
      rcases h with h | ⟨h1, h2⟩ <;> simp [*]
    rw [hD]
    omega

/-- C22, amended, at a node of shape [1, 2, 4]: the axis 1 of the squeezed shape
[2, 4] is accepted, and the axis 2 is rejected. -/
theorem softMax_explicit_axis_witness :
    softMax reshapingEngine (sampleNode [1, 2, 4]) [1] =
      (if (1 : Int) ≥ softMaxDefaultAxis reshapingEngine
            { sampleNode [1, 2, 4] with shape := [2, 4] } [2, 4] + 1 ∨ (1 : Int) < 0 then
        .ok (.error (Err.softmaxAxis 1 [2, 4]))
      else softMaxAlong reshapingEngine { sampleNode [1, 2, 4] with shape := [2, 4] } 1) ∧
    softMax reshapingEngine (sampleNode [1, 2, 4]) [2] =
      .ok (.error (Err.softmaxAxis 2 [2, 4])) :=
  ⟨(softMax_explicit_axis reshapingEngine (sampleNode [1, 2, 4]) 1 [2, 4] 1 [] rfl).2.1 rfl _ rfl,
   rfl⟩

/-! ### Compile and ResizeBatch work on clones of the inputs -/

theorem otherPanic_ne (p name : String) (h : otherPanic p) : p ≠ alreadyCompiled name := by
  intro hp
  apply h
  rw [hp]
  simp only [alreadyCompiled, String.data_append, List.append_assoc]
  rfl

theorem deref_panic {α : Type} {x : Option α} {p : String} (h : deref x = .error p) :
    otherPanic p := by
  cases x with
  | none =>
    cases h
    unfold otherPanic
    decide
  | some a => cases h

theorem derefAll_panic : ∀ {l : List (Option Node)} {p : String},
    derefAll l = .error p → otherPanic p
  | [], p, h => by cases h
  | x :: rest, p, h => by
    unfold derefAll at h
    simp only [bind, Except.bind, pure, Except.pure] at h
    repeat' split at h
    all_goals first
      | (cases h; done)
      | (cases h; apply deref_panic; assumption)
      | (cases h; apply derefAll_panic; assumption)

theorem Input.AsBatch_panic {E : Engine} {i : Input} {size : Int} {p : String}
    (h : i.AsBatch E size = .error p) : otherPanic p := by
  unfold Input.AsBatch at h
  simp only [bind, Except.bind, pure, Except.pure, throw, throwThe, MonadExceptOf.throw] at h
  repeat' split at h
  all_goals first
    | (cases h; done)
    | (cases h; unfold otherPanic; decide)

theorem Input.CloneWith_panic {E : Engine} {i : Input} {opts : List CloneOpt} {p : String}
    (h : i.CloneWith E opts = .error p) : otherPanic p := by
  unfold Input.CloneWith at h
  generalize i.Clone = start at h
  induction opts generalizing start with
  | nil => cases h
  | cons opt rest ih =>
    simp only [List.foldlM_cons, bind, Except.bind] at h
    split at h
    · rename_i e he
      cases h
      cases opt with
      | AsBatch size => exact Input.AsBatch_panic he
    · exact ih _ h

theorem Input.CloneTo_panic {E : Engine} {i : Input} {graph : Nat} {opts : List CloneOpt}
    {tick : Nat} {p : String} (h : i.CloneTo E graph opts tick = .error p) : otherPanic p := by
  unfold Input.CloneTo at h
  simp only [bind, Except.bind] at h
  split at h
  · cases h
    exact Input.CloneWith_panic (by assumption)
  · rename_i c hc
    have hn := Input.CloneWith_node E i opts c hc
    simp only [hn, Input.Compile, pure, Except.pure] at h
    cases h

theorem Inputs.Compile_clone_ok (E : Engine) (graph : Nat) : ∀ (l : Inputs) (tick : Nat),
    ∃ r, Inputs.Compile E (Inputs.Clone l) graph tick = .ok r
  | [], tick => ⟨_, rfl⟩
  | i :: rest, tick => by
    obtain ⟨r, hr⟩ := Inputs.Compile_clone_ok E graph rest (tick + 1)
    simp only [Inputs.Clone, List.map_cons] at hr ⊢
    simp only [Inputs.Compile, Input.Compile, Input.Clone, bind, Except.bind, pure,
      Except.pure, hr]
    exact ⟨_, rfl⟩

theorem Sequential.cloneInputs_panic {E : Engine} {lossInputs : Inputs} {graph : Nat}
    {opts : List CloneOpt} : ∀ {x acc : Inputs} {tick : Nat} {p : String},
    Sequential.cloneInputs E lossInputs graph opts x acc tick = .error p → otherPanic p
  | [], acc, tick, p, h => by cases h
  | input :: rest, acc, tick, p, h => by
    unfold Sequential.cloneInputs at h
    simp only [bind, Except.bind] at h
    repeat' split at h
    all_goals first
      | (cases h; done)
      | (cases h; apply Input.CloneTo_panic; assumption)
      | (apply Sequential.cloneInputs_panic; assumption)

theorem Sequential.onlineBatchInputs_panic {E : Engine} {graph : Nat} {fwdName : String}
    {b : Int} : ∀ {x acc : Inputs} {fwd : Option Input} {tick : Nat} {p : String},
    Sequential.onlineBatchInputs E graph fwdName b x acc fwd tick = .error p → otherPanic p
  | [], acc, fwd, tick, p, h => by cases h
  | input :: rest, acc, fwd, tick, p, h => by
    unfold Sequential.onlineBatchInputs at h
    simp only [bind, Except.bind] at h
    split at h
    · split at h
      · cases h
        apply Input.AsBatch_panic
        assumption
      · rename_i bi hbi
        have hn := Input.AsBatch_node E _ _ _ hbi
        simp only [Input.Compile, hn, pure, Except.pure] at h
        exact Sequential.onlineBatchInputs_panic h
    · split at h
      · cases h
        apply Input.CloneTo_panic
        assumption
      · exact Sequential.onlineBatchInputs_panic h

theorem Chain.Add_panic {E : Engine} : ∀ {l : List Config} {c : Chain} {p : String},
    Chain.Add E c l = .error p → otherPanic p
  | [], c, p, h => by cases h
  | cfg :: rest, c, p, h => by
    unfold Chain.Add at h
    simp only [Fatalf, throw, throwThe, MonadExceptOf.throw, pure, Except.pure] at h
    repeat' split at h
    all_goals first
      | (cases h; done)
      | (cases h; rename_i hf; split at hf <;> cases hf; unfold otherPanic; decide)
      | (apply Chain.Add_panic; assumption)

theorem FC.fc_Clone_panic {f : FC} {p : String} (h : f.Clone = .error p) : otherPanic p := by
  unfold FC.Clone at h
  split at h
  · cases h
    unfold otherPanic
    decide
  · cases h

theorem Conv2D.conv2D_Clone_panic {c : Conv2D} {p : String} (h : c.Clone = .error p) :
    otherPanic p := by
  unfold Conv2D.Clone at h
  split at h
  · cases h
    unfold otherPanic
    decide
  · cases h

theorem Config.config_Clone_panic {c : Config} {p : String} (h : c.Clone = .error p) :
    otherPanic p := by
  unfold Config.Clone at h
  simp only [bind, Except.bind, pure, Except.pure] at h
  repeat' split at h
  all_goals first
    | (cases h; done)
    | (cases h; apply FC.fc_Clone_panic; assumption)
    | (cases h; apply Conv2D.conv2D_Clone_panic; assumption)

theorem Chain.cloneLoop_panic {E : Engine} : ∀ {l : List Config} {c : Chain} {p : String},
    Chain.cloneLoop E c l = .error p → otherPanic p
  | [], c, p, h => by cases h
  | cfg :: rest, c, p, h => by
    unfold Chain.cloneLoop at h
    simp only [bind, Except.bind] at h
    repeat' split at h
    all_goals first
      | (cases h; done)
      | (cases h; apply Config.config_Clone_panic; assumption)
      | (cases h; apply Chain.Add_panic; assumption)
      | (apply Chain.cloneLoop_panic; assumption)

theorem Chain.chain_Clone_panic {E : Engine} {c : Chain} {p : String}
    (h : c.Clone E = .error p) : otherPanic p :=
  Chain.cloneLoop_panic h

theorem CompileOpt.foldlM_runFC_panic : ∀ {opts : List CompileOpt} {l : fc} {p : String},
    opts.foldlM (fun l opt => opt.runFC l) l = .error p → otherPanic p
  | [], l, p, h => by cases h
  | opt :: rest, l, p, h => by
    simp only [List.foldlM_cons, bind, Except.bind] at h
    split at h
    · rename_i e he
      cases h
      unfold CompileOpt.runFC at he
      simp only [pure, Except.pure, throw, throwThe, MonadExceptOf.throw] at he
      split at he <;> cases he
      unfold otherPanic
      decide
    · exact CompileOpt.foldlM_runFC_panic h

theorem CompileOpt.foldlM_runConv2D_panic : ∀ {opts : List CompileOpt} {l : conv2D}
    {p : String}, opts.foldlM (fun l opt => opt.runConv2D l) l = .error p → otherPanic p
  | [], l, p, h => by cases h
  | opt :: rest, l, p, h => by
    simp only [List.foldlM_cons, bind, Except.bind] at h
    split at h
    · rename_i e he
      cases h
      unfold CompileOpt.runConv2D at he
      simp only [pure, Except.pure, throw, throwThe, MonadExceptOf.throw] at he
      split at he <;> cases he
      unfold otherPanic
      decide
    · exact CompileOpt.foldlM_runConv2D_panic h

theorem ptrValue_panic {n : Option Node} {p : String} (h : ptrValue n = .error p) :
    otherPanic p := by
  cases n with
  | none =>
    cases h
    unfold otherPanic
    decide
  | some a => cases h

theorem withValue_panic {E : Engine} {dtype : Dtype} {dims : Nat} {v : Option Value}
    {p : String} (h : withValue E dtype dims v = .error p) : otherPanic p := by
  unfold withValue at h
  split at h
  · cases h
  · cases h
    unfold otherPanic
    decide

theorem withInit_panic {E : Engine} {fn : Option InitWFn} {dtype : Dtype} {shape : Shape}
    {tick : Nat} {p : String} (h : withInit E fn dtype shape tick = .error p) :
    otherPanic p := by
  cases fn with
  | none =>
    cases h
    unfold otherPanic
    decide
  | some a => cases h

theorem FC.fc_Compile_panic {E : Engine} {f : FC} {graph : Nat} {opts : List CompileOpt}
    {tick : Nat} {p : String} (h : f.Compile E graph opts tick = .error p) :
    otherPanic p := by
  unfold FC.Compile at h
  simp only [bind, Except.bind, pure, Except.pure] at h
  repeat' split at h
  all_goals first
    | (cases h; done)
    | (cases h; apply CompileOpt.foldlM_runFC_panic; assumption)
    | (cases h; apply ptrValue_panic; assumption)
    | (cases h; apply withValue_panic; assumption)
    | (cases h; apply withInit_panic; assumption)

theorem Conv2D.conv2D_Compile_panic {E : Engine} {c : Conv2D} {graph : Nat}
    {opts : List CompileOpt} {tick : Nat} {p : String}
    (h : c.Compile E graph opts tick = .error p) : otherPanic p := by
  unfold Conv2D.Compile at h
  simp only [bind, Except.bind, pure, Except.pure] at h
  repeat' split at h
  all_goals first
    | (cases h; done)
    | (cases h; apply CompileOpt.foldlM_runConv2D_panic; assumption)
    | (cases h; apply ptrValue_panic; assumption)
    | (cases h; apply withValue_panic; assumption)
    | (cases h; apply withInit_panic; assumption)

theorem Config.config_Compile_panic {E : Engine} {c : Config} {graph : Nat}
    {opts : List CompileOpt} {tick : Nat} {p : String}
    (h : c.Compile E graph opts tick = .error p) : otherPanic p := by
  unfold Config.Compile at h
  split at h
  · exact FC.fc_Compile_panic h
  · exact Conv2D.conv2D_Compile_panic h
  all_goals cases h

theorem Chain.compileLoop_panic {E : Engine} {graph : Nat} {shared : Option (List Layer)}
    {compileOpts : List CompileOpt} : ∀ {cfgs : List Config} {i : Nat} {layers : List Layer}
      {tick : Nat} {p : String},
    Chain.compileLoop E graph shared compileOpts cfgs i layers tick = .error p → otherPanic p
  | [], i, layers, tick, p, h => by cases h
  | cfg :: rest, i, layers, tick, p, h => by
    unfold Chain.compileLoop at h
    simp only [bind, Except.bind, throw, throwThe, MonadExceptOf.throw] at h
    repeat' split at h
    all_goals first
      | (cases h; done)
      | (cases h; unfold otherPanic; decide)
      | (cases h; apply Config.config_Compile_panic; assumption)
      | (apply Chain.compileLoop_panic; assumption)

theorem Chain.chain_Compile_panic {E : Engine} {c : Chain} {graph : Nat} {opts : List ChainOpt}
    {tick : Nat} {p : String} (h : c.Compile E graph opts tick = .error p) :
    otherPanic p := by
  unfold Chain.Compile at h
  simp only [bind, Except.bind, pure, Except.pure] at h
  split at h
  · cases h
    apply Chain.compileLoop_panic
    assumption
  · cases h

theorem softMaxNewShape_panic {ss : Shape} {diff : Nat} {axis : Int} {p : String}
    (h : softMaxNewShape ss diff axis = .error p) : otherPanic p := by
  unfold softMaxNewShape at h
  simp only [pure, Except.pure, throw, throwThe, MonadExceptOf.throw] at h
  repeat' split at h
  all_goals first
    | (cases h; done)
    | (cases h; unfold otherPanic; decide)

theorem softMaxAlong_panic {E : Engine} {a : Node} {axis : Int} {p : String}
    (h : softMaxAlong E a axis = .error p) : otherPanic p := by
  unfold softMaxAlong at h
  simp only [withOp, bind, Except.bind, pure, Except.pure] at h
  repeat' split at h
  all_goals first
    | (cases h; done)
    | (cases h; apply softMaxNewShape_panic; assumption)

theorem softMax_panic {E : Engine} {a : Node} {axes : List Int} {p : String}
    (h : softMax E a axes = .error p) : otherPanic p := by
  cases hs : a.shape with
  | nil =>
    simp only [softMax, hs, throw, throwThe, MonadExceptOf.throw] at h
    cases h
    unfold otherPanic
    decide
  | cons d rest =>
    by_cases hd : d = 1
    · subst hd
      cases hr : E.apply (Op.Reshape rest) [a] with
      | error e =>
        simp only [softMax, hs, hr, if_true, bind, Except.bind, throw, throwThe,
          MonadExceptOf.throw] at h
        cases h
        unfold otherPanic
        decide
      | ok a1 =>
        rw [softMax_leading_one E a a1 rest axes hs hr] at h
        cases axes with
        | nil => exact softMaxAlong_panic h
        | cons ax more =>
          simp only at h
          split at h
          · cases h
          · exact softMaxAlong_panic h
    · rw [softMax_squeezed E a d rest axes hs hd] at h
      cases axes with
      | nil => exact softMaxAlong_panic h
      | cons ax more =>
        simp only at h
        split at h
        · cases h
        · exact softMaxAlong_panic h

theorem ActivationFn.Fwd_panic {E : Engine} {a : ActivationFn} {x : Node} {p : String}
    (h : a.Fwd E x = .error p) : otherPanic p := by
  cases a with
  | Softmax axis => exact softMax_panic h
  | _ => cases h

theorem fc.fc_Fwd_panic {E : Engine} {f : fc} {x : Node} {p : String}
    (h : f.Fwd E x = .error p) : otherPanic p := by
  unfold fc.Fwd at h
  simp only [withOp, bind, Except.bind, pure, Except.pure, throw, throwThe,
    MonadExceptOf.throw] at h
  repeat' split at h
  all_goals first
    | (cases h; done)
    | (cases h; unfold otherPanic; decide)
    | (apply ActivationFn.Fwd_panic; assumption)

theorem conv2D.conv2D_Fwd_panic {E : Engine} {c : conv2D} {x : Node} {p : String}
    (h : c.Fwd E x = .error p) : otherPanic p := by
  unfold conv2D.Fwd at h
  simp only [withOp, bind, Except.bind, pure, Except.pure, throw, throwThe,
    MonadExceptOf.throw] at h
  repeat' split at h
  all_goals first
    | (cases h; done)
    | (cases h; unfold otherPanic; decide)
    | (apply ActivationFn.Fwd_panic; assumption)

theorem Layer.layer_Fwd_panic {E : Engine} {l : Layer} {x : Node} {p : String}
    (h : l.Fwd E x = .error p) : otherPanic p := by
  cases l with
  | fc l => exact fc.fc_Fwd_panic h
  | conv2D l => exact conv2D.conv2D_Fwd_panic h
  | dropout l => cases h
  | maxPooling2D l => cases h
  | flatten l =>
    simp only [Layer.Fwd, flatten.Fwd, pure, Except.pure] at h
    repeat' split at h
    all_goals cases h
  | reshape l =>
    simp only [Layer.Fwd, reshape.Fwd, pure, Except.pure, throw, throwThe,
      MonadExceptOf.throw] at h
    repeat' split at h
    all_goals first
      | (cases h; done)
      | (cases h; unfold otherPanic; decide)

theorem Chain.fwdLoop_panic {E : Engine} : ∀ {layers : List Layer} {x : Node} {p : String},
    Chain.fwdLoop E layers x = .error p → otherPanic p
  | [], x, p, h => by cases h
  | l :: rest, x, p, h => by
    unfold Chain.fwdLoop at h
    simp only [pure, Except.pure] at h
    repeat' split at h
    all_goals first
      | (cases h; done)
      | (cases h; apply Layer.layer_Fwd_panic; assumption)
      | (apply Chain.fwdLoop_panic; assumption)

theorem Loss.Compute_panic {E : Engine} {l : Loss} {yHat y : Node} {tick : Nat} {p : String}
    (h : l.Compute E yHat y tick = .error p) : otherPanic p := by
  unfold Loss.Compute at h
  simp only [withOp, pure, Except.pure, throw, throwThe, MonadExceptOf.throw] at h
  repeat' split at h
  all_goals first
    | (cases h; done)
    | (cases h; unfold otherPanic; decide)

theorem Input.Compile_clone_panic {E : Engine} {i : Input} {graph tick : Nat} {p : String}
    (h : i.Clone.Compile E graph tick = .error p) : otherPanic p := by
  simp only [Input.Compile, Input.Clone, pure, Except.pure] at h
  cases h

theorem Inputs.inputs_Compile_clone_panic {E : Engine} {l : Inputs} {graph tick : Nat} {p : String}
    (h : Inputs.Compile E (Inputs.Clone l) graph tick = .error p) : otherPanic p := by
  obtain ⟨r, hr⟩ := Inputs.Compile_clone_ok E graph l tick
  rw [hr] at h
  cases h

theorem Input.Compile_batch_panic {E E' : Engine} {i bi : Input} {size : Int}
    {graph tick : Nat} {p : String} (hc : bi.Compile E graph tick = .error p)
    (ha : i.AsBatch E' size = .ok bi) : otherPanic p := by
  have hn := Input.AsBatch_node E' i bi size ha
  simp only [Input.Compile, hn, pure, Except.pure] at hc
  cases hc

theorem Sequential.buildTrainGraph_panic {E : Engine} {s : Sequential} {x : Inputs}
    {y : Option Input} {p : String} (h : s.buildTrainGraph E x y = .error p) :
    otherPanic p := by
  unfold Sequential.buildTrainGraph at h
  simp only [bind, Except.bind, pure, Except.pure, Chain.Fwd] at h
  repeat' split at h
  all_goals first
    | (cases h; done)
    | (cases h; apply deref_panic; assumption)
    | (cases h; apply derefAll_panic; assumption)
    | (cases h; apply Sequential.cloneInputs_panic; assumption)
    | (cases h; apply Input.Compile_clone_panic; assumption)
    | (cases h; apply Chain.chain_Clone_panic; assumption)
    | (cases h; apply Chain.chain_Compile_panic; assumption)
    | (cases h; apply Chain.fwdLoop_panic; assumption)
    | (cases h; apply Loss.Compute_panic; assumption)

theorem Sequential.buildTrainBatchGraph_panic {E : Engine} {s : Sequential} {x : Inputs}
    {y : Option Input} {p : String} (h : s.buildTrainBatchGraph E x y = .error p) :
    otherPanic p := by
  unfold Sequential.buildTrainBatchGraph at h
  simp only [bind, Except.bind, pure, Except.pure, Chain.Fwd] at h
  repeat' split at h
  all_goals first
    | (cases h; done)
    | (cases h; apply deref_panic; assumption)
    | (cases h; apply derefAll_panic; assumption)
    | (cases h; apply Sequential.cloneInputs_panic; assumption)
    | (cases h; apply Input.AsBatch_panic; assumption)
    | (cases h; apply Input.Compile_batch_panic <;> assumption)
    | (cases h; apply Chain.chain_Clone_panic; assumption)
    | (cases h; apply Chain.chain_Compile_panic; assumption)
    | (cases h; apply Chain.fwdLoop_panic; assumption)
    | (cases h; apply Loss.Compute_panic; assumption)

theorem Sequential.buildOnlineGraph_panic {E : Engine} {s : Sequential} {x : Inputs}
    {p : String} (h : s.buildOnlineGraph E x = .error p) : otherPanic p := by
  unfold Sequential.buildOnlineGraph at h
  simp only [bind, Except.bind, pure, Except.pure, Chain.Fwd] at h
  repeat' split at h
  all_goals first
    | (cases h; done)
    | (cases h; apply deref_panic; assumption)
    | (cases h; apply Inputs.inputs_Compile_clone_panic; assumption)
    | (cases h; apply Chain.chain_Clone_panic; assumption)
    | (cases h; apply Chain.chain_Compile_panic; assumption)
    | (cases h; apply Chain.fwdLoop_panic; assumption)

theorem Sequential.buildOnlineBatchGraph_panic {E : Engine} {s : Sequential} {x : Inputs}
    {p : String} (h : s.buildOnlineBatchGraph E x = .error p) : otherPanic p := by
  unfold Sequential.buildOnlineBatchGraph at h
  simp only [bind, Except.bind, pure, Except.pure, Chain.Fwd] at h
  repeat' split at h
  all_goals first
    | (cases h; done)
    | (cases h; apply deref_panic; assumption)
    | (cases h; apply Sequential.onlineBatchInputs_panic; assumption)
    | (cases h; apply Chain.chain_Clone_panic; assumption)
    | (cases h; apply Chain.chain_Compile_panic; assumption)
    | (cases h; apply Chain.fwdLoop_panic; assumption)

theorem Step.andThen_error {r : Step} {k : Sequential → Step} {p : String}
    (h : r.andThen k = .error p) :
    r = .error p ∨ ∃ s1, r = .ok (s1, none) ∧ k s1 = .error p := by
  unfold Step.andThen at h
  split at h
  · cases h
    exact Or.inl rfl
  · cases h
  · exact Or.inr ⟨_, rfl, h⟩

theorem Step.andThen_ok {r : Step} {k : Sequential → Step} {s' : Sequential}
    {e : Option Err} (h : r.andThen k = .ok (s', e)) :
    r = .ok (s', e) ∨ ∃ s1, r = .ok (s1, none) ∧ k s1 = .ok (s', e) := by
  unfold Step.andThen at h
  split at h
  · cases h
  · cases h
    exact Or.inl rfl
  · exact Or.inr ⟨_, rfl, h⟩

theorem Sequential.defaultFwd_panic {s : Sequential} {x : InputOr} {p : String}
    (h : s.defaultFwd x = .error p) : otherPanic p := by
  unfold Sequential.defaultFwd at h
  simp only [pure, Except.pure, throw, throwThe, MonadExceptOf.throw] at h
  repeat' split at h
  all_goals first
    | (cases h; done)
    | (cases h; unfold otherPanic; decide)

theorem Sequential.defaultTracker_no_panic {E : Engine} {s : Sequential} {p : String}
    (h : s.defaultTracker E = .error p) : False := by
  obtain ⟨s', r, ht⟩ := Sequential.defaultTracker_total E s
  rw [ht] at h
  cases h

theorem Sequential.Compile_panic {E : Engine} {s : Sequential} {x : InputOr} {y : Input}
    {opts : List Opt} {p : String} (h : s.Compile E x y opts = .error p) : otherPanic p := by
  unfold Sequential.Compile at h
  split at h
  · cases h
  · rcases Step.andThen_error h with h1 | ⟨S3, _, h⟩
    · exact (Sequential.defaultTracker_no_panic h1).elim
    · rcases Step.andThen_error h with h1 | ⟨S4, _, h⟩
      · exact Sequential.defaultFwd_panic h1
      · rcases Step.andThen_error h with h1 | ⟨S5, _, h⟩
        · exact Sequential.buildTrainGraph_panic h1
        · rcases Step.andThen_error h with h1 | ⟨S6, _, h⟩
          · exact Sequential.buildTrainBatchGraph_panic h1
          · rcases Step.andThen_error h with h1 | ⟨S7, _, h⟩
            · exact Sequential.buildOnlineGraph_panic h1
            · exact Sequential.buildOnlineBatchGraph_panic h

theorem Sequential.ResizeBatch_panic {E : Engine} {s : Sequential} {n : Int} {p : String}
    (h : s.ResizeBatch E n = .error p) : otherPanic p := by
  unfold Sequential.ResizeBatch at h
  rcases Step.andThen_error h with h1 | ⟨s1, _, h⟩
  · exact Sequential.buildTrainBatchGraph_panic h1
  · exact Sequential.buildOnlineBatchGraph_panic h

theorem Sequential.Compile_keeps_inputs (E : Engine) (s : Sequential) (x : InputOr)
    (y : Input) (opts : List Opt) (s' : Sequential) (r : Option Err)
    (h : s.Compile E x y opts = .ok (s', r)) :
    s'.x = x.Inputs ∧ (y.Validate = none → s'.y = some y) := by
  cases hv : y.Validate with
  | some err =>
    simp only [Sequential.Compile, hv, pure, Except.pure] at h
    cases h
    exact ⟨rfl, fun hn => by cases hn⟩
  | none =>
    unfold Sequential.Compile at h
    simp only [hv] at h
    generalize hpre : (opts.foldl (fun s opt => opt.run s)
        { s with x := x.Inputs, y := some y }) = pre at h
    obtain ⟨_, px, _⟩ := Opt.foldl_frame opts { s with x := x.Inputs, y := some y }
    obtain ⟨py, _, _⟩ := Opt.foldl_io opts { s with x := x.Inputs, y := some y }
    rw [hpre] at px py
    obtain ⟨_, dx, _⟩ := Sequential.defaults_frame pre
    obtain ⟨dy, _⟩ := Sequential.defaults_io pre
    have h0 : pre.defaults.x = x.Inputs ∧ pre.defaults.y = some y :=
      ⟨dx.trans px, dy.trans py⟩
    suffices hh : s'.x = x.Inputs ∧ s'.y = some y from ⟨hh.1, fun _ => hh.2⟩
    rcases Step.andThen_ok h with h1 | ⟨S3, h3, h⟩
    · obtain ⟨_, tx, _⟩ := Sequential.defaultTracker_frame E _ _ _ h1
      obtain ⟨ty, _⟩ := Sequential.defaultTracker_io E _ _ _ h1
      exact ⟨tx.trans h0.1, ty.trans h0.2⟩
    · obtain ⟨_, tx, _⟩ := Sequential.defaultTracker_frame E _ _ _ h3
      obtain ⟨ty, _⟩ := Sequential.defaultTracker_io E _ _ _ h3
      have h3' : S3.x = x.Inputs ∧ S3.y = some y := ⟨tx.trans h0.1, ty.trans h0.2⟩
      rcases Step.andThen_ok h with h1 | ⟨S4, h4, h⟩
      · obtain ⟨fx, fy, _⟩ := Sequential.defaultFwd_io _ _ _ _ h1
        exact ⟨fx.trans h3'.1, fy.trans h3'.2⟩
      · obtain ⟨fx, fy, _⟩ := Sequential.defaultFwd_io _ _ _ _ h4
        have h4' : S4.x = x.Inputs ∧ S4.y = some y := ⟨fx.trans h3'.1, fy.trans h3'.2⟩
        rcases Step.andThen_ok h with h1 | ⟨S5, h5, h⟩
        · obtain ⟨a1, a2, _⟩ := Sequential.buildTrainGraph_io E _ _ _ _ _ h1
          exact ⟨a1.trans h4'.1, a2.trans h4'.2⟩
        · obtain ⟨a1, a2, _⟩ := Sequential.buildTrainGraph_io E _ _ _ _ _ h5
          have h5' : S5.x = x.Inputs ∧ S5.y = some y := ⟨a1.trans h4'.1, a2.trans h4'.2⟩
          rcases Step.andThen_ok h with h1 | ⟨S6, h6, h⟩
          · obtain ⟨b1, b2, _⟩ := Sequential.buildTrainBatchGraph_io E _ _ _ _ _ h1
            exact ⟨b1.trans h5'.1, b2.trans h5'.2⟩
          · obtain ⟨b1, b2, _⟩ := Sequential.buildTrainBatchGraph_io E _ _ _ _ _ h6
            have h6' : S6.x = x.Inputs ∧ S6.y = some y := ⟨b1.trans h5'.1, b2.trans h5'.2⟩
            rcases Step.andThen_ok h with h1 | ⟨S7, h7, h⟩
            · obtain ⟨c1, c2, _⟩ := Sequential.buildOnlineGraph_io E _ _ _ _ h1
              exact ⟨c1.trans h6'.1, c2.trans h6'.2⟩
            · obtain ⟨c1, c2, _⟩ := Sequential.buildOnlineGraph_io E _ _ _ _ h7
              obtain ⟨d1, d2, _⟩ := Sequential.buildOnlineBatchGraph_io E _ _ _ _ h
              exact ⟨d1.trans (c1.trans h6'.1), d2.trans (c2.trans h6'.2)⟩

theorem Sequential.ResizeBatch_keeps_inputs (E : Engine) (s : Sequential) (n : Int)
    (s' : Sequential) (r : Option Err) (h : s.ResizeBatch E n = .ok (s', r)) :
    s'.x = s.x ∧ s'.y = s.y := by
  unfold Sequential.ResizeBatch at h
  rcases Step.andThen_ok h with h1 | ⟨s1, h1, h⟩
  · obtain ⟨b1, b2, _⟩ := Sequential.buildTrainBatchGraph_io E _ _ _ _ _ h1
    exact ⟨b1, b2⟩
  · obtain ⟨b1, b2, _⟩ := Sequential.buildTrainBatchGraph_io E _ _ _ _ _ h1
    obtain ⟨d1, d2, _⟩ := Sequential.buildOnlineBatchGraph_io E _ _ _ _ h
    exact ⟨d1.trans b1, d2.trans b2⟩

/-- C30: `Compile` and `ResizeBatch` leave the inputs of the caller as they
are. Whatever `Compile` returns, the inputs stored in the model are the inputs
supplied, and the target is the target supplied when it is valid; whatever
`ResizeBatch` returns, also after any sequence of such calls, the inputs and
the target of the model are unchanged. Every variant works on clones, which
have the name, shape and type of the input and no node, so neither function
ends in the panic of `Input.Compile` for an input that is already compiled. -/
theorem Sequential.caller_inputs_kept (E : Engine) :
    (∀ (s : Sequential) (x : InputOr) (y : Input) (opts : List Opt) (s' : Sequential)
        (r : Option Err), s.Compile E x y opts = .ok (s', r) →
      s'.x = x.Inputs ∧ (y.Validate = none → s'.y = some y)) ∧
    (∀ (s : Sequential) (n : Int) (s' : Sequential) (r : Option Err),
      s.ResizeBatch E n = .ok (s', r) → s'.x = s.x ∧ s'.y = s.y) ∧
    (∀ s s' : Sequential, Sequential.resized E s s' → s'.x = s.x ∧ s'.y = s.y) ∧
    (∀ (s : Sequential) (x : InputOr) (y : Input) (opts : List Opt) (name : String),
      s.Compile E x y opts ≠ .error (alreadyCompiled name)) ∧
    (∀ (s : Sequential) (n : Int) (name : String),
      s.ResizeBatch E n ≠ .error (alreadyCompiled name)) ∧
    (∀ i : Input, i.Clone.node = none ∧ i.Clone.name = i.name ∧ i.Clone.shape = i.shape ∧
      i.Clone.dtype = i.dtype) ∧
    (∀ (i : Input) (n : Node) (graph tick : Nat), i.node = some n →
      i.Compile E graph tick = .error (alreadyCompiled i.name)) ∧
    ((sampleCompiled "m" none).x = [NewInput "x" [1, 5]] ∧
      (sampleCompiled "m" none).y = some (NewInput "y" [1, 2])) := by
  refine ⟨Sequential.Compile_keeps_inputs E, Sequential.ResizeBatch_keeps_inputs E, ?_, ?_, ?_,
    fun _ => ⟨rfl, rfl, rfl, rfl⟩, ?_, rfl, rfl⟩
  · intro s s' h
    induction h with
    | refl => exact ⟨rfl, rfl⟩
    | step s1 s2 n r _ hr ih =>
      obtain ⟨a, b⟩ := Sequential.ResizeBatch_keeps_inputs E _ _ _ _ hr
      exact ⟨a.trans ih.1, b.trans ih.2⟩
  · intro s x y opts name h
    exact otherPanic_ne _ name (Sequential.Compile_panic h) rfl
  · intro s n name h
    exact otherPanic_ne _ name (Sequential.ResizeBatch_panic h) rfl
  · intro i n graph tick hn
    simp [Input.Compile, hn, alreadyCompiled, throw, throwThe, MonadExceptOf.throw]

end Goro
